

import Mathlib

/-!
# fansi : ANSI CSI SGR state parsing (`src/parse.c`)

A shallow embedding of the tokenizer, the colour sub-parser, the
position-advance state machine, the serializer and the state comparator of
`parse.c`, followed by theorems about them.

Conventions of the embedding

* A C string is a record of an address and the bytes that precede the
  terminating NUL.  Reading index `length` yields the NUL; reading any other
  index outside the buffer is reported as `Err.oob` (the C program would read
  memory it does not own).
* `char` values are modelled as naturals `0..255`; the test
  `c < 0 || c > 127` of the source is the test `c > 127` on that encoding.
* C `int` values are `Int`; `safe_add` keeps its overflow check, all other
  arithmetic is exact.
* `unsigned int` values are `Nat`; none of the sums and masks computed here
  leaves 32 bits.  The header `fansi.h` is not among the sources: the fields
  of `struct FANSI_state` are those `parse.c` uses.
* `error(...)` is an `Except.error`; `warning(...)` has no effect on the
  returned state and is dropped.
* The two unbounded loops take a fuel argument; `FANSI_state_at_raw_position`
  supplies `length + 2`, which is proved sufficient below.
-/

namespace Fansi

/-- Every way a call can stop without returning a value. -/
inductive Err where
  | int_overflow      -- "int overflow" (safe_add)
  | non_ascii         -- "Currently only ASCII-128 characters are supported"
  | non_numeric       -- "attempt to convert non-numeric char to int"
  | tok_overflow      -- "overflow trying to parse ANSI esc seq token"
  | color_mode        -- "parsing color with invalid mode" / "color mode must be 3 or 4"
  | internal          -- the numbered "Internal Error" branches
  | diff_string       -- "Cannot re-use a state with a different string."
  | later_pos         -- "Cannot re-use a state for a later position ..."
  | counter_overflow  -- "counter overflow while reading string"
  | compound_format   -- "unexpected compound color format" (FANSI_color_size)
  | compound_format2  -- "unexpected compound color format 2"
  | color_code        -- "unexpected color code." (FANSI_color_write)
  | alloc_mismatch    -- "tag mem allocation mismatch"
  | null_deref        -- dereference of a NULL `state.string`
  | oob               -- access outside the buffer
  | uninit            -- read of a byte that was never written
  | fuel              -- the model ran out of fuel
  deriving DecidableEq, Repr

/-- A NUL-terminated buffer: where it lives and the bytes before the NUL. -/
structure CString where
  addr : Nat
  bytes : List Nat
  deriving DecidableEq, Repr

/-- The byte `string[i]`. -/
def CString.at (s : CString) (i : Int) : Except Err Nat :=
  if i < 0 then .error .oob
  else if i.toNat < s.bytes.length then .ok (s.bytes.getD i.toNat 0)
  else if i.toNat = s.bytes.length then .ok 0
  else .error .oob

/-- An `int[4]`. -/
structure Arr4 where
  x0 : Int
  x1 : Int
  x2 : Int
  x3 : Int
  deriving DecidableEq, Repr

/-- The array `{0}`. -/
def Arr4.zero : Arr4 := ⟨0, 0, 0, 0⟩

/-- The assignment `a[i] = v` for `i` in `0..3`. -/
def Arr4.set (a : Arr4) (i : Int) (v : Int) : Arr4 :=
  if i = 0 then { a with x0 := v }
  else if i = 1 then { a with x1 := v }
  else if i = 2 then { a with x2 := v }
  else if i = 3 then { a with x3 := v }
  else a

/-- The record `struct FANSI_state`. -/
structure FANSI_state where
  string : Option CString
  style : Nat
  color : Int
  bg_color : Int
  color_extra : Arr4
  bg_color_extra : Arr4
  pos_ansi : Int
  pos_raw : Int
  pos_byte : Int
  last : Int
  fail : Int
  deriving DecidableEq, Repr

def INT_MAX : Int := 2147483647

/-- Lines 22-25. -/
def safe_add (a b : Int) : Except Err Int :=
  if a > INT_MAX - b then .error .int_overflow else .ok (a + b)

/-- Lines 31-35. -/
def FANSI_state_init : FANSI_state :=
  { string := none, style := 0, color := -1, bg_color := -1,
    color_extra := Arr4.zero, bg_color_extra := Arr4.zero,
    pos_ansi := 0, pos_raw := 0, pos_byte := 0, last := 0, fail := 0 }

/-- Lines 39-47. -/
def FANSI_reset_state (state : FANSI_state) : FANSI_state :=
  { state with style := 0, color := -1, color_extra := Arr4.zero,
               bg_color := -1, bg_color_extra := Arr4.zero }

/-- Lines 51-53, on the byte the pointer designates. -/
def FANSI_is_num (c : Nat) : Bool := decide (48 ≤ c) && decide (c ≤ 57)

/-- Lines 57-64, on the byte the pointer designates. -/
def FANSI_as_num (c : Nat) : Except Err Nat :=
  if c > 127 then .error .non_ascii
  else if !FANSI_is_num c then .error .non_numeric
  else .ok (c - 48)

/-- Lines 67-69: `;` is 59 and `m` is 109. -/
def FANSI_is_tok_end (c : Nat) : Bool := decide (c = 59) || decide (c = 109)

/-- The record `struct FANSI_tok_res`. -/
structure FANSI_tok_res where
  val : Nat
  len : Int
  success : Int
  last : Int
  deriving DecidableEq, Repr

/-- Lines 95-103: the digit loop.  The first argument is the value of `limit`
before the test; `--limit` leaves `limit - 1`, and the body runs when that is
non-zero.  The loop starts from `limit = 5`, so the value 0 is never tested.
Returns the advanced cursor and `len`. -/
def FANSI_parse_token.digits (s : CString) : Nat → Int → Int → Except Err (Int × Int)
  | 0, p, len => .ok (p, len)
  | limit + 1, p, len =>
    match s.at p with
    | .error e => .error e
    | .ok c =>
      if FANSI_is_num c && decide (limit ≠ 0) then
        if len + 1 < len then .error .tok_overflow
        else FANSI_parse_token.digits s limit (p + 1) (len + 1)
      else .ok (p, len)

/-- Lines 116-120: read the digits backwards, `len2` of them ending before `p`. -/
def FANSI_parse_token.decode (s : CString) : Nat → Int → Nat → Nat → Except Err Nat
  | 0, _, val, _ => .ok val
  | len2 + 1, p, val, mult =>
    match s.at (p - 1) with
    | .error e => .error e
    | .ok c =>
      match FANSI_as_num c with
      | .error e => .error e
      | .ok d => FANSI_parse_token.decode s len2 (p - 1) (val + d * mult) (mult * 10)

/-- Lines 87-124, called on the pointer `&s[p]`. -/
def FANSI_parse_token (s : CString) (p : Int) : Except Err FANSI_tok_res :=
  match FANSI_parse_token.digits s 5 p 0 with
  | .error e => .error e
  | .ok (q, len) =>
    match s.at q with
    | .error e => .error e
    | .ok c =>
      if FANSI_is_tok_end c then
        let last : Int := if c = 109 then 1 else 0
        if len > 3 then .ok { val := 0, len := len, success := 1, last := last }
        else
          match FANSI_parse_token.decode s len.toNat q 0 1 with
          | .error e => .error e
          | .ok val => .ok { val := val, len := len, success := 2, last := last }
      else .ok { val := 0, len := len, success := 0, last := 0 }

/-- The cursor update `safe_add(pos_byte, safe_add(len, 1))` of lines 147, 169
and 283. -/
def advance (pos_byte len : Int) : Except Err Int := do
  let n ← safe_add len 1
  safe_add pos_byte n

/-- Lines 167-185: the loop over the components.  The first argument counts
the iterations still to run (`i_max - i`); the result carries the state,
`rgb` and `valid_col`. -/
def FANSI_parse_colors.components (str : CString) (i_max : Int) :
    Nat → Int → FANSI_state → Arr4 → Int → Except Err (FANSI_state × Arr4 × Int)
  | 0, _, state, rgb, valid_col => .ok (state, rgb, valid_col)
  | n + 1, i, state, rgb, valid_col => do
    let res ← FANSI_parse_token str state.pos_byte
    let pb ← advance state.pos_byte res.len
    let state := { state with pos_byte := pb, last := res.last }
    if res.success ≠ 0 then
      let early_end : Bool := !(decide (res.last ≠ 0) && decide (i < i_max - 1))
      if res.success = 2 ∧ res.val < 256 ∧ early_end = false then
        FANSI_parse_colors.components str i_max n (i + 1) state (rgb.set (i + 1) res.val) valid_col
      else
        FANSI_parse_colors.components str i_max n (i + 1) state rgb 0
    else
      .ok ({ state with fail := 1 }, rgb, valid_col)

/-- Lines 134-207. -/
def FANSI_parse_colors (state : FANSI_state) (mode : Int) : Except Err FANSI_state :=
  if mode ≠ 3 ∧ mode ≠ 4 then .error .color_mode
  else
    match state.string with
    | none => .error .null_deref
    | some str => do
      let rgb := Arr4.zero
      let res ← FANSI_parse_token str state.pos_byte
      let pb ← advance state.pos_byte res.len
      let state := { state with pos_byte := pb, last := res.last }
      if res.success ≠ 0 ∧ ((res.val ≠ 2 ∧ res.val ≠ 5) ∨ res.last ≠ 0) then
        .ok { state with pos_byte := state.pos_byte - (res.len + 1) }
      else if res.success = 0 then
        .ok { state with fail := 1 }
      else if res.success = 2 then
        let colors := res.val
        if colors ≠ 2 ∧ colors ≠ 5 then .error .internal
        else do
          let i_max : Nat := if colors = 2 then 3 else 1
          let (state, rgb, valid_col) ←
            FANSI_parse_colors.components str i_max i_max 0 state rgb 1
          if state.fail = 0 then
            let rgb := if valid_col = 0 then Arr4.zero else rgb
            let col : Int := if valid_col = 0 then -1 else 8
            if mode = 3 then
              .ok { state with color := col, color_extra := rgb }
            else
              .ok { state with bg_color := col, bg_color_extra := rgb }
          else .ok state
      else if res.success = 1 then .ok state
      else .error .internal

/-- The mask `~(1U << k)` on 32 bits. -/
def clear_mask (k : Nat) : Nat := 4294967295 ^^^ (1 <<< k)

/-- Lines 321-333: a colour code `val` in `30..49`. -/
def FANSI_state_at_raw_position.color (val : Nat) (state : FANSI_state) :
    Except Err FANSI_state :=
  let foreground : Bool := decide (val < 40)
  let col_code : Int := (val : Int) - (if foreground then 30 else 40)
  let col_code : Int := if col_code = 9 then -1 else col_code
  let state := if foreground then { state with color := col_code }
               else { state with bg_color := col_code }
  if col_code = 8 then FANSI_parse_colors state (if foreground then 3 else 4)
  else .ok state

/-- Lines 292-334: what an accepted, applicable token value does to the
state.  The `warning` of line 305 leaves the state as it is. -/
def FANSI_state_at_raw_position.apply (val : Nat) (state : FANSI_state) :
    Except Err FANSI_state :=
  if val = 0 then .ok (FANSI_reset_state state)
  else if val < 10 then .ok { state with style := state.style ||| (1 <<< val) }
  else if val = 20 ∨ val = 21 ∨ val = 26 then .ok state
  else if val = 22 then
    .ok { state with style := (state.style &&& clear_mask 1) &&& clear_mask 2 }
  else if val = 25 then
    .ok { state with style := (state.style &&& clear_mask 5) &&& clear_mask 6 }
  else if val ≥ 20 ∧ val < 30 then
    .ok { state with style := state.style &&& clear_mask (val - 20) }
  else if val ≥ 30 ∧ val < 50 then FANSI_state_at_raw_position.color val state
  else .ok state

/-- Lines 286-337: what one token does to the state. -/
def FANSI_state_at_raw_position.dispatch (tok_res : FANSI_tok_res) (state : FANSI_state) :
    Except Err FANSI_state :=
  if tok_res.success = 0 then .ok { state with fail := 1 }
  else if tok_res.success = 2 then FANSI_state_at_raw_position.apply tok_res.val state
  else if tok_res.success = 1 then .ok state
  else .error .internal

/-- A C loop.  `body` runs the test and one pass, and tells whether the loop
goes on (`true`) or is left (`false`); the first argument bounds the number of
passes. -/
def run_loop {σ : Type} (body : σ → Except Err (Bool × σ)) : Nat → σ → Except Err σ
  | 0, _ => .error .fuel
  | fuel + 1, s =>
    match body s with
    | .error e => .error e
    | .ok (true, s1) => run_loop body fuel s1
    | .ok (false, s1) => .ok s1

/-- Lines 282-341: one pass of the `do ... while(1)` over the tokens of a
sequence; the flag is `false` at the `break` of line 341. -/
def FANSI_state_at_raw_position.token (string : CString) (state : FANSI_state) :
    Except Err (Bool × FANSI_state) := do
  let tok_res ← FANSI_parse_token string state.pos_byte
  let pb ← advance state.pos_byte tok_res.len
  let state ← FANSI_state_at_raw_position.dispatch tok_res
    { state with pos_byte := pb, last := tok_res.last }
  if tok_res.last ≠ 0 ∨ state.last ≠ 0 ∨ state.fail ≠ 0 then .ok (false, state)
  else .ok (true, state)

/-- Lines 281-342: the `do ... while(1)`. -/
def FANSI_state_at_raw_position.tokens (string : CString) (fuel : Nat)
    (state : FANSI_state) : Except Err FANSI_state :=
  run_loop (FANSI_state_at_raw_position.token string) fuel state

/-- Line 269: is the cursor on `ESC` followed by `[`?  The second byte is
read only when the first is `ESC`. -/
def is_csi (string : CString) (pos_byte : Int) (c : Nat) : Except Err Bool :=
  if c = 27 then do
    let c1 ← string.at (pos_byte + 1)
    .ok (decide (c1 = 91))
  else .ok false

/-- Lines 347-352: a failed sequence is put back to the snapshot, with the
positions of the failed parse. -/
def FANSI_state_at_raw_position.recover (pos_byte_prev : Int)
    (state_tmp state : FANSI_state) : FANSI_state :=
  if state.fail ≠ 0 then
    let pos_raw := state.pos_raw + pos_byte_prev - state.pos_byte
    { state_tmp with pos_raw := pos_raw, pos_byte := state.pos_byte }
  else state

/-- Lines 258-368: the test of the `while` and one pass through its body; the
flag is `false` when the test fails and at the `break` of line 367. -/
def FANSI_state_at_raw_position.step (pos : Int) (string : CString)
    (state : FANSI_state) : Except Err (Bool × FANSI_state) := do
  let c ← string.at state.pos_byte
  if c ≠ 0 ∧ state.pos_raw ≤ pos then
    let state := { state with fail := 0, last := 0 }
    let pos_byte_prev := state.pos_byte
    if c > 127 then .error .non_ascii
    else
      let csi ← is_csi string state.pos_byte c
      if csi then
        let pb ← safe_add state.pos_byte 2
        let state := { state with pos_byte := pb }
        let state_tmp := state
        let state ←
          FANSI_state_at_raw_position.tokens string (string.bytes.length + 2) state
        .ok (true, FANSI_state_at_raw_position.recover pos_byte_prev state_tmp state)
      else if state.pos_raw < pos then
        if state.pos_byte = INT_MAX then .error .counter_overflow
        else
          .ok (true, { state with pos_byte := state.pos_byte + 1,
                                  pos_raw := state.pos_raw + 1 })
      else .ok (false, state)
  else .ok (false, state)

/-- Lines 258-369: the `while` loop. -/
def FANSI_state_at_raw_position.loop (pos : Int) (string : CString) (fuel : Nat)
    (state : FANSI_state) : Except Err FANSI_state :=
  run_loop (FANSI_state_at_raw_position.step pos string) fuel state

/-- Lines 232-372. -/
def FANSI_state_at_raw_position (pos : Int) (string : CString) (state : FANSI_state) :
    Except Err FANSI_state :=
  if state.string ≠ none ∧ state.string ≠ some string then .error .diff_string
  else if pos < state.pos_raw then .error .later_pos
  else do
    let state := { state with string := some string }
    let state ←
      FANSI_state_at_raw_position.loop pos string (string.bytes.length + 2) state
    .ok { state with pos_ansi := state.pos_byte }

/-- Lines 376-390. -/
def FANSI_color_size (color : Int) (color_extra : Arr4) : Except Err Nat :=
  if color = 8 ∧ color_extra.x0 = 2 then .ok (3 + 2 + 4 * 3)
  else if color = 8 ∧ color_extra.x0 = 5 then .ok (3 + 2 + 4 * 3)
  else if color = 8 then .error .compound_format
  else if color ≥ 0 ∧ color < 10 then .ok 3
  else if color ≥ 0 then .error .compound_format2
  else .ok 0

/-- A freshly allocated buffer: every byte is there, none has a value yet. -/
abbrev Buf := List (Option Nat)

/-- The assignment `buf[i] = b`. -/
def Buf.write (buf : Buf) (i : Nat) (b : Nat) : Except Err Buf :=
  if i < buf.length then .ok (buf.set i (some b)) else .error .oob

/-- Writing the bytes `bs` from index `i` on. -/
def Buf.writeAll (buf : Buf) : Nat → List Nat → Except Err Buf
  | _, [] => .ok buf
  | i, b :: bs => do
    let buf ← buf.write i b
    Buf.writeAll buf (i + 1) bs

/-- The C string a buffer holds: the bytes before its first NUL. -/
def Buf.cstr : Buf → Except Err (List Nat)
  | [] => .error .oob
  | none :: _ => .error .uninit
  | some b :: rest =>
    if b = 0 then .ok []
    else do
      let tl ← Buf.cstr rest
      .ok (b :: tl)

/-- The text `%d` prints for an `int`. -/
def fmt_d (n : Int) : List Nat :=
  if n < 0 then 45 :: (Nat.toDigits 10 n.natAbs).map Char.toNat
  else (Nat.toDigits 10 n.natAbs).map Char.toNat

/-- The call `sprintf(&buf[at], ...)` printing `txt`: the text and a NUL are
stored, the number of characters of the text is returned. -/
def sprintf (buf : Buf) (i : Nat) (txt : List Nat) : Except Err (Buf × Nat) := do
  let buf ← Buf.writeAll buf i (txt ++ [0])
  .ok (buf, txt.length)

/-- Lines 410-441; `string` is the index in `buf` the pointer designates. -/
def FANSI_color_write (buf : Buf) (string : Nat) (color : Int) (color_extra : Arr4)
    (mode : Int) : Except Err (Buf × Nat) :=
  if mode ≠ 3 ∧ mode ≠ 4 then .error .color_mode
  else if color > 0 then do
    let buf ← buf.write (string + 0) (if mode = 3 then 51 else 52)
    if color ≠ 8 then
      let buf ← buf.write (string + 1) ((48 + color) % 256).toNat
      let buf ← buf.write (string + 2) 59
      .ok (buf, 3)
    else
      let buf ← buf.write (string + 1) 56
      let buf ← buf.write (string + 2) 59
      if color_extra.x0 = 2 then
        let (buf, write_chrs) ← sprintf buf string
          ([50, 59] ++ fmt_d color_extra.x1 ++ [59] ++ fmt_d color_extra.x2 ++ [59]
            ++ fmt_d color_extra.x3 ++ [59])
        .ok (buf, 3 + write_chrs)
      else if color_extra.x0 = 5 then
        let (buf, write_chrs) ← sprintf buf string ([53, 59] ++ fmt_d color_extra.x1 ++ [59])
        .ok (buf, 3 + write_chrs)
      else .error .color_code
  else .ok (buf, 0)

/-- Line 450: the first pass over the style bits `i, i+1, ...`, `n` of them. -/
def FANSI_state_as_chr.style_size (style : Nat) : Nat → Nat → Nat → Nat
  | 0, _, tag_len => tag_len
  | n + 1, i, tag_len =>
    FANSI_state_as_chr.style_size style n (i + 1) (tag_len + ((1 <<< i) &&& style) * 2)

/-- Lines 467-472: the second pass over the style bits `i, i+1, ...`, `n` of
them. -/
def FANSI_state_as_chr.style_write (style : Nat) :
    Nat → Nat → Buf → Nat → Except Err (Buf × Nat)
  | 0, _, tag_tmp, str_pos => .ok (tag_tmp, str_pos)
  | n + 1, i, tag_tmp, str_pos =>
    if (1 <<< i) &&& style ≠ 0 then do
      let tag_tmp ← tag_tmp.write str_pos (48 + i)
      let tag_tmp ← tag_tmp.write (str_pos + 1) 59
      FANSI_state_as_chr.style_write style n (i + 1) tag_tmp (str_pos + 2)
    else FANSI_state_as_chr.style_write style n (i + 1) tag_tmp str_pos

/-- Lines 445-492.  The result is the C string the returned pointer
designates. -/
def FANSI_state_as_chr (state : FANSI_state) : Except Err (List Nat) := do
  let tag_len := FANSI_state_as_chr.style_size state.style 9 1 0
  let fg_size ← FANSI_color_size state.color state.color_extra
  let bg_size ← FANSI_color_size state.bg_color state.bg_color_extra
  let tag_len := tag_len + fg_size + bg_size
  if tag_len ≠ 0 then
    let tag_len := tag_len + 3
    let tag_tmp : Buf := List.replicate (tag_len + 1 + 2) none
    let tag_tmp ← tag_tmp.write 0 27
    let tag_tmp ← tag_tmp.write 1 91
    let (tag_tmp, str_pos) ← FANSI_state_as_chr.style_write state.style 9 1 tag_tmp 2
    let (tag_tmp, off) ← FANSI_color_write tag_tmp str_pos state.color state.color_extra 3
    let str_pos := str_pos + off
    let (tag_tmp, off) ←
      FANSI_color_write tag_tmp str_pos state.bg_color state.bg_color_extra 4
    let str_pos := str_pos + off
    if str_pos + 1 > tag_len then .error .alloc_mismatch
    else
      let tag_tmp ← tag_tmp.write (str_pos - 1) 109
      let tag_tmp ← tag_tmp.write str_pos 0
      Buf.cstr tag_tmp
  else .ok []

/-- Lines 500-514. -/
def FANSI_state_comp (target current : FANSI_state) : Int :=
  if target.style = current.style ∧
     target.color = current.color ∧
     target.bg_color = current.bg_color ∧
     target.color_extra.x0 = current.color_extra.x0 ∧
     target.bg_color_extra.x0 = current.bg_color_extra.x0 ∧
     target.color_extra.x1 = current.color_extra.x1 ∧
     target.bg_color_extra.x1 = current.bg_color_extra.x1 ∧
     target.color_extra.x2 = current.color_extra.x2 ∧
     target.bg_color_extra.x2 = current.bg_color_extra.x2 ∧
     target.color_extra.x3 = current.color_extra.x3 ∧
     target.bg_color_extra.x3 = current.bg_color_extra.x3
  then 0 else 1

/-- Lines 570-601 without the missing values, the order check and the result
matrix: the states the driver obtains for the targets `poss`, each call
starting from the state the previous one returned. -/
def thread (string : CString) : List Int → FANSI_state → Except Err (List FANSI_state)
  | [], _ => .ok []
  | pos :: poss, state => do
    let state ← FANSI_state_at_raw_position pos string state
    let rest ← thread string poss state
    .ok (state :: rest)

/-- A buffer at address 1 holding the bytes `bytes`. -/
def cstring (bytes : List Nat) : CString := { addr := 1, bytes := bytes }

deriving instance DecidableEq for Except

/-- The text `ESC[31mredESC[0m`. -/
def red_text : CString := cstring [27, 91, 51, 49, 109, 114, 101, 100, 27, 91, 48, 109]

/-- The state with the display fields and offsets given, on `red_text`. -/
def red_state (color pos_raw pos_byte last : Int) : FANSI_state :=
  { FANSI_state_init with
    string := some red_text, color := color, pos_raw := pos_raw, pos_byte := pos_byte,
    pos_ansi := pos_byte, last := last }

/-- The state on `string` with no style, the foreground colour `color`, no
background colour, and the offsets and `last` flag given; `pos_ansi` is 0. -/
def state_on (string : CString) (color pos_raw pos_byte last : Int) : FANSI_state :=
  { FANSI_state_init with
    string := some string, color := color, pos_raw := pos_raw, pos_byte := pos_byte,
    last := last }

/-- The text `ESC [ 3 c m`, then `t`, then `ESC [ 0 m`, for a colour digit `c`. -/
def colour_text (c : Nat) (t : List Nat) : CString :=
  cstring ([27, 91, 51, 48 + c, 109] ++ t ++ [27, 91, 48, 109])

/-- The items `xs` joined by the separator `sep`. -/
def join_with (sep : Nat) : List (List Nat) → List Nat
  | [] => []
  | [x] => x
  | x :: y :: rest => x ++ sep :: join_with sep (y :: rest)

/-- The items `xs`, each followed by the separator `sep`. -/
def each_followed (sep : Nat) : List (List Nat) → List Nat
  | [] => []
  | x :: rest => x ++ sep :: each_followed sep rest

/-- The digit of every set style bit among `i, i+1, ...` (`n` of them), in
ascending order. -/
def style_items (style : Nat) : Nat → Nat → List (List Nat)
  | 0, _ => []
  | n + 1, i =>
    if style.testBit i then [48 + i] :: style_items style n (i + 1)
    else style_items style n (i + 1)

/-- The item of a basic colour: the lead digit (`3` or `4`) and the colour
digit; nothing for the colour -1. -/
def colour_items (lead : Nat) (color : Int) : List (List Nat) :=
  if color = -1 then [] else [[lead, 48 + color.toNat]]

/-- The canonical tag of the claim: nothing when there is no item, otherwise
`ESC [`, the items joined by `;`, and `m`. -/
def canonical_tag (style : Nat) (color bg_color : Int) : List Nat :=
  match style_items style 9 1 ++ colour_items 51 color ++ colour_items 52 bg_color with
  | [] => []
  | items => [27, 91] ++ join_with 59 items ++ [109]

/-- The part of a state the token loop leaves alone, and the direction in
which it moves the cursor. -/
def Adv (st st1 : FANSI_state) : Prop :=
  st1.pos_raw = st.pos_raw ∧ st.pos_byte ≤ st1.pos_byte ∧ st1.string = st.string

/-- What the `while` loop keeps, for the target `pos`. -/
def Keeps (pos : Int) (st st1 : FANSI_state) : Prop :=
  st1.string = st.string ∧ st.pos_byte ≤ st1.pos_byte ∧
  (st.pos_raw ≤ st.pos_byte → st1.pos_raw ≤ st1.pos_byte) ∧
  (st.pos_raw ≤ pos → st1.pos_raw ≤ pos)

/-- The bytes left before the cursor leaves the buffer and its NUL. -/
def room (string : CString) (st : FANSI_state) : Nat :=
  ((string.bytes.length : Int) + 1 - st.pos_byte).toNat

/-- The state with another `pos_ansi`. -/
def set_ansi (x : Int) (st : FANSI_state) : FANSI_state := { st with pos_ansi := x }

/-- The display fields and the two offsets of a returned state:
`(style, color, bg_color, pos_raw, pos_byte)`. -/
def view (r : Except Err FANSI_state) : Except Err (Nat × Int × Int × Int × Int) :=
  r.map (fun s => (s.style, s.color, s.bg_color, s.pos_raw, s.pos_byte))

/-- The number a run of ASCII digits writes in decimal. -/
def decimal_value (ds : List Nat) : Nat :=
  ds.foldl (fun acc d => acc * 10 + (d - 48)) 0


/-- The text of the sequence `ESC [ n m`, with `n` written in decimal. -/
def sgr_text (n : Nat) : List Nat :=
  [27, 91] ++ (Nat.toDigits 10 n).map Char.toNat ++ [109]

/-- The second state has the colours of the first. -/
def same_colours (st st1 : FANSI_state) : Prop :=
  st1.color = st.color ∧ st1.bg_color = st.bg_color ∧
  st1.color_extra = st.color_extra ∧ st1.bg_color_extra = st.bg_color_extra

/-- The dispatch table of the style codes in the words of the specification, as
a relation between the state before the code `n` and the state after it. -/
def sgr_table (n : Nat) (st st1 : FANSI_state) : Prop :=
  (1 ≤ n ∧ n ≤ 9 →
    (∀ i, st1.style.testBit i = (decide (i = n) || st.style.testBit i)) ∧
      same_colours st st1) ∧
  (n = 22 →
    (∀ i, st1.style.testBit i = (!decide (i = 1 ∨ i = 2) && st.style.testBit i)) ∧
      same_colours st st1) ∧
  (n = 25 →
    (∀ i, st1.style.testBit i = (!decide (i = 5 ∨ i = 6) && st.style.testBit i)) ∧
      same_colours st st1) ∧
  (n = 23 ∨ n = 24 ∨ n = 27 ∨ n = 28 ∨ n = 29 →
    (∀ i, st1.style.testBit i = (!decide (i = n - 20) && st.style.testBit i)) ∧
      same_colours st st1) ∧
  (n = 20 ∨ n = 21 ∨ n = 26 → st1.style = st.style ∧ same_colours st st1) ∧
  (n = 0 →
    st1.style = 0 ∧ st1.color = -1 ∧ st1.bg_color = -1 ∧
      st1.color_extra = Arr4.zero ∧ st1.bg_color_extra = Arr4.zero)

/-- An error other than the two of the check on the caller at lines 239-245. -/
def scan_error (e : Err) : Prop := e ≠ .later_pos ∧ e ≠ .diff_string

/-- The display fields a scan can produce: a style with bits 1 to 9 only, both
colours from -1 to 8, and both extra arrays zero. -/
def display_ok (st : FANSI_state) : Prop :=
  (∀ i, st.style.testBit i = true → 1 ≤ i ∧ i ≤ 9) ∧
  (-1 ≤ st.color ∧ st.color ≤ 8) ∧ (-1 ≤ st.bg_color ∧ st.bg_color ≤ 8) ∧
  st.color_extra = Arr4.zero ∧ st.bg_color_extra = Arr4.zero

/-- The second state has the display fields of the first. -/
def same_display (st st1 : FANSI_state) : Prop :=
  st1.style = st.style ∧ same_colours st st1

/-! ## Reading the buffer and one token -/

theorem at_ok_bounds {s : CString} {p : Int} {c : Nat} (h : s.at p = .ok c) :
    0 ≤ p ∧ p ≤ s.bytes.length := by
  unfold CString.at at h
  split at h
  · cases h
  · split at h
    · omega
    · split at h
      · omega
      · cases h

theorem at_ok_nonzero {s : CString} {p : Int} {c : Nat} (h : s.at p = .ok c) (hc : c ≠ 0) :
    0 ≤ p ∧ p < s.bytes.length := by
  unfold CString.at at h
  split at h
  · cases h
  · split at h
    · omega
    · split at h
      · simp at h; omega
      · cases h

theorem advance_ok {p l pb : Int} (h : advance p l = .ok pb) : pb = p + l + 1 := by
  unfold advance safe_add at h
  simp only [bind, Except.bind] at h
  split at h
  · cases h
  · rename_i n hn
    split at hn
    · cases hn
    · cases hn
      split at h
      · cases h
      · cases h; omega

theorem digits_spec (s : CString) : ∀ (n : Nat) (p len q len1 : Int),
    FANSI_parse_token.digits s n p len = .ok (q, len1) → len ≤ len1 := by
  intro n
  induction n with
  | zero =>
    intro p len q len1 h
    simp [FANSI_parse_token.digits] at h
    omega
  | succ n ih =>
    intro p len q len1 h
    unfold FANSI_parse_token.digits at h
    split at h
    · cases h
    · split at h
      · split at h
        · cases h
        · have := ih _ _ _ _ h
          omega
      · simp at h
        omega

theorem digits_start (s : CString) (n : Nat) (p len : Int) (r : Int × Int)
    (h : FANSI_parse_token.digits s (n + 1) p len = .ok r) : ∃ c, s.at p = .ok c := by
  unfold FANSI_parse_token.digits at h
  split at h
  · cases h
  · rename_i c hc
    exact ⟨c, hc⟩

theorem parse_token_digits {s : CString} {p : Int} {r : FANSI_tok_res}
    (h : FANSI_parse_token s p = .ok r) :
    ∃ q, FANSI_parse_token.digits s 5 p 0 = .ok (q, r.len) := by
  unfold FANSI_parse_token at h
  split at h
  · cases h
  · rename_i q len hd
    refine ⟨q, ?_⟩
    have hlen : r.len = len := by
      revert h
      split
      · intro h; cases h
      · dsimp only
        repeat' split
        all_goals intro h
        all_goals first
          | (cases h; rfl)
          | cases h
    rw [hlen]; exact hd

theorem parse_token_len_nonneg {s : CString} {p : Int} {r : FANSI_tok_res}
    (h : FANSI_parse_token s p = .ok r) : 0 ≤ r.len := by
  obtain ⟨q, hd⟩ := parse_token_digits h
  exact digits_spec s _ _ _ _ _ hd

theorem parse_token_start {s : CString} {p : Int} {r : FANSI_tok_res}
    (h : FANSI_parse_token s p = .ok r) : 0 ≤ p ∧ p ≤ s.bytes.length := by
  unfold FANSI_parse_token at h
  split at h
  · cases h
  · rename_i q len hd
    obtain ⟨c, hc⟩ := digits_start s 4 p 0 _ hd
    exact at_ok_bounds hc

/-! ## What one escape sequence may change -/

theorem adv_refl (st : FANSI_state) : Adv st st := ⟨rfl, le_refl _, rfl⟩

theorem adv_trans {a b c : FANSI_state} (h1 : Adv a b) (h2 : Adv b c) : Adv a c :=
  ⟨h2.1.trans h1.1, le_trans h1.2.1 h2.2.1, h2.2.2.trans h1.2.2⟩

theorem components_adv (str : CString) (i_max : Int) : ∀ (n : Nat) (i : Int)
    (st : FANSI_state) (rgb : Arr4) (v : Int) (r : FANSI_state × Arr4 × Int),
    FANSI_parse_colors.components str i_max n i st rgb v = .ok r → Adv st r.1 := by
  intro n
  induction n with
  | zero =>
    intro i st rgb v r h
    simp [FANSI_parse_colors.components] at h
    subst h
    exact adv_refl _
  | succ n ih =>
    intro i st rgb v r h
    unfold FANSI_parse_colors.components at h
    simp only [bind, Except.bind] at h
    split at h
    · cases h
    · rename_i res hres
      split at h
      · cases h
      · rename_i pb hpb
        have hpb1 := advance_ok hpb
        have hlen := parse_token_len_nonneg hres
        have hstep : Adv st { st with pos_byte := pb, last := res.last } :=
          ⟨rfl, by simp; omega, rfl⟩
        split at h
        · split at h
          · exact adv_trans hstep (ih _ _ _ _ _ h)
          · exact adv_trans hstep (ih _ _ _ _ _ h)
        · cases h
          exact ⟨rfl, hstep.2.1, rfl⟩

theorem parse_colors_adv {st st1 : FANSI_state} {mode : Int}
    (h : FANSI_parse_colors st mode = .ok st1) : Adv st st1 := by
  unfold FANSI_parse_colors at h
  split at h
  · cases h
  · split at h
    · cases h
    · rename_i str hstr
      simp only [bind, Except.bind] at h
      split at h
      · cases h
      · rename_i res hres
        split at h
        · cases h
        · rename_i pb hpb
          have hpb1 := advance_ok hpb
          have hlen := parse_token_len_nonneg hres
          have hstep : Adv st { st with pos_byte := pb, last := res.last } :=
            ⟨rfl, by simp; omega, rfl⟩
          split at h
          · cases h
            exact ⟨rfl, by simp; omega, rfl⟩
          · split at h
            · cases h
              exact ⟨rfl, hstep.2.1, rfl⟩
            · split at h
              · split at h
                · cases h
                · split at h
                  · cases h
                  · rename_i v hv
                    have hc := adv_trans hstep (components_adv _ _ _ _ _ _ _ _ hv)
                    split at h
                    · split at h
                      · cases h; exact hc
                      · cases h; exact hc
                    · cases h; exact hc
              · split at h
                · cases h; exact hstep
                · cases h

theorem color_adv {val : Nat} {st st1 : FANSI_state}
    (h : FANSI_state_at_raw_position.color val st = .ok st1) : Adv st st1 := by
  unfold FANSI_state_at_raw_position.color at h
  dsimp only at h
  by_cases h8 : (if ((val : Int) - if decide (val < 40) = true then 30 else 40) = 9 then (-1 : Int)
      else (val : Int) - if decide (val < 40) = true then 30 else 40) = 8
  · rw [if_pos h8] at h
    refine adv_trans ?_ (parse_colors_adv h)
    split <;> exact ⟨rfl, le_refl _, rfl⟩
  · rw [if_neg h8] at h
    cases h
    split <;> exact ⟨rfl, le_refl _, rfl⟩

theorem apply_adv {val : Nat} {st st1 : FANSI_state}
    (h : FANSI_state_at_raw_position.apply val st = .ok st1) : Adv st st1 := by
  unfold FANSI_state_at_raw_position.apply at h
  repeat' split at h
  all_goals first
    | (cases h; exact adv_refl _)
    | exact color_adv h

theorem dispatch_adv {res : FANSI_tok_res} {st st1 : FANSI_state}
    (h : FANSI_state_at_raw_position.dispatch res st = .ok st1) : Adv st st1 := by
  unfold FANSI_state_at_raw_position.dispatch at h
  repeat' split at h
  all_goals first
    | (cases h; exact adv_refl _)
    | exact apply_adv h
    | cases h

/-! ## Loops -/

theorem run_loop_succ {σ : Type} (body : σ → Except Err (Bool × σ)) (fuel : Nat) (s : σ) :
    run_loop body (fuel + 1) s =
      match body s with
      | .error e => .error e
      | .ok (true, s1) => run_loop body fuel s1
      | .ok (false, s1) => .ok s1 := rfl

/-- A transitive relation that every pass establishes holds between the state
a loop starts from and the state it returns. -/
theorem run_loop_rel {σ : Type} (body : σ → Except Err (Bool × σ)) (R : σ → σ → Prop)
    (htrans : ∀ a b c, R a b → R b c → R a c)
    (hbody : ∀ s b s1, body s = .ok (b, s1) → R s s1) :
    ∀ (fuel : Nat) (s s1 : σ), run_loop body fuel s = .ok s1 → R s s1 := by
  intro fuel
  induction fuel with
  | zero => intro s s1 h; simp [run_loop] at h
  | succ fuel ih =>
    intro s s1 h
    rw [run_loop_succ] at h
    split at h
    · cases h
    · rename_i s2 hb
      exact htrans _ _ _ (hbody _ _ _ hb) (ih _ _ h)
    · rename_i s2 hb
      cases h
      exact hbody _ _ _ hb

/-- With a measure that every continuing pass decreases, any two amounts of
fuel above the measure give the same result. -/
theorem run_loop_fuel {σ : Type} (body : σ → Except Err (Bool × σ)) (μ : σ → Nat)
    (hμ : ∀ s s1, body s = .ok (true, s1) → μ s1 < μ s) :
    ∀ (f f1 : Nat) (s : σ), μ s < f → μ s < f1 → run_loop body f s = run_loop body f1 s := by
  intro f
  induction f with
  | zero => intro f1 s h; omega
  | succ f ih =>
    intro f1 s h h1
    obtain ⟨g, rfl⟩ : ∃ g, f1 = g + 1 := ⟨f1 - 1, by omega⟩
    rw [run_loop_succ, run_loop_succ]
    split
    · rfl
    · rename_i s2 hb
      have := hμ _ _ hb
      exact ih _ _ (by omega) (by omega)
    · rfl

/-- With such a measure the fuel never runs out. -/
theorem run_loop_total {σ : Type} (body : σ → Except Err (Bool × σ)) (μ : σ → Nat)
    (hμ : ∀ s s1, body s = .ok (true, s1) → μ s1 < μ s)
    (hbody : ∀ s, body s ≠ .error .fuel) :
    ∀ (f : Nat) (s : σ), μ s < f → run_loop body f s ≠ .error .fuel := by
  intro f
  induction f with
  | zero => intro s h; omega
  | succ f ih =>
    intro s h
    rw [run_loop_succ]
    split
    · rename_i e he
      intro hc
      cases hc
      exact hbody _ he
    · rename_i s2 hb
      have := hμ _ _ hb
      exact ih _ (by omega)
    · intro hc; cases hc

/-- A change of the state that every pass commutes with commutes with the
loop. -/
theorem run_loop_map {σ : Type} (body : σ → Except Err (Bool × σ)) (g : σ → σ)
    (hg : ∀ s, body (g s) = (body s).map (fun r => (r.1, g r.2))) :
    ∀ (f : Nat) (s : σ), run_loop body f (g s) = (run_loop body f s).map g := by
  intro f
  induction f with
  | zero => intro s; rfl
  | succ f ih =>
    intro s
    rw [run_loop_succ, run_loop_succ, hg]
    cases hb : body s with
    | error e => rfl
    | ok r =>
      obtain ⟨b, s2⟩ := r
      cases b
      · rfl
      · exact ih s2

/-! ## The token loop -/

theorem token_adv {string : CString} {st st1 : FANSI_state} {b : Bool}
    (h : FANSI_state_at_raw_position.token string st = .ok (b, st1)) :
    Adv st st1 ∧ st.pos_byte < st1.pos_byte ∧ 0 ≤ st.pos_byte ∧
      st.pos_byte ≤ string.bytes.length := by
  unfold FANSI_state_at_raw_position.token at h
  simp only [bind, Except.bind] at h
  split at h
  · cases h
  · rename_i res hres
    split at h
    · cases h
    · rename_i pb hpb
      have hpb1 := advance_ok hpb
      have hlen := parse_token_len_nonneg hres
      have hstart := parse_token_start hres
      have hstep : Adv st { st with pos_byte := pb, last := res.last } :=
        ⟨rfl, by simp; omega, rfl⟩
      split at h
      · cases h
      · rename_i st2 hst2
        have h2 := dispatch_adv hst2
        have h02 := adv_trans hstep h2
        have hlt : st.pos_byte < st2.pos_byte := by
          have := h2.2.1
          simp at this
          omega
        split at h
        · cases h
          exact ⟨h02, hlt, hstart⟩
        · cases h
          exact ⟨h02, hlt, hstart⟩

theorem tokens_adv {string : CString} {fuel : Nat} {st st1 : FANSI_state}
    (h : FANSI_state_at_raw_position.tokens string fuel st = .ok st1) :
    Adv st st1 ∧ st.pos_byte < st1.pos_byte := by
  refine run_loop_rel (FANSI_state_at_raw_position.token string)
    (fun a b => Adv a b ∧ a.pos_byte < b.pos_byte) ?_ ?_ fuel st st1 h
  · intro a b c h1 h2
    exact ⟨adv_trans h1.1 h2.1, lt_trans h1.2 h2.2⟩
  · intro s b s1 hb
    have := token_adv hb
    exact ⟨this.1, this.2.1⟩

theorem token_room {string : CString} (s s1 : FANSI_state)
    (h : FANSI_state_at_raw_position.token string s = .ok (true, s1)) :
    room string s1 < room string s := by
  have := token_adv h
  unfold room
  omega

/-! ## The `while` loop -/

theorem keeps_trans {pos : Int} {a b c : FANSI_state} (h1 : Keeps pos a b)
    (h2 : Keeps pos b c) : Keeps pos a c :=
  ⟨h2.1.trans h1.1, le_trans h1.2.1 h2.2.1, fun h => h2.2.2.1 (h1.2.2.1 h),
   fun h => h2.2.2.2 (h1.2.2.2 h)⟩

theorem safe_add_ok {a b c : Int} (h : safe_add a b = .ok c) : c = a + b := by
  unfold safe_add at h
  split at h
  · cases h
  · cases h; rfl

theorem step_keeps {pos : Int} {string : CString} {st st1 : FANSI_state} {b : Bool}
    (h : FANSI_state_at_raw_position.step pos string st = .ok (b, st1)) :
    Keeps pos st st1 ∧ (b = true → st.pos_byte < st1.pos_byte ∧ 0 ≤ st.pos_byte ∧
      st.pos_byte < string.bytes.length) := by
  unfold FANSI_state_at_raw_position.step at h
  simp only [bind, Except.bind] at h
  split at h
  · cases h
  · rename_i c hc
    split at h
    · rename_i hcond
      have hb := at_ok_nonzero hc hcond.1
      split at h
      · cases h
      · split at h
        · cases h
        · rename_i csi hcsi
          split at h
          · split at h
            · cases h
            · rename_i pb hpb
              have hpb1 := safe_add_ok hpb
              split at h
              · cases h
              · rename_i st2 hst2
                have hadv := tokens_adv hst2
                obtain ⟨⟨h1, h2, h3⟩, h4⟩ := hadv
                simp only at h1 h2 h3 h4
                cases h
                unfold FANSI_state_at_raw_position.recover
                split
                · refine ⟨⟨rfl, ?_, ?_, ?_⟩, fun _ => ⟨?_, hb⟩⟩ <;> simp only <;> intros <;> omega
                · refine ⟨⟨h3, ?_, ?_, ?_⟩, fun _ => ⟨?_, hb⟩⟩ <;> intros <;> omega
          · split at h
            · split at h
              · cases h
              · cases h
                refine ⟨⟨rfl, ?_, ?_, ?_⟩, fun _ => ⟨?_, hb⟩⟩ <;> simp only <;> intros <;> omega
            · cases h
              refine ⟨⟨rfl, le_refl _, fun h => h, fun h => h⟩, fun h => by cases h⟩
    · cases h
      exact ⟨⟨rfl, le_refl _, fun h => h, fun h => h⟩, fun h => by cases h⟩

theorem loop_keeps {pos : Int} {string : CString} {fuel : Nat} {st st1 : FANSI_state}
    (h : FANSI_state_at_raw_position.loop pos string fuel st = .ok st1) :
    Keeps pos st st1 :=
  run_loop_rel (FANSI_state_at_raw_position.step pos string) (Keeps pos)
    (fun _ _ _ h1 h2 => keeps_trans h1 h2) (fun _ _ _ hb => (step_keeps hb).1) fuel st st1 h

theorem step_room {pos : Int} {string : CString} (s s1 : FANSI_state)
    (h : FANSI_state_at_raw_position.step pos string s = .ok (true, s1)) :
    room string s1 < room string s := by
  have := (step_keeps h).2 rfl
  unfold room
  omega

/-- Any fuel above the room left gives the same result. -/
theorem loop_fuel {pos : Int} {string : CString} {f f1 : Nat} {st : FANSI_state}
    (h : room string st < f) (h1 : room string st < f1) :
    FANSI_state_at_raw_position.loop pos string f st =
      FANSI_state_at_raw_position.loop pos string f1 st :=
  run_loop_fuel (FANSI_state_at_raw_position.step pos string) (room string) step_room
    f f1 st h h1

/-! ## Two targets -/

theorem step_target_error {q p : Int} {string : CString} {st : FANSI_state} {e : Err}
    (hqp : q ≤ p) (hraw : st.pos_raw ≤ q)
    (h : FANSI_state_at_raw_position.step q string st = .error e) :
    FANSI_state_at_raw_position.step p string st = .error e := by
  have hraw1 : st.pos_raw ≤ p := le_trans hraw hqp
  unfold FANSI_state_at_raw_position.step at h ⊢
  simp only [bind, Except.bind] at h ⊢
  cases hc : string.at st.pos_byte with
  | error e1 => simpa [hc] using h
  | ok c =>
    simp only [hc, hraw, hraw1, and_true] at h ⊢
    by_cases hc0 : c = 0
    · subst hc0
      simp at h
    · simp only [ne_eq, hc0, not_false_eq_true, if_true] at h ⊢
      by_cases hc127 : c > 127
      · simpa [hc127] using h
      · simp only [hc127, if_false] at h ⊢
        cases hcsi : is_csi string st.pos_byte c with
        | error e1 => simpa [hcsi] using h
        | ok csi =>
          simp only [hcsi] at h ⊢
          cases csi
          · simp only [Bool.false_eq_true, if_false] at h ⊢
            by_cases hlt : st.pos_raw < q
            · have hlt1 : st.pos_raw < p := lt_of_lt_of_le hlt hqp
              simp only [hlt, hlt1, if_true] at h ⊢
              exact h
            · simp [hlt] at h
          · simpa using h

theorem step_target_next {q p : Int} {string : CString} {st st1 : FANSI_state}
    (hqp : q ≤ p) (hraw : st.pos_raw ≤ q)
    (h : FANSI_state_at_raw_position.step q string st = .ok (true, st1)) :
    FANSI_state_at_raw_position.step p string st = .ok (true, st1) := by
  have hraw1 : st.pos_raw ≤ p := le_trans hraw hqp
  unfold FANSI_state_at_raw_position.step at h ⊢
  simp only [bind, Except.bind] at h ⊢
  cases hc : string.at st.pos_byte with
  | error e1 => simp [hc] at h
  | ok c =>
    simp only [hc, hraw, hraw1, and_true] at h ⊢
    by_cases hc0 : c = 0
    · subst hc0
      simp at h
    · simp only [ne_eq, hc0, not_false_eq_true, if_true] at h ⊢
      by_cases hc127 : c > 127
      · simp [hc127] at h
      · simp only [hc127, if_false] at h ⊢
        cases hcsi : is_csi string st.pos_byte c with
        | error e1 => simp [hcsi] at h
        | ok csi =>
          simp only [hcsi] at h ⊢
          cases csi
          · simp only [Bool.false_eq_true, if_false] at h ⊢
            by_cases hlt : st.pos_raw < q
            · have hlt1 : st.pos_raw < p := lt_of_lt_of_le hlt hqp
              simp only [hlt, hlt1, if_true] at h ⊢
              exact h
            · simp [hlt] at h
          · simpa using h

theorem step_target_stop {q p : Int} {string : CString} {st st1 : FANSI_state}
    (hqp : q ≤ p) (hraw : st.pos_raw ≤ q)
    (h : FANSI_state_at_raw_position.step q string st = .ok (false, st1)) :
    FANSI_state_at_raw_position.step p string st1 =
      FANSI_state_at_raw_position.step p string st ∧ st1.pos_byte = st.pos_byte := by
  have hraw1 : st.pos_raw ≤ p := le_trans hraw hqp
  unfold FANSI_state_at_raw_position.step at h
  simp only [bind, Except.bind] at h
  cases hc : string.at st.pos_byte with
  | error e1 => simp [hc] at h
  | ok c =>
    simp only [hc, hraw, and_true] at h
    by_cases hc0 : c = 0
    · subst hc0
      simp at h
      subst h
      exact ⟨rfl, rfl⟩
    · simp only [ne_eq, hc0, not_false_eq_true, if_true] at h
      by_cases hc127 : c > 127
      · simp [hc127] at h
      · simp only [hc127, if_false] at h
        cases hcsi : is_csi string st.pos_byte c with
        | error e1 => simp [hcsi] at h
        | ok csi =>
          simp only [hcsi] at h
          cases csi
          · simp only [Bool.false_eq_true, if_false] at h
            by_cases hlt : st.pos_raw < q
            · simp only [hlt, if_true] at h
              split at h <;> simp at h
            · simp only [hlt, if_false] at h
              simp only [Except.ok.injEq, Prod.mk.injEq, true_and] at h
              subst h
              refine ⟨?_, rfl⟩
              unfold FANSI_state_at_raw_position.step
              simp only [bind, Except.bind, hc, hraw1, and_true, ne_eq, hc0,
                not_false_eq_true, if_true]
          · simp only [if_true] at h
            split at h
            · cases h
            · split at h <;> simp at h

theorem loop_split {q p : Int} (hqp : q ≤ p) (string : CString) (F : Nat) :
    ∀ (f : Nat) (st : FANSI_state), room string st < f → room string st < F →
      st.pos_raw ≤ q →
      (FANSI_state_at_raw_position.loop q string f st >>=
        fun a => FANSI_state_at_raw_position.loop p string F a) =
      FANSI_state_at_raw_position.loop p string f st := by
  intro f
  induction f with
  | zero => intro st h; omega
  | succ f ih =>
    intro st hf hF hraw
    unfold FANSI_state_at_raw_position.loop at ih ⊢
    rw [run_loop_succ, run_loop_succ]
    cases hs : FANSI_state_at_raw_position.step q string st with
    | error e =>
      rw [step_target_error hqp hraw hs]
      rfl
    | ok r =>
      obtain ⟨b, st1⟩ := r
      cases b
      · obtain ⟨h1, h2⟩ := step_target_stop hqp hraw hs
        have hroom : room string st1 = room string st := by unfold room; rw [h2]
        simp only [bind, Except.bind]
        have := @loop_fuel p string F (f + 1) st1 (by omega) (by omega)
        unfold FANSI_state_at_raw_position.loop at this
        rw [this, run_loop_succ, h1]
      · rw [step_target_next hqp hraw hs]
        have hk := step_keeps hs
        have hr := step_room _ _ hs
        exact ih st1 (by omega) (by omega) (hk.1.2.2.2 hraw)

/-! ## The scan does not read `pos_ansi` -/

theorem components_set_ansi (x : Int) (str : CString) (i_max : Int) : ∀ (n : Nat) (i : Int)
    (st : FANSI_state) (rgb : Arr4) (v : Int),
    FANSI_parse_colors.components str i_max n i (set_ansi x st) rgb v =
      (FANSI_parse_colors.components str i_max n i st rgb v).map
        (fun r => (set_ansi x r.1, r.2)) := by
  intro n
  induction n with
  | zero => intro i st rgb v; rfl
  | succ n ih =>
    intro i st rgb v
    unfold FANSI_parse_colors.components
    simp only [bind, Except.bind]
    have hp : (set_ansi x st).pos_byte = st.pos_byte := rfl
    rw [hp]
    cases hres : FANSI_parse_token str st.pos_byte with
    | error e => rfl
    | ok res =>
      simp only
      cases hpb : advance st.pos_byte res.len with
      | error e => rfl
      | ok pb =>
        simp only
        split
        · split
          · exact ih _ { st with pos_byte := pb, last := res.last } _ _
          · exact ih _ { st with pos_byte := pb, last := res.last } _ _
        · rfl

theorem parse_colors_set_ansi (x : Int) (st : FANSI_state) (mode : Int) :
    FANSI_parse_colors (set_ansi x st) mode = (FANSI_parse_colors st mode).map (set_ansi x) := by
  obtain ⟨string, style, color, bg_color, ce, bce, pa, pr, pbyte, last, fail⟩ := st
  unfold FANSI_parse_colors
  split
  · rfl
  · simp only [set_ansi]
    cases string with
    | none => rfl
    | some str =>
      simp only [bind, Except.bind]
      cases hres : FANSI_parse_token str pbyte with
      | error e => rfl
      | ok res =>
        simp only
        cases hpb : advance pbyte res.len with
        | error e => rfl
        | ok pb =>
          simp only
          split
          · rfl
          · split
            · rfl
            · split
              · split
                · rfl
                · have := components_set_ansi x str (↑(if res.val = 2 then 3 else 1 : Nat))
                    (if res.val = 2 then 3 else 1) 0
                    ⟨some str, style, color, bg_color, ce, bce, pa, pr, pb, res.last, fail⟩
                    Arr4.zero 1
                  simp only [set_ansi] at this
                  rw [this]
                  cases FANSI_parse_colors.components str (↑(if res.val = 2 then 3 else 1 : Nat))
                    (if res.val = 2 then 3 else 1) 0
                    ⟨some str, style, color, bg_color, ce, bce, pa, pr, pb, res.last, fail⟩
                    Arr4.zero 1 with
                  | error e => rfl
                  | ok v =>
                    simp only [Except.map]
                    split
                    · split <;> rfl
                    · rfl
              · split
                · rfl
                · rfl

theorem color_set_ansi (x : Int) (val : Nat) (st : FANSI_state) :
    FANSI_state_at_raw_position.color val (set_ansi x st) =
      (FANSI_state_at_raw_position.color val st).map (set_ansi x) := by
  unfold FANSI_state_at_raw_position.color
  dsimp only
  by_cases hfg : val < 40
  · simp only [hfg, decide_True, if_true]
    generalize (if (val : Int) - 30 = 9 then (-1 : Int) else (val : Int) - 30) = cc
    split
    · exact parse_colors_set_ansi x { st with color := cc } 3
    · rfl
  · simp only [hfg, decide_False, Bool.false_eq_true, if_false]
    generalize (if (val : Int) - 40 = 9 then (-1 : Int) else (val : Int) - 40) = cc
    split
    · exact parse_colors_set_ansi x { st with bg_color := cc } 4
    · rfl

theorem apply_set_ansi (x : Int) (val : Nat) (st : FANSI_state) :
    FANSI_state_at_raw_position.apply val (set_ansi x st) =
      (FANSI_state_at_raw_position.apply val st).map (set_ansi x) := by
  unfold FANSI_state_at_raw_position.apply
  repeat' split
  all_goals first
    | rfl
    | exact color_set_ansi x _ _

theorem dispatch_set_ansi (x : Int) (res : FANSI_tok_res) (st : FANSI_state) :
    FANSI_state_at_raw_position.dispatch res (set_ansi x st) =
      (FANSI_state_at_raw_position.dispatch res st).map (set_ansi x) := by
  unfold FANSI_state_at_raw_position.dispatch
  repeat' split
  all_goals first
    | rfl
    | exact apply_set_ansi x _ _

theorem token_set_ansi (x : Int) (string : CString) (st : FANSI_state) :
    FANSI_state_at_raw_position.token string (set_ansi x st) =
      (FANSI_state_at_raw_position.token string st).map (fun r => (r.1, set_ansi x r.2)) := by
  unfold FANSI_state_at_raw_position.token
  simp only [bind, Except.bind]
  have hp : (set_ansi x st).pos_byte = st.pos_byte := rfl
  rw [hp]
  cases hres : FANSI_parse_token string st.pos_byte with
  | error e => rfl
  | ok res =>
    simp only
    cases hpb : advance st.pos_byte res.len with
    | error e => rfl
    | ok pb =>
      simp only
      have := dispatch_set_ansi x res { st with pos_byte := pb, last := res.last }
      simp only [set_ansi] at this ⊢
      rw [this]
      cases FANSI_state_at_raw_position.dispatch res { st with pos_byte := pb, last := res.last } with
      | error e => rfl
      | ok st2 =>
        by_cases hcond : res.last ≠ 0 ∨ st2.last ≠ 0 ∨ st2.fail ≠ 0
        · have e1 : (if res.last ≠ 0 ∨ (set_ansi x st2).last ≠ 0 ∨ (set_ansi x st2).fail ≠ 0
              then (Except.ok (false, set_ansi x st2) : Except Err (Bool × FANSI_state))
              else Except.ok (true, set_ansi x st2)) = Except.ok (false, set_ansi x st2) :=
            if_pos hcond
          simp only [Except.map]
          rw [e1, if_pos hcond]
          rfl
        · have e1 : (if res.last ≠ 0 ∨ (set_ansi x st2).last ≠ 0 ∨ (set_ansi x st2).fail ≠ 0
              then (Except.ok (false, set_ansi x st2) : Except Err (Bool × FANSI_state))
              else Except.ok (true, set_ansi x st2)) = Except.ok (true, set_ansi x st2) :=
            if_neg hcond
          simp only [Except.map]
          rw [e1, if_neg hcond]
          rfl

theorem tokens_set_ansi (x : Int) (string : CString) (fuel : Nat) (st : FANSI_state) :
    FANSI_state_at_raw_position.tokens string fuel (set_ansi x st) =
      (FANSI_state_at_raw_position.tokens string fuel st).map (set_ansi x) :=
  run_loop_map _ (set_ansi x) (token_set_ansi x string) fuel st

theorem recover_set_ansi (x prev : Int) (tmp st : FANSI_state) :
    FANSI_state_at_raw_position.recover prev (set_ansi x tmp) (set_ansi x st) =
      set_ansi x (FANSI_state_at_raw_position.recover prev tmp st) := by
  unfold FANSI_state_at_raw_position.recover
  have h2 : (set_ansi x st).fail = st.fail := rfl
  rw [h2]
  split <;> rfl

theorem step_set_ansi (x : Int) (pos : Int) (string : CString) (st : FANSI_state) :
    FANSI_state_at_raw_position.step pos string (set_ansi x st) =
      (FANSI_state_at_raw_position.step pos string st).map
        (fun r => (r.1, set_ansi x r.2)) := by
  unfold FANSI_state_at_raw_position.step
  simp only [bind, Except.bind]
  have hp : (set_ansi x st).pos_byte = st.pos_byte := rfl
  have hr : (set_ansi x st).pos_raw = st.pos_raw := rfl
  rw [hp, hr]
  cases hc : string.at st.pos_byte with
  | error e => rfl
  | ok c =>
    simp only
    split
    · split
      · rfl
      · cases hcsi : is_csi string st.pos_byte c with
        | error e => rfl
        | ok csi =>
          simp only
          cases csi
          · simp only [Bool.false_eq_true, if_false]
            split
            · split <;> rfl
            · rfl
          · simp only [if_true]
            cases hpb : safe_add st.pos_byte 2 with
            | error e => rfl
            | ok pb =>
              simp only
              have := tokens_set_ansi x string (string.bytes.length + 2)
                { st with fail := 0, last := 0, pos_byte := pb }
              simp only [set_ansi] at this ⊢
              rw [this]
              cases FANSI_state_at_raw_position.tokens string (string.bytes.length + 2)
                { st with fail := 0, last := 0, pos_byte := pb } with
              | error e => rfl
              | ok st2 =>
                exact congrArg
                  (fun s => (Except.ok (true, s) : Except Err (Bool × FANSI_state)))
                  (recover_set_ansi x st.pos_byte
                    { st with fail := 0, last := 0, pos_byte := pb } st2)
    · rfl

theorem loop_set_ansi (x : Int) (pos : Int) (string : CString) (fuel : Nat)
    (st : FANSI_state) :
    FANSI_state_at_raw_position.loop pos string fuel (set_ansi x st) =
      (FANSI_state_at_raw_position.loop pos string fuel st).map (set_ansi x) :=
  run_loop_map _ (set_ansi x) (step_set_ansi x pos string) fuel st

/-! ## The call as a whole -/

/-- The last assignment of the function: `pos_ansi = pos_byte`. -/
theorem raw_position_eq {pos : Int} {string : CString} {st : FANSI_state}
    (hs : st.string = none ∨ st.string = some string) (hp : st.pos_raw ≤ pos) :
    FANSI_state_at_raw_position pos string st =
      (FANSI_state_at_raw_position.loop pos string (string.bytes.length + 2)
        { st with string := some string }).map (fun s => set_ansi s.pos_byte s) := by
  unfold FANSI_state_at_raw_position
  have h1 : ¬(st.string ≠ none ∧ st.string ≠ some string) := by
    rcases hs with h | h <;> simp [h]
  have h2 : ¬pos < st.pos_raw := by omega
  rw [if_neg h1, if_neg h2]
  simp only [bind, Except.bind]
  cases FANSI_state_at_raw_position.loop pos string (string.bytes.length + 2)
      { st with string := some string } <;> rfl

theorem raw_position_keeps {pos : Int} {string : CString} {st st1 : FANSI_state}
    (h : FANSI_state_at_raw_position pos string st = .ok st1) :
    st1.string = some string ∧ st.pos_byte ≤ st1.pos_byte ∧
      (st.pos_raw ≤ st.pos_byte → st1.pos_raw ≤ st1.pos_byte) ∧ st1.pos_raw ≤ pos ∧
      st1.pos_ansi = st1.pos_byte := by
  unfold FANSI_state_at_raw_position at h
  split at h
  · cases h
  · split at h
    · cases h
    · rename_i hpos
      simp only [bind, Except.bind] at h
      split at h
      · cases h
      · rename_i st2 hst2
        cases h
        obtain ⟨k1, k2, k3, k4⟩ := loop_keeps hst2
        simp only at k1 k2 k3 k4
        exact ⟨k1, k2, k3, k4 (by omega), rfl⟩

theorem thread_inv (string : CString) : ∀ (poss : List Int) (st : FANSI_state)
    (states : List FANSI_state), st.pos_raw ≤ st.pos_byte →
    thread string poss st = .ok states → ∀ s ∈ states, s.pos_raw ≤ s.pos_byte := by
  intro poss
  induction poss with
  | nil =>
    intro st states _ h
    simp [thread] at h
    subst h
    simp
  | cons pos poss ih =>
    intro st states hst h
    unfold thread at h
    simp only [bind, Except.bind] at h
    split at h
    · cases h
    · rename_i st1 hst1
      split at h
      · cases h
      · rename_i rest hrest
        cases h
        have h1 := (raw_position_keeps hst1).2.2.1 hst
        intro s hs
        rcases List.mem_cons.mp hs with rfl | hs
        · exact h1
        · exact ih st1 rest h1 hrest s hs

/-! ## Moving a token along the buffer -/

theorem at_shift (l1 l2 : List Nat) (i : Int) (hi : 0 ≤ i) :
    (cstring (l1 ++ l2)).at ((l1.length : Int) + i) = (cstring l2).at i := by
  obtain ⟨k, rfl⟩ := Int.eq_ofNat_of_zero_le hi
  unfold CString.at cstring
  have h1 : ¬((l1.length : Int) + (k : Int) < 0) := by omega
  have h2 : ¬((k : Int) < 0) := by omega
  have h3 : ((l1.length : Int) + (k : Int)).toNat = l1.length + k := by omega
  have h4 : ((k : Int)).toNat = k := by omega
  simp only [h1, h2, h3, h4, if_false, List.length_append]
  by_cases hk : k < l2.length
  · have : l1.length + k < l1.length + l2.length := by omega
    simp only [hk, this, if_true]
    congr 1
    simp [List.getD_eq_getElem?_getD, List.getElem?_append_right]
  · have hk1 : ¬(l1.length + k < l1.length + l2.length) := by omega
    simp only [hk, hk1, if_false]
    by_cases hk2 : k = l2.length
    · simp [hk2]
    · have : ¬(l1.length + k = l1.length + l2.length) := by omega
      simp [hk2, this]

theorem digits_pos (s : CString) : ∀ (n : Nat) (p len q len1 : Int),
    FANSI_parse_token.digits s n p len = .ok (q, len1) → q = p + (len1 - len) := by
  intro n
  induction n with
  | zero =>
    intro p len q len1 h
    simp [FANSI_parse_token.digits] at h
    omega
  | succ n ih =>
    intro p len q len1 h
    unfold FANSI_parse_token.digits at h
    split at h
    · cases h
    · split at h
      · split at h
        · cases h
        · have := ih _ _ _ _ h
          omega
      · simp at h
        omega

theorem digits_shift (l1 l2 : List Nat) : ∀ (n : Nat) (i len : Int), 0 ≤ i →
    FANSI_parse_token.digits (cstring (l1 ++ l2)) n ((l1.length : Int) + i) len =
      (FANSI_parse_token.digits (cstring l2) n i len).map
        (fun r => ((l1.length : Int) + r.1, r.2)) := by
  intro n
  induction n with
  | zero => intro i len _; rfl
  | succ n ih =>
    intro i len hi
    unfold FANSI_parse_token.digits
    rw [at_shift l1 l2 i hi]
    cases (cstring l2).at i with
    | error e => rfl
    | ok c =>
      simp only
      split
      · split
        · rfl
        · rw [add_assoc]
          exact ih (i + 1) (len + 1) (by omega)
      · rfl

theorem decode_shift (l1 l2 : List Nat) : ∀ (n : Nat) (q : Int) (val mult : Nat),
    (n : Int) ≤ q →
    FANSI_parse_token.decode (cstring (l1 ++ l2)) n ((l1.length : Int) + q) val mult =
      FANSI_parse_token.decode (cstring l2) n q val mult := by
  intro n
  induction n with
  | zero => intro q val mult _; rfl
  | succ n ih =>
    intro q val mult hq
    unfold FANSI_parse_token.decode
    have e : (l1.length : Int) + q - 1 = (l1.length : Int) + (q - 1) := by omega
    rw [e, at_shift l1 l2 (q - 1) (by omega)]
    cases (cstring l2).at (q - 1) with
    | error e => rfl
    | ok c =>
      simp only
      cases FANSI_as_num c with
      | error e => rfl
      | ok d =>
        simp only
        exact ih (q - 1) _ _ (by omega)

/-- A token is read the same wherever it lies in the buffer. -/
theorem parse_token_shift (l1 l2 : List Nat) (i : Int) (hi : 0 ≤ i) :
    FANSI_parse_token (cstring (l1 ++ l2)) ((l1.length : Int) + i) =
      FANSI_parse_token (cstring l2) i := by
  unfold FANSI_parse_token
  rw [digits_shift l1 l2 5 i 0 hi]
  cases hd : FANSI_parse_token.digits (cstring l2) 5 i 0 with
  | error e => rfl
  | ok r =>
    obtain ⟨q, len⟩ := r
    have hq := digits_pos _ _ _ _ _ _ hd
    have hl := digits_spec _ _ _ _ _ _ hd
    simp only [Except.map]
    rw [at_shift l1 l2 q (by omega)]
    cases (cstring l2).at q with
    | error e => rfl
    | ok c =>
      simp only
      rw [decode_shift l1 l2 len.toNat q 0 1 (by omega)]

/-! ## Running the loops one pass at a time -/

theorem advance_eq {p l : Int} (h1 : l + 1 ≤ INT_MAX) (h2 : p + (l + 1) ≤ INT_MAX) :
    advance p l = .ok (p + (l + 1)) := by
  unfold advance safe_add
  have e1 : ¬(l > INT_MAX - 1) := by omega
  have e2 : ¬(p > INT_MAX - (l + 1)) := by omega
  simp only [bind, Except.bind, e1, e2, if_false]

theorem token_of {string : CString} {st st2 : FANSI_state} {res : FANSI_tok_res}
    (hres : FANSI_parse_token string st.pos_byte = .ok res)
    (h1 : res.len + 1 ≤ INT_MAX) (h2 : st.pos_byte + (res.len + 1) ≤ INT_MAX)
    (hd : FANSI_state_at_raw_position.dispatch res
      { st with pos_byte := st.pos_byte + (res.len + 1), last := res.last } = .ok st2) :
    FANSI_state_at_raw_position.token string st =
      .ok (decide (¬(res.last ≠ 0 ∨ st2.last ≠ 0 ∨ st2.fail ≠ 0)), st2) := by
  unfold FANSI_state_at_raw_position.token
  simp only [bind, Except.bind, hres, advance_eq h1 h2, hd]
  split
  · rename_i h; simp [h]
  · rename_i h; simp [h]

theorem tokens_stop {string : CString} {st st1 : FANSI_state} {f : Nat} (hf : 0 < f)
    (h : FANSI_state_at_raw_position.token string st = .ok (false, st1)) :
    FANSI_state_at_raw_position.tokens string f st = .ok st1 := by
  obtain ⟨g, rfl⟩ : ∃ g, f = g + 1 := ⟨f - 1, by omega⟩
  unfold FANSI_state_at_raw_position.tokens
  rw [run_loop_succ, h]

theorem loop_stop {pos : Int} {string : CString} {st st1 : FANSI_state} {f : Nat}
    (hf : 0 < f) (h : FANSI_state_at_raw_position.step pos string st = .ok (false, st1)) :
    FANSI_state_at_raw_position.loop pos string f st = .ok st1 := by
  obtain ⟨g, rfl⟩ : ∃ g, f = g + 1 := ⟨f - 1, by omega⟩
  unfold FANSI_state_at_raw_position.loop
  rw [run_loop_succ, h]

theorem loop_next {pos : Int} {string : CString} {st st1 : FANSI_state} {f : Nat}
    (hf : room string st < f)
    (h : FANSI_state_at_raw_position.step pos string st = .ok (true, st1)) :
    FANSI_state_at_raw_position.loop pos string f st =
      FANSI_state_at_raw_position.loop pos string f st1 := by
  obtain ⟨g, rfl⟩ : ∃ g, f = g + 1 := ⟨f - 1, by omega⟩
  have hr := step_room _ _ h
  rw [@loop_fuel pos string (g + 1) g st1 (by omega) (by omega)]
  unfold FANSI_state_at_raw_position.loop
  rw [run_loop_succ, h]

/-- The pass over a byte that is not the start of a sequence, below the
target. -/
theorem step_plain {pos : Int} {string : CString} {st : FANSI_state} {c : Nat}
    (hc : string.at st.pos_byte = .ok c) (h0 : c ≠ 0) (h127 : c ≤ 127) (h27 : c ≠ 27)
    (hraw : st.pos_raw < pos) (hmax : st.pos_byte < INT_MAX) :
    FANSI_state_at_raw_position.step pos string st =
      .ok (true, { st with fail := 0, last := 0, pos_byte := st.pos_byte + 1,
                           pos_raw := st.pos_raw + 1 }) := by
  unfold FANSI_state_at_raw_position.step
  have e1 : c ≠ 0 ∧ st.pos_raw ≤ pos := ⟨h0, by omega⟩
  have e2 : ¬(c > 127) := by omega
  have e3 : ¬(st.pos_byte = INT_MAX) := by omega
  simp only [bind, Except.bind, hc, e1, e2, e3, is_csi, h27, hraw, if_true, if_false,
    and_self, Bool.false_eq_true]
  simp [h0]

/-- The pass that stops at the target, on a byte that is not the start of a
sequence. -/
theorem step_break {pos : Int} {string : CString} {st : FANSI_state} {c : Nat}
    (hc : string.at st.pos_byte = .ok c) (h0 : c ≠ 0) (h127 : c ≤ 127) (h27 : c ≠ 27)
    (hraw : st.pos_raw = pos) :
    FANSI_state_at_raw_position.step pos string st =
      .ok (false, { st with fail := 0, last := 0 }) := by
  unfold FANSI_state_at_raw_position.step
  have e1 : c ≠ 0 ∧ st.pos_raw ≤ pos := ⟨h0, by omega⟩
  have e2 : ¬(c > 127) := by omega
  have e3 : ¬(st.pos_raw < pos) := by omega
  simp only [bind, Except.bind, hc, e1, e2, e3, is_csi, h27, if_true, if_false,
    and_self, Bool.false_eq_true]
  simp [h0]

/-- The pass that finds the NUL. -/
theorem step_nul {pos : Int} {string : CString} {st : FANSI_state}
    (hc : string.at st.pos_byte = .ok 0) :
    FANSI_state_at_raw_position.step pos string st = .ok (false, st) := by
  unfold FANSI_state_at_raw_position.step
  simp [bind, Except.bind, hc]

/-- The pass over a sequence `ESC [ ...`. -/
theorem step_csi {pos : Int} {string : CString} {st st2 : FANSI_state}
    (hc : string.at st.pos_byte = .ok 27) (hc1 : string.at (st.pos_byte + 1) = .ok 91)
    (hraw : st.pos_raw ≤ pos) (hmax : st.pos_byte + 2 ≤ INT_MAX)
    (ht : FANSI_state_at_raw_position.tokens string (string.bytes.length + 2)
      { st with fail := 0, last := 0, pos_byte := st.pos_byte + 2 } = .ok st2) :
    FANSI_state_at_raw_position.step pos string st =
      .ok (true, FANSI_state_at_raw_position.recover st.pos_byte
        { st with fail := 0, last := 0, pos_byte := st.pos_byte + 2 } st2) := by
  unfold FANSI_state_at_raw_position.step
  have e1 : (27 : Nat) ≠ 0 ∧ st.pos_raw ≤ pos := ⟨by decide, hraw⟩
  have e2 : ¬((27 : Nat) > 127) := by decide
  have e3 : ¬(st.pos_byte > INT_MAX - 2) := by omega
  simp only [bind, Except.bind, hc, hc1, e1, e2, e3, is_csi, safe_add, if_true, if_false,
    decide_True, ht]
  simp

/-- The pass over a sequence `ESC [ token` whose only token ends it and is
not rejected. -/
theorem step_csi_one {pos : Int} {string : CString} {st st2 : FANSI_state}
    {res : FANSI_tok_res}
    (hc : string.at st.pos_byte = .ok 27) (hc1 : string.at (st.pos_byte + 1) = .ok 91)
    (hraw : st.pos_raw ≤ pos)
    (hres : FANSI_parse_token string (st.pos_byte + 2) = .ok res)
    (hlast : res.last ≠ 0)
    (hmax : st.pos_byte + 2 + (res.len + 1) ≤ INT_MAX)
    (hd : FANSI_state_at_raw_position.dispatch res
      { st with fail := 0, last := res.last, pos_byte := st.pos_byte + 2 + (res.len + 1) } =
        .ok st2)
    (hfail : st2.fail = 0) :
    FANSI_state_at_raw_position.step pos string st = .ok (true, st2) := by
  have hlen := parse_token_len_nonneg hres
  have hstart := parse_token_start hres
  have hp := (at_ok_bounds hc).1
  have hmax1 : st.pos_byte + 2 + (res.len + 1) ≤ 2147483647 := hmax
  have ht := @token_of string
    { st with fail := 0, last := 0, pos_byte := st.pos_byte + 2 } _ _
    hres (show res.len + 1 ≤ 2147483647 by omega) hmax hd
  have hflag : decide (¬(res.last ≠ 0 ∨ st2.last ≠ 0 ∨ st2.fail ≠ 0)) = false := by
    simp [hlast]
  rw [hflag] at ht
  have hts := tokens_stop (f := string.bytes.length + 2) (by omega) ht
  rw [step_csi hc hc1 hraw (show st.pos_byte + 2 ≤ 2147483647 by omega) hts]
  unfold FANSI_state_at_raw_position.recover
  simp [hfail]

theorem parse_token_four_digits (d1 d2 d3 d4 : Nat) (rest : List Nat)
    (h1 : 48 ≤ d1 ∧ d1 ≤ 57) (h2 : 48 ≤ d2 ∧ d2 ≤ 57) (h3 : 48 ≤ d3 ∧ d3 ≤ 57)
    (h4 : 48 ≤ d4 ∧ d4 ≤ 57) :
    FANSI_parse_token (cstring (d1 :: d2 :: d3 :: d4 :: 109 :: rest)) 0 =
      .ok { val := 0, len := 4, success := 1, last := 1 } := by
  simp [FANSI_parse_token, FANSI_parse_token.digits, CString.at, cstring,
    h1, h2, h3, h4, FANSI_is_num, FANSI_is_tok_end]

theorem at_tail (l1 l2 : List Nat) (p i : Int) (hp : p = (l1.length : Int) + i) (hi : 0 ≤ i) :
    (cstring (l1 ++ l2)).at p = (cstring l2).at i := by
  subst hp
  exact at_shift l1 l2 i hi

theorem parse_token_tail (l1 l2 : List Nat) (p i : Int) (hp : p = (l1.length : Int) + i)
    (hi : 0 ≤ i) :
    FANSI_parse_token (cstring (l1 ++ l2)) p = FANSI_parse_token (cstring l2) i := by
  subst hp
  exact parse_token_shift l1 l2 i hi

theorem at_cons_zero (b : Nat) (l : List Nat) : (cstring (b :: l)).at 0 = .ok b := by
  simp [CString.at, cstring]

/-- A run of bytes that start no sequence, all below the target, is passed one
raw position per byte. -/
theorem loop_text (pos : Int) (f : Nat) : ∀ (t l1 l2 : List Nat) (st : FANSI_state),
    (∀ b ∈ t, b ≠ 0 ∧ b ≤ 127 ∧ b ≠ 27) → st.pos_byte = l1.length →
    st.fail = 0 → st.last = 0 → st.pos_raw + t.length ≤ pos →
    (l1.length : Int) + t.length ≤ INT_MAX →
    room (cstring (l1 ++ t ++ l2)) st < f →
    FANSI_state_at_raw_position.loop pos (cstring (l1 ++ t ++ l2)) f st =
      FANSI_state_at_raw_position.loop pos (cstring (l1 ++ t ++ l2)) f
        { st with pos_byte := st.pos_byte + t.length, pos_raw := st.pos_raw + t.length } := by
  intro t
  induction t with
  | nil =>
    intro l1 l2 st _ _ _ _ _ _ _
    simp
  | cons b t ih =>
    intro l1 l2 st hplain hpb hfail hlast hraw hmax hroom
    have hb := hplain b (List.mem_cons_self _ _)
    have hat : (cstring (l1 ++ b :: t ++ l2)).at st.pos_byte = .ok b := by
      have := at_tail l1 (b :: t ++ l2) st.pos_byte 0 (by omega) (le_refl _)
      rw [List.append_assoc, this]
      exact at_cons_zero b (t ++ l2)
    simp only [List.length_cons, Nat.cast_add, Nat.cast_one] at hraw hmax
    have hmax1 : (l1.length : Int) + (t.length + 1) ≤ 2147483647 := hmax
    have hstep := @step_plain pos _ _ _ hat hb.1 hb.2.1 hb.2.2 (by omega)
      (show st.pos_byte < 2147483647 by omega)
    rw [loop_next hroom hstep]
    have e : l1 ++ b :: t ++ l2 = (l1 ++ [b]) ++ t ++ l2 := by simp
    have hroom1 : room (cstring (l1 ++ b :: t ++ l2))
        { st with fail := 0, last := 0, pos_byte := st.pos_byte + 1,
                  pos_raw := st.pos_raw + 1 } < f := by
      unfold room at hroom ⊢
      simp only
      omega
    rw [e] at hroom1 ⊢
    rw [ih (l1 ++ [b]) l2 _ (fun x hx => hplain x (List.mem_cons_of_mem _ hx))
      (by simp [hpb]) rfl rfl (by simp only; omega)
      (by simp only [List.length_append, List.length_singleton, Nat.cast_add, Nat.cast_one]
          show (l1.length : Int) + 1 + t.length ≤ 2147483647
          omega) hroom1]
    congr 1
    obtain ⟨s0, sty, col, bg, ce, bce, pa, pr, pby, la, fa⟩ := st
    simp only at hfail hlast
    subst hfail hlast
    simp only [List.length_cons, Nat.cast_add, Nat.cast_one, FANSI_state.mk.injEq, true_and,
      and_true]
    constructor <;> omega

theorem room_lt {string : CString} {st : FANSI_state} (h : 0 ≤ st.pos_byte) :
    room string st < string.bytes.length + 2 := by
  unfold room
  omega

theorem parse_token_colour (c : Nat) (hc : c ≤ 7) (rest : List Nat) :
    FANSI_parse_token (cstring (51 :: (48 + c) :: 109 :: rest)) 0 =
      .ok { val := 30 + c, len := 2, success := 2, last := 1 } := by
  interval_cases c <;>
    simp [FANSI_parse_token, FANSI_parse_token.digits, FANSI_parse_token.decode, CString.at,
      cstring, FANSI_is_num, FANSI_is_tok_end, FANSI_as_num]

theorem dispatch_colour (c : Nat) (hc : c ≤ 7) (st : FANSI_state) :
    FANSI_state_at_raw_position.dispatch { val := 30 + c, len := 2, success := 2, last := 1 }
      st = .ok { st with color := (c : Int) } := by
  interval_cases c <;> rfl

/-! ## The serializer on styles and basic colours -/

theorem set_at_length {α : Type} (l1 : List α) (x y : α) (l2 : List α) :
    (l1 ++ x :: l2).set l1.length y = l1 ++ y :: l2 := by
  induction l1 with
  | nil => rfl
  | cons a l1 ih => simp [List.set, ih]

theorem write_next (w : List Nat) (x : Option Nat) (rest : Buf) (b : Nat) :
    Buf.write (w.map some ++ x :: rest) w.length b = .ok ((w ++ [b]).map some ++ rest) := by
  unfold Buf.write
  have h : w.length < (w.map some ++ x :: rest).length := by simp
  rw [if_pos h]
  have := set_at_length (w.map some) x (some b) rest
  rw [List.length_map] at this
  rw [this]
  simp

theorem cstr_written (w : List Nat) (rest : Buf) (hw : ∀ b ∈ w, b ≠ 0) :
    Buf.cstr (w.map some ++ some 0 :: rest) = .ok w := by
  induction w with
  | nil => simp [Buf.cstr]
  | cons a w ih =>
    have ha : a ≠ 0 := hw a (List.mem_cons_self _ _)
    have ih1 := ih (fun b hb => hw b (List.mem_cons_of_mem _ hb))
    show Buf.cstr (some a :: (w.map some ++ some 0 :: rest)) = _
    rw [Buf.cstr, if_neg ha]
    simp only [bind, Except.bind, ih1]

theorem style_bit_iff (style i : Nat) : (1 <<< i) &&& style ≠ 0 ↔ style.testBit i = true := by
  rw [Nat.one_shiftLeft]
  constructor
  · intro h
    by_contra hb
    apply h
    apply Nat.eq_of_testBit_eq
    intro j
    simp only [Nat.testBit_and, Nat.testBit_two_pow, Nat.zero_testBit]
    by_cases hij : i = j
    · subst hij
      simp [hb]
    · simp [hij]
  · intro h h0
    have : (2 ^ i &&& style).testBit i = true := by
      simp [Nat.testBit_and, Nat.testBit_two_pow, h]
    rw [h0] at this
    simp at this

theorem each_followed_eq (sep : Nat) : ∀ (items : List (List Nat)), items ≠ [] →
    each_followed sep items = join_with sep items ++ [sep] := by
  intro items
  induction items with
  | nil => intro h; exact absurd rfl h
  | cons x rest ih =>
    intro _
    cases rest with
    | nil => simp [each_followed, join_with]
    | cons y rest =>
      have := ih (by simp)
      simp only [each_followed, join_with] at this ⊢
      rw [this]
      simp

/-- The second pass over the style bits writes, one after the other, the
digit and `;` of every set bit. -/
theorem style_write_spec (style : Nat) : ∀ (n i : Nat) (w : List Nat) (rest : Buf),
    (each_followed 59 (style_items style n i)).length ≤ rest.length →
    FANSI_state_as_chr.style_write style n i (w.map some ++ rest) w.length =
      .ok ((w ++ each_followed 59 (style_items style n i)).map some ++
            rest.drop (each_followed 59 (style_items style n i)).length,
           w.length + (each_followed 59 (style_items style n i)).length) := by
  intro n
  induction n with
  | zero =>
    intro i w rest _
    simp [FANSI_state_as_chr.style_write, style_items, each_followed]
  | succ n ih =>
    intro i w rest hroom
    have hitems : style_items style (n + 1) i =
        if style.testBit i then [48 + i] :: style_items style n (i + 1)
        else style_items style n (i + 1) := rfl
    rw [hitems] at hroom ⊢
    unfold FANSI_state_as_chr.style_write
    by_cases hb : style.testBit i = true
    · have hb1 : (1 <<< i) &&& style ≠ 0 := (style_bit_iff style i).mpr hb
      rw [if_pos hb1]
      simp only [hb, if_true, each_followed, List.singleton_append, List.length_cons] at hroom ⊢
      obtain ⟨x, rest1, rfl⟩ : ∃ x rest1, rest = x :: rest1 := by
        cases rest with
        | nil => simp at hroom
        | cons x rest1 => exact ⟨x, rest1, rfl⟩
      obtain ⟨y, rest2, rfl⟩ : ∃ y rest2, rest1 = y :: rest2 := by
        cases rest1 with
        | nil => simp at hroom
        | cons y rest2 => exact ⟨y, rest2, rfl⟩
      simp only [bind, Except.bind, write_next]
      have h1 := write_next (w ++ [48 + i]) y rest2 59
      simp only [List.length_append, List.length_singleton] at h1
      rw [h1]
      have h2 := ih (i + 1) ((w ++ [48 + i]) ++ [59]) rest2
        (by simp only [List.length_cons] at hroom; omega)
      simp only [List.length_append, List.length_singleton] at h2
      simp only [h2]
      simp [Nat.add_assoc]
      omega
    · have hb1 : ¬((1 <<< i) &&& style ≠ 0) := fun h => hb ((style_bit_iff style i).mp h)
      rw [if_neg hb1]
      simp only [hb, if_false, Bool.false_eq_true] at hroom ⊢
      exact ih (i + 1) w rest hroom

theorem each_followed_append (sep : Nat) (xs ys : List (List Nat)) :
    each_followed sep (xs ++ ys) = each_followed sep xs ++ each_followed sep ys := by
  induction xs with
  | nil => rfl
  | cons x xs ih => simp [each_followed, ih]

theorem style_size_acc (style : Nat) : ∀ (n i acc : Nat),
    FANSI_state_as_chr.style_size style n i acc =
      acc + FANSI_state_as_chr.style_size style n i 0 := by
  intro n
  induction n with
  | zero => intro i acc; rfl
  | succ n ih =>
    intro i acc
    unfold FANSI_state_as_chr.style_size
    rw [ih (i + 1) (acc + _), ih (i + 1) (0 + _)]
    omega

/-- The first pass counts at least the bytes the second pass writes, and
counts nothing exactly when no style bit is set. -/
theorem style_size_spec (style : Nat) : ∀ (n i : Nat),
    (each_followed 59 (style_items style n i)).length ≤
        FANSI_state_as_chr.style_size style n i 0 ∧
      (FANSI_state_as_chr.style_size style n i 0 = 0 ↔ style_items style n i = []) := by
  intro n
  induction n with
  | zero => intro i; simp [FANSI_state_as_chr.style_size, style_items, each_followed]
  | succ n ih =>
    intro i
    have hitems : style_items style (n + 1) i =
        if style.testBit i then [48 + i] :: style_items style n (i + 1)
        else style_items style n (i + 1) := rfl
    rw [hitems]
    unfold FANSI_state_as_chr.style_size
    rw [style_size_acc]
    obtain ⟨h1, h2⟩ := ih (i + 1)
    by_cases hb : style.testBit i = true
    · have hb1 : (1 <<< i) &&& style ≠ 0 := (style_bit_iff style i).mpr hb
      simp only [hb, if_true, each_followed, List.singleton_append, List.length_cons]
      constructor
      · omega
      · constructor
        · intro h; omega
        · intro h; cases h
    · have hb1 : (1 <<< i) &&& style = 0 := by
        by_contra h
        exact hb ((style_bit_iff style i).mp h)
      simp only [hb, if_false, Bool.false_eq_true, hb1]
      constructor
      · omega
      · rw [← h2]; omega

theorem style_bytes_ne_zero (style : Nat) : ∀ (n i : Nat),
    ∀ b ∈ each_followed 59 (style_items style n i), b ≠ 0 := by
  intro n
  induction n with
  | zero => intro i b hb; simp [style_items, each_followed] at hb
  | succ n ih =>
    intro i b hb
    have hitems : style_items style (n + 1) i =
        if style.testBit i then [48 + i] :: style_items style n (i + 1)
        else style_items style n (i + 1) := rfl
    rw [hitems] at hb
    split at hb
    · simp only [each_followed, List.singleton_append, List.mem_cons] at hb
      rcases hb with rfl | rfl | hb
      · omega
      · omega
      · exact ih _ _ hb
    · exact ih _ _ hb

theorem colour_bytes (lead : Nat) (color : Int)
    (hcol : color = -1 ∨ (1 ≤ color ∧ color ≤ 7)) :
    (color = -1 ∧ each_followed 59 (colour_items lead color) = []) ∨
    (1 ≤ color ∧ color ≤ 7 ∧
      each_followed 59 (colour_items lead color) = [lead, 48 + color.toNat, 59]) := by
  rcases hcol with h | h
  · left
    subst h
    exact ⟨rfl, rfl⟩
  · right
    have hne : color ≠ -1 := by omega
    refine ⟨h.1, h.2, ?_⟩
    simp [colour_items, hne, each_followed]

theorem color_size_spec (lead : Nat) (color : Int) (extra : Arr4)
    (hcol : color = -1 ∨ (1 ≤ color ∧ color ≤ 7)) :
    FANSI_color_size color extra =
      .ok (each_followed 59 (colour_items lead color)).length := by
  rcases colour_bytes lead color hcol with ⟨h, e⟩ | ⟨h1, h2, e⟩
  · subst h
    rw [e]
    rfl
  · rw [e]
    unfold FANSI_color_size
    have e1 : ¬(color = 8 ∧ extra.x0 = 2) := by omega
    have e2 : ¬(color = 8 ∧ extra.x0 = 5) := by omega
    have e3 : ¬(color = 8) := by omega
    have e4 : color ≥ 0 ∧ color < 10 := by omega
    simp [e3, e4]

theorem color_write_spec (w : List Nat) (rest : Buf) (color : Int) (extra : Arr4)
    (mode : Int) (lead : Nat) (hmode : (mode = 3 ∧ lead = 51) ∨ (mode = 4 ∧ lead = 52))
    (hcol : color = -1 ∨ (1 ≤ color ∧ color ≤ 7))
    (hroom : (each_followed 59 (colour_items lead color)).length ≤ rest.length) :
    FANSI_color_write (w.map some ++ rest) w.length color extra mode =
      .ok ((w ++ each_followed 59 (colour_items lead color)).map some ++
            rest.drop (each_followed 59 (colour_items lead color)).length,
           (each_followed 59 (colour_items lead color)).length) := by
  have hm : ¬(mode ≠ 3 ∧ mode ≠ 4) := by omega
  rcases colour_bytes lead color hcol with ⟨h, e⟩ | ⟨h1, h2, e⟩
  · subst h
    rw [e]
    unfold FANSI_color_write
    simp [hm]
  · rw [e] at hroom ⊢
    obtain ⟨x, y, z, rest1, rfl⟩ : ∃ x y z rest1, rest = x :: y :: z :: rest1 := by
      match rest, hroom with
      | x :: y :: z :: rest1, _ => exact ⟨x, y, z, rest1, rfl⟩
    unfold FANSI_color_write
    have hpos : color > 0 := by omega
    have h8 : color ≠ 8 := by omega
    have hlead : (if mode = 3 then 51 else 52) = lead := by
      rcases hmode with ⟨h, l⟩ | ⟨h, l⟩ <;> simp [h, l]
    have hdigit : ((48 + color) % 256).toNat = 48 + color.toNat := by omega
    rw [if_neg hm, if_pos hpos]
    simp only [bind, Except.bind, Nat.add_zero, hlead, hdigit, write_next, if_pos h8]
    have w1 := write_next (w ++ [lead]) y (z :: rest1) (48 + color.toNat)
    simp only [List.length_append, List.length_singleton] at w1
    rw [w1]
    have w2 := write_next ((w ++ [lead]) ++ [48 + color.toNat]) z rest1 59
    simp only [List.length_append, List.length_singleton] at w2
    simp only [Nat.add_assoc] at w2 ⊢
    rw [w2]
    simp

theorem each_followed_nil_iff (sep : Nat) (items : List (List Nat)) :
    each_followed sep items = [] ↔ items = [] := by
  cases items with
  | nil => simp [each_followed]
  | cons x rest => simp [each_followed]

/-- The canonical tag in terms of the bytes the serializer writes after
`ESC [`. -/
theorem canonical_tag_cases (style : Nat) (color bg_color : Int) :
    (each_followed 59 (style_items style 9 1) ++ each_followed 59 (colour_items 51 color) ++
        each_followed 59 (colour_items 52 bg_color) = [] ∧
      canonical_tag style color bg_color = []) ∨
    (∃ W0, each_followed 59 (style_items style 9 1) ++
        each_followed 59 (colour_items 51 color) ++
        each_followed 59 (colour_items 52 bg_color) = W0 ++ [59] ∧
      canonical_tag style color bg_color = [27, 91] ++ W0 ++ [109]) := by
  rw [← each_followed_append, ← each_followed_append]
  unfold canonical_tag
  generalize style_items style 9 1 ++ colour_items 51 color ++ colour_items 52 bg_color = items
  cases items with
  | nil => left; exact ⟨rfl, rfl⟩
  | cons x rest =>
    right
    exact ⟨join_with 59 (x :: rest), each_followed_eq 59 (x :: rest) (by simp), rfl⟩

theorem as_chr_basic (state : FANSI_state)
    (hc : state.color = -1 ∨ (1 ≤ state.color ∧ state.color ≤ 7))
    (hb : state.bg_color = -1 ∨ (1 ≤ state.bg_color ∧ state.bg_color ≤ 7)) :
    FANSI_state_as_chr state =
      .ok (canonical_tag state.style state.color state.bg_color) := by
  obtain ⟨hs1, hs2⟩ := style_size_spec state.style 9 1
  have hz1 := style_bytes_ne_zero state.style 9 1
  have hcb := colour_bytes 51 state.color hc
  have hbb := colour_bytes 52 state.bg_color hb
  have hcases := canonical_tag_cases state.style state.color state.bg_color
  unfold FANSI_state_as_chr
  rw [color_size_spec 51 state.color state.color_extra hc,
    color_size_spec 52 state.bg_color state.bg_color_extra hb]
  simp only [bind, Except.bind]
  by_cases hN : FANSI_state_as_chr.style_size state.style 9 1 0 +
      (each_followed 59 (colour_items 51 state.color)).length +
      (each_followed 59 (colour_items 52 state.bg_color)).length = 0
  · rw [if_neg (not_not.mpr hN)]
    have h1 : FANSI_state_as_chr.style_size state.style 9 1 0 = 0 := by omega
    have h2 : (each_followed 59 (colour_items 51 state.color)).length = 0 := by omega
    have h3 : (each_followed 59 (colour_items 52 state.bg_color)).length = 0 := by omega
    have i1 := hs2.mp h1
    have i2 := (each_followed_nil_iff 59 _).mp (List.length_eq_zero.mp h2)
    have i3 := (each_followed_nil_iff 59 _).mp (List.length_eq_zero.mp h3)
    unfold canonical_tag
    rw [i1, i2, i3]
    rfl
  · rw [if_pos hN]
    rcases hcases with ⟨hnil, _⟩ | ⟨W0, hW0, htag⟩
    · exfalso
      have := congrArg List.length hnil
      simp only [List.length_append, List.length_nil] at this
      have h1 : (each_followed 59 (style_items state.style 9 1)).length = 0 := by omega
      have i1 := (each_followed_nil_iff 59 _).mp (List.length_eq_zero.mp h1)
      have := hs2.mpr i1
      omega
    · rw [htag]
      generalize hS : FANSI_state_as_chr.style_size state.style 9 1 0 = S at hs1 hN ⊢
      have hE2len : (each_followed 59 (colour_items 51 state.color)).length ≤ 3 := by
        rcases hcb with ⟨_, e⟩ | ⟨_, _, e⟩ <;> rw [e] <;> simp
      have hE3len : (each_followed 59 (colour_items 52 state.bg_color)).length ≤ 3 := by
        rcases hbb with ⟨_, e⟩ | ⟨_, _, e⟩ <;> rw [e] <;> simp
      have hz2 : ∀ b ∈ each_followed 59 (colour_items 51 state.color), b ≠ 0 := by
        rcases hcb with ⟨_, e⟩ | ⟨_, _, e⟩ <;> rw [e] <;> simp
      have hz3 : ∀ b ∈ each_followed 59 (colour_items 52 state.bg_color), b ≠ 0 := by
        rcases hbb with ⟨_, e⟩ | ⟨_, _, e⟩ <;> rw [e] <;> simp
      have hcwfg := fun (w : List Nat) (rest : Buf) =>
        color_write_spec w rest state.color state.color_extra 3 51 (Or.inl ⟨rfl, rfl⟩) hc
      have hcwbg := fun (w : List Nat) (rest : Buf) =>
        color_write_spec w rest state.bg_color state.bg_color_extra 4 52
          (Or.inr ⟨rfl, rfl⟩) hb
      have hsws := style_write_spec state.style 9 1
      generalize each_followed 59 (style_items state.style 9 1) = E1
        at hs1 hz1 hW0 hsws ⊢
      generalize each_followed 59 (colour_items 51 state.color) = E2
        at hE2len hz2 hW0 hcwfg hN ⊢
      generalize each_followed 59 (colour_items 52 state.bg_color) = E3
        at hE3len hz3 hW0 hcwbg hN ⊢
      have hw0 : Buf.write (List.replicate (S + E2.length + E3.length + 3 + 1 + 2) none) 0 27 =
          .ok (([27] : List Nat).map some ++
            none :: List.replicate (S + E2.length + E3.length + 4) none) :=
        write_next [] none (none :: List.replicate (S + E2.length + E3.length + 4) none) 27
      have hw1 : Buf.write (([27] : List Nat).map some ++
            none :: List.replicate (S + E2.length + E3.length + 4) none) 1 91 =
          .ok (([27, 91] : List Nat).map some ++
            List.replicate (S + E2.length + E3.length + 4) none) :=
        write_next [27] none (List.replicate (S + E2.length + E3.length + 4) none) 91
      have hsw : FANSI_state_as_chr.style_write state.style 9 1
          (([27, 91] : List Nat).map some ++
            List.replicate (S + E2.length + E3.length + 4) none) 2 =
          .ok ((([27, 91] : List Nat) ++ E1).map some ++
            (List.replicate (S + E2.length + E3.length + 4) none).drop E1.length,
            (([27, 91] : List Nat) ++ E1).length) := by
        rw [List.length_append]
        exact hsws [27, 91] (List.replicate (S + E2.length + E3.length + 4) none)
          (by simp; omega)
      have hc1 := hcwfg (([27, 91] : List Nat) ++ E1)
        ((List.replicate (S + E2.length + E3.length + 4) none).drop E1.length)
        (by simp; omega)
      have hc2 := hcwbg ((([27, 91] : List Nat) ++ E1) ++ E2)
        (((List.replicate (S + E2.length + E3.length + 4) none).drop E1.length).drop E2.length)
        (by simp; omega)
      simp only [hw0, hw1, hsw, hc1]
      rw [← List.length_append]
      simp only [hc2]
      rw [← List.length_append]
      have hlenW : E1.length + E2.length + E3.length = W0.length + 1 := by
        have := congrArg List.length hW0
        simp only [List.length_append, List.length_cons, List.length_nil] at this
        omega
      have hR : 1 ≤ (List.drop E3.length (List.drop E2.length (List.drop E1.length
          (List.replicate (S + E2.length + E3.length + 4) (none : Option Nat))))).length := by
        simp only [List.length_drop, List.length_replicate]
        omega
      generalize List.drop E3.length (List.drop E2.length (List.drop E1.length
          (List.replicate (S + E2.length + E3.length + 4) (none : Option Nat)))) = R3 at hR ⊢
      obtain ⟨x, R4, rfl⟩ : ∃ x R4, R3 = x :: R4 := by
        cases R3 with
        | nil => simp at hR
        | cons x R4 => exact ⟨x, R4, rfl⟩
      have hW : ([27, 91] : List Nat) ++ E1 ++ E2 ++ E3 = (([27, 91] : List Nat) ++ W0) ++ [59] := by
        have e : ([27, 91] : List Nat) ++ E1 ++ E2 ++ E3 = [27, 91] ++ (E1 ++ E2 ++ E3) := by
          simp [List.append_assoc]
        rw [e, hW0]
        simp [List.append_assoc]
      rw [hW]
      have hchk : ¬((([27, 91] : List Nat) ++ W0 ++ [59]).length + 1 >
          S + E2.length + E3.length + 3) := by
        simp only [List.length_append, List.length_cons, List.length_nil]
        omega
      rw [if_neg hchk]
      have hm : Buf.write ((([27, 91] : List Nat) ++ W0 ++ [59]).map some ++ x :: R4)
          ((([27, 91] : List Nat) ++ W0 ++ [59]).length - 1) 109 =
          .ok (((([27, 91] : List Nat) ++ W0) ++ [109]).map some ++ x :: R4) := by
        have := write_next (([27, 91] : List Nat) ++ W0) (some 59) (x :: R4) 109
        have e1 : (([27, 91] : List Nat) ++ W0 ++ [59]).map some ++ x :: R4 =
            (([27, 91] : List Nat) ++ W0).map some ++ some 59 :: x :: R4 := by simp
        have e2 : (([27, 91] : List Nat) ++ W0 ++ [59]).length - 1 =
            (([27, 91] : List Nat) ++ W0).length := by simp
        rw [e1, e2]
        exact this
      have hn : Buf.write (((([27, 91] : List Nat) ++ W0) ++ [109]).map some ++ x :: R4)
          (([27, 91] : List Nat) ++ W0 ++ [59]).length 0 =
          .ok (((([27, 91] : List Nat) ++ W0) ++ [109]).map some ++ some 0 :: R4) := by
        have := write_next ((([27, 91] : List Nat) ++ W0) ++ [109]) x R4 0
        have e2 : (([27, 91] : List Nat) ++ W0 ++ [59]).length =
            ((([27, 91] : List Nat) ++ W0) ++ [109]).length := by simp
        rw [e2, this]
        simp
      simp only [hm, hn]
      apply cstr_written
      intro b hb
      simp only [List.mem_append, List.mem_cons, List.mem_singleton, List.not_mem_nil,
        or_false] at hb
      have hmem : ∀ y ∈ W0, y ≠ 0 := by
        intro y hy
        have : y ∈ E1 ++ E2 ++ E3 := by rw [hW0]; simp [hy]
        simp only [List.mem_append] at this
        rcases this with (h | h) | h
        · exact hz1 y h
        · exact hz2 y h
        · exact hz3 y h
      rcases hb with ((rfl | rfl) | h) | rfl
      · decide
      · decide
      · exact hmem b h
      · decide

/-! ## The fuel is never used up -/

theorem at_no_fuel (s : CString) (p : Int) : s.at p ≠ .error .fuel := by
  unfold CString.at
  repeat' split
  all_goals simp

theorem digits_no_fuel (s : CString) : ∀ (n : Nat) (p len : Int),
    FANSI_parse_token.digits s n p len ≠ .error .fuel := by
  intro n
  induction n with
  | zero => intro p len; simp [FANSI_parse_token.digits]
  | succ n ih =>
    intro p len h
    unfold FANSI_parse_token.digits at h
    split at h
    · rename_i e he
      cases h
      exact at_no_fuel _ _ he
    · split at h
      · split at h
        · cases h
        · exact ih _ _ h
      · cases h

theorem as_num_no_fuel (c : Nat) : FANSI_as_num c ≠ .error .fuel := by
  unfold FANSI_as_num
  repeat' split
  all_goals simp

theorem decode_no_fuel (s : CString) : ∀ (n : Nat) (p : Int) (val mult : Nat),
    FANSI_parse_token.decode s n p val mult ≠ .error .fuel := by
  intro n
  induction n with
  | zero => intro p val mult; simp [FANSI_parse_token.decode]
  | succ n ih =>
    intro p val mult h
    unfold FANSI_parse_token.decode at h
    split at h
    · rename_i e he
      cases h
      exact at_no_fuel _ _ he
    · split at h
      · rename_i e he
        cases h
        exact as_num_no_fuel _ he
      · exact ih _ _ _ h

theorem parse_token_no_fuel (s : CString) (p : Int) :
    FANSI_parse_token s p ≠ .error .fuel := by
  intro h
  unfold FANSI_parse_token at h
  split at h
  · rename_i e he
    cases h
    exact digits_no_fuel _ _ _ _ he
  · split at h
    · rename_i e he
      cases h
      exact at_no_fuel _ _ he
    · revert h
      dsimp only
      repeat' split
      all_goals intro h
      all_goals first
        | (cases h; exact decode_no_fuel _ _ _ _ _ (by assumption))
        | cases h

theorem safe_add_no_fuel (a b : Int) : safe_add a b ≠ .error .fuel := by
  unfold safe_add
  split <;> simp

theorem advance_no_fuel (p l : Int) : advance p l ≠ .error .fuel := by
  intro h
  unfold advance at h
  simp only [bind, Except.bind] at h
  split at h
  · rename_i e he
    cases h
    exact safe_add_no_fuel _ _ he
  · exact safe_add_no_fuel _ _ h

theorem components_no_fuel (str : CString) (i_max : Int) : ∀ (n : Nat) (i : Int)
    (st : FANSI_state) (rgb : Arr4) (v : Int),
    FANSI_parse_colors.components str i_max n i st rgb v ≠ .error .fuel := by
  intro n
  induction n with
  | zero => intro i st rgb v; simp [FANSI_parse_colors.components]
  | succ n ih =>
    intro i st rgb v h
    unfold FANSI_parse_colors.components at h
    simp only [bind, Except.bind] at h
    split at h
    · rename_i e he
      cases h
      exact parse_token_no_fuel _ _ he
    · split at h
      · rename_i e he
        cases h
        exact advance_no_fuel _ _ he
      · split at h
        · split at h
          · exact ih _ _ _ _ h
          · exact ih _ _ _ _ h
        · cases h

theorem parse_colors_no_fuel (st : FANSI_state) (mode : Int) :
    FANSI_parse_colors st mode ≠ .error .fuel := by
  intro h
  unfold FANSI_parse_colors at h
  split at h
  · cases h
  · split at h
    · cases h
    · simp only [bind, Except.bind] at h
      split at h
      · rename_i e he
        cases h
        exact parse_token_no_fuel _ _ he
      · split at h
        · rename_i e he
          cases h
          exact advance_no_fuel _ _ he
        · split at h
          · cases h
          · split at h
            · cases h
            · split at h
              · split at h
                · cases h
                · split at h
                  · rename_i e he
                    cases h
                    exact components_no_fuel _ _ _ _ _ _ _ he
                  · split at h
                    · split at h <;> cases h
                    · cases h
              · split at h <;> cases h

theorem color_no_fuel (val : Nat) (st : FANSI_state) :
    FANSI_state_at_raw_position.color val st ≠ .error .fuel := by
  intro h
  unfold FANSI_state_at_raw_position.color at h
  dsimp only at h
  by_cases hfg : val < 40
  · simp only [hfg, decide_True, if_true] at h
    generalize (if (val : Int) - 30 = 9 then (-1 : Int) else (val : Int) - 30) = cc at h
    split at h
    · exact parse_colors_no_fuel _ _ h
    · cases h
  · simp only [hfg, decide_False, Bool.false_eq_true, if_false] at h
    generalize (if (val : Int) - 40 = 9 then (-1 : Int) else (val : Int) - 40) = cc at h
    split at h
    · exact parse_colors_no_fuel _ _ h
    · cases h

theorem apply_no_fuel (val : Nat) (st : FANSI_state) :
    FANSI_state_at_raw_position.apply val st ≠ .error .fuel := by
  intro h
  unfold FANSI_state_at_raw_position.apply at h
  repeat' split at h
  all_goals first
    | cases h
    | exact color_no_fuel _ _ h

theorem dispatch_no_fuel (res : FANSI_tok_res) (st : FANSI_state) :
    FANSI_state_at_raw_position.dispatch res st ≠ .error .fuel := by
  intro h
  unfold FANSI_state_at_raw_position.dispatch at h
  repeat' split at h
  all_goals first
    | cases h
    | exact apply_no_fuel _ _ h

theorem token_no_fuel (string : CString) (st : FANSI_state) :
    FANSI_state_at_raw_position.token string st ≠ .error .fuel := by
  intro h
  unfold FANSI_state_at_raw_position.token at h
  simp only [bind, Except.bind] at h
  split at h
  · rename_i e he
    cases h
    exact parse_token_no_fuel _ _ he
  · split at h
    · rename_i e he
      cases h
      exact advance_no_fuel _ _ he
    · split at h
      · rename_i e he
        cases h
        exact dispatch_no_fuel _ _ he
      · split at h <;> cases h

theorem tokens_no_fuel (string : CString) (f : Nat) (st : FANSI_state)
    (hf : room string st < f) :
    FANSI_state_at_raw_position.tokens string f st ≠ .error .fuel :=
  run_loop_total (FANSI_state_at_raw_position.token string) (room string) token_room
    (token_no_fuel string) f st hf

theorem step_no_fuel (pos : Int) (string : CString) (st : FANSI_state) :
    FANSI_state_at_raw_position.step pos string st ≠ .error .fuel := by
  intro h
  unfold FANSI_state_at_raw_position.step at h
  simp only [bind, Except.bind] at h
  split at h
  · rename_i e he
    cases h
    exact at_no_fuel _ _ he
  · rename_i c hc
    have hp := (at_ok_bounds hc).1
    split at h
    · split at h
      · cases h
      · split at h
        · rename_i e he
          cases h
          unfold is_csi at he
          split at he
          · simp only [bind, Except.bind] at he
            split at he
            · rename_i e1 he1
              cases he
              exact at_no_fuel _ _ he1
            · cases he
          · cases he
        · split at h
          · split at h
            · rename_i e he
              cases h
              exact safe_add_no_fuel _ _ he
            · rename_i pb hpb
              have hpb1 := safe_add_ok hpb
              split at h
              · rename_i e he
                cases h
                refine tokens_no_fuel _ _ _ ?_ he
                unfold room
                simp only
                omega
              · cases h
          · split at h
            · split at h <;> cases h
            · cases h
    · cases h

/-- The model of the call never stops for lack of fuel: every error it
reports is an error of the C function, or an access outside the buffer. -/
theorem raw_position_no_fuel (pos : Int) (string : CString) (st : FANSI_state) :
    FANSI_state_at_raw_position pos string st ≠ .error .fuel := by
  intro h
  unfold FANSI_state_at_raw_position at h
  split at h
  · cases h
  · split at h
    · cases h
    · simp only [bind, Except.bind] at h
      split at h
      · rename_i e he
        cases h
        by_cases hp : 0 ≤ st.pos_byte
        · exact run_loop_total (FANSI_state_at_raw_position.step pos string) (room string)
            step_room (step_no_fuel pos string) _ { st with string := some string }
            (room_lt hp) he
        · unfold FANSI_state_at_raw_position.loop at he
          rw [run_loop_succ] at he
          have hat : string.at st.pos_byte = .error .oob := by
            unfold CString.at
            rw [if_pos (by omega)]
          unfold FANSI_state_at_raw_position.step at he
          simp [bind, Except.bind, hat] at he
      · cases h

/-! ## Up to three digits and the byte after them -/

theorem is_num_digit {d : Nat} (h : 48 ≤ d ∧ d ≤ 57) : FANSI_is_num d = true := by
  simp [FANSI_is_num, h.1, h.2]

theorem is_num_other {c : Nat} (h : ¬(48 ≤ c ∧ c ≤ 57)) : FANSI_is_num c = false := by
  simp only [FANSI_is_num, Bool.and_eq_false_imp, decide_eq_true_eq, decide_eq_false_iff_not]
  intro h1 h2
  exact h ⟨h1, h2⟩

theorem as_num_digit {d : Nat} (h : 48 ≤ d ∧ d ≤ 57) : FANSI_as_num d = .ok (d - 48) := by
  have h1 : ¬(d > 127) := by omega
  simp [FANSI_as_num, h1, is_num_digit h]

theorem parse_token_digits_then (ds rest : List Nat) (c : Nat) (hk : ds.length ≤ 3)
    (hd : ∀ d ∈ ds, 48 ≤ d ∧ d ≤ 57) (hc : ¬(48 ≤ c ∧ c ≤ 57)) :
    FANSI_parse_token (cstring (ds ++ c :: rest)) 0 =
      .ok (if c = 59 ∨ c = 109 then
             { val := decimal_value ds, len := ds.length, success := 2,
               last := if c = 109 then 1 else 0 }
           else { val := 0, len := ds.length, success := 0, last := 0 }) := by
  have hcn := is_num_other hc
  match ds, hk, hd with
  | [], _, _ =>
    by_cases h : c = 59 ∨ c = 109
    · have ht : FANSI_is_tok_end c = true := by simp [FANSI_is_tok_end, h]
      simp [FANSI_parse_token, FANSI_parse_token.digits, FANSI_parse_token.decode, CString.at,
        cstring, decimal_value, hcn, ht, h]
    · have ht : FANSI_is_tok_end c = false := by simpa [FANSI_is_tok_end] using h
      simp [FANSI_parse_token, FANSI_parse_token.digits, FANSI_parse_token.decode, CString.at,
        cstring, decimal_value, hcn, ht, h]
  | [a], _, hd =>
    have ha := hd a (by simp)
    by_cases h : c = 59 ∨ c = 109
    · have ht : FANSI_is_tok_end c = true := by simp [FANSI_is_tok_end, h]
      simp [FANSI_parse_token, FANSI_parse_token.digits, FANSI_parse_token.decode, CString.at,
        cstring, decimal_value, hcn, ht, h, is_num_digit ha, as_num_digit ha]
    · have ht : FANSI_is_tok_end c = false := by simpa [FANSI_is_tok_end] using h
      simp [FANSI_parse_token, FANSI_parse_token.digits, FANSI_parse_token.decode, CString.at,
        cstring, decimal_value, hcn, ht, h, is_num_digit ha, as_num_digit ha]
  | [a, b], _, hd =>
    have ha := hd a (by simp)
    have hb := hd b (by simp)
    by_cases h : c = 59 ∨ c = 109
    · have ht : FANSI_is_tok_end c = true := by simp [FANSI_is_tok_end, h]
      simp [FANSI_parse_token, FANSI_parse_token.digits, FANSI_parse_token.decode, CString.at,
        cstring, decimal_value, hcn, ht, h, is_num_digit ha, as_num_digit ha,
        is_num_digit hb, as_num_digit hb]
      omega
    · have ht : FANSI_is_tok_end c = false := by simpa [FANSI_is_tok_end] using h
      simp [FANSI_parse_token, FANSI_parse_token.digits, FANSI_parse_token.decode, CString.at,
        cstring, decimal_value, hcn, ht, h, is_num_digit ha, as_num_digit ha,
        is_num_digit hb, as_num_digit hb]
  | [a, b, d], _, hd =>
    have ha := hd a (by simp)
    have hb := hd b (by simp)
    have hd1 := hd d (by simp)
    by_cases h : c = 59 ∨ c = 109
    · have ht : FANSI_is_tok_end c = true := by simp [FANSI_is_tok_end, h]
      simp [FANSI_parse_token, FANSI_parse_token.digits, FANSI_parse_token.decode, CString.at,
        cstring, decimal_value, hcn, ht, h, is_num_digit ha, as_num_digit ha,
        is_num_digit hb, as_num_digit hb, is_num_digit hd1, as_num_digit hd1]
      omega
    · have ht : FANSI_is_tok_end c = false := by simpa [FANSI_is_tok_end] using h
      simp [FANSI_parse_token, FANSI_parse_token.digits, FANSI_parse_token.decode, CString.at,
        cstring, decimal_value, hcn, ht, h, is_num_digit ha, as_num_digit ha,
        is_num_digit hb, as_num_digit hb, is_num_digit hd1, as_num_digit hd1]

theorem parse_token_digits_end (ds : List Nat) (hk : ds.length ≤ 3)
    (hd : ∀ d ∈ ds, 48 ≤ d ∧ d ≤ 57) :
    FANSI_parse_token (cstring ds) 0 =
      .ok { val := 0, len := ds.length, success := 0, last := 0 } := by
  match ds, hk, hd with
  | [], _, _ =>
    simp [FANSI_parse_token, FANSI_parse_token.digits, FANSI_parse_token.decode, CString.at,
      cstring, FANSI_is_num, FANSI_is_tok_end]
  | [a], _, hd =>
    have ha := hd a (by simp)
    simp [FANSI_parse_token, FANSI_parse_token.digits, FANSI_parse_token.decode, CString.at,
      cstring, FANSI_is_tok_end, is_num_digit ha, as_num_digit ha]
    simp [FANSI_is_num]
  | [a, b], _, hd =>
    have ha := hd a (by simp)
    have hb := hd b (by simp)
    simp [FANSI_parse_token, FANSI_parse_token.digits, FANSI_parse_token.decode, CString.at,
      cstring, FANSI_is_tok_end, is_num_digit ha, as_num_digit ha,
      is_num_digit hb, as_num_digit hb]
    simp [FANSI_is_num]
  | [a, b, d], _, hd =>
    have ha := hd a (by simp)
    have hb := hd b (by simp)
    have hd1 := hd d (by simp)
    simp [FANSI_parse_token, FANSI_parse_token.digits, FANSI_parse_token.decode, CString.at,
      cstring, FANSI_is_tok_end, is_num_digit ha, as_num_digit ha,
      is_num_digit hb, as_num_digit hb, is_num_digit hd1, as_num_digit hd1]
    simp [FANSI_is_num]

theorem decimal_value_le (ds : List Nat) (hk : ds.length ≤ 3)
    (hd : ∀ d ∈ ds, 48 ≤ d ∧ d ≤ 57) : decimal_value ds ≤ 999 := by
  match ds, hk, hd with
  | [], _, _ => simp [decimal_value]
  | [a], _, hd =>
    have ha := hd a (by simp)
    simp [decimal_value]
    omega
  | [a, b], _, hd =>
    have ha := hd a (by simp)
    have hb := hd b (by simp)
    simp [decimal_value]
    omega
  | [a, b, d], _, hd =>
    have ha := hd a (by simp)
    have hb := hd b (by simp)
    have hd1 := hd d (by simp)
    simp [decimal_value]
    omega

/-! ## The style codes -/

theorem testBit_clear (s k i : Nat) (hs : s < 2 ^ 32) (hk : k < 32) :
    (s &&& clear_mask k).testBit i = (!decide (i = k) && s.testBit i) := by
  unfold clear_mask
  rw [Nat.testBit_and, Nat.testBit_xor, show (4294967295 : Nat) = 2 ^ 32 - 1 by norm_num,
    Nat.testBit_two_pow_sub_one, Nat.one_shiftLeft, Nat.testBit_two_pow]
  by_cases h32 : i < 32
  · by_cases hik : i = k
    · subst hik; simp [h32]
    · have hki : ¬(k = i) := fun h => hik h.symm
      simp [h32, hik, hki]
  · have hlt : s < 2 ^ i := lt_of_lt_of_le hs (Nat.pow_le_pow_right (by norm_num) (by omega))
    simp [Nat.testBit_lt_two_pow hlt]

theorem and_clear_lt (s k : Nat) (hs : s < 2 ^ 32) : s &&& clear_mask k < 2 ^ 32 :=
  lt_of_le_of_lt Nat.and_le_left hs

theorem testBit_set (s n i : Nat) :
    (s ||| (1 <<< n)).testBit i = (decide (i = n) || s.testBit i) := by
  rw [Nat.testBit_or, Nat.one_shiftLeft, Nat.testBit_two_pow, Bool.or_comm]
  by_cases h : i = n
  · subst h; simp
  · have h1 : ¬(n = i) := fun e => h e.symm
    simp [h, h1]

/-- What an applicable style code does, against the table. -/
theorem apply_style (n : Nat) (hn : n ≤ 9 ∨ (20 ≤ n ∧ n ≤ 29)) (st : FANSI_state)
    (hs : st.style < 2 ^ 32) :
    ∃ st1, FANSI_state_at_raw_position.apply n st = .ok st1 ∧ sgr_table n st st1 ∧
      st1.pos_raw = st.pos_raw ∧ st1.pos_byte = st.pos_byte ∧ st1.fail = st.fail ∧
      st1.last = st.last ∧ st1.string = st.string ∧ st1.pos_ansi = st.pos_ansi := by
  rcases hn with hn | ⟨h20, h29⟩
  · by_cases h0 : n = 0
    · subst h0
      refine ⟨FANSI_reset_state st, by simp [FANSI_state_at_raw_position.apply], ?_,
        rfl, rfl, rfl, rfl, rfl, rfl⟩
      simp [sgr_table, FANSI_reset_state]
    · refine ⟨{ st with style := st.style ||| (1 <<< n) }, ?_, ?_, rfl, rfl, rfl, rfl, rfl, rfl⟩
      · have h10 : n < 10 := by omega
        simp [FANSI_state_at_raw_position.apply, h0, h10]
      · unfold sgr_table
        refine ⟨fun _ => ⟨fun i => testBit_set _ _ _, rfl, rfl, rfl, rfl⟩, ?_, ?_, ?_, ?_, ?_⟩ <;>
          intro h <;> omega
  · have hc := fun k => testBit_clear st.style k
    interval_cases n
    · exact ⟨st, by simp [FANSI_state_at_raw_position.apply], by simp [sgr_table, same_colours],
        rfl, rfl, rfl, rfl, rfl, rfl⟩
    · exact ⟨st, by simp [FANSI_state_at_raw_position.apply], by simp [sgr_table, same_colours],
        rfl, rfl, rfl, rfl, rfl, rfl⟩
    · refine ⟨{ st with style := (st.style &&& clear_mask 1) &&& clear_mask 2 },
        by simp [FANSI_state_at_raw_position.apply], ?_, rfl, rfl, rfl, rfl, rfl, rfl⟩
      unfold sgr_table same_colours
      refine ⟨fun h => by omega, fun _ => ⟨fun i => ?_, rfl, rfl, rfl, rfl⟩, fun h => by omega,
        fun h => by omega, fun h => by omega, fun h => by omega⟩
      rw [testBit_clear _ 2 i (and_clear_lt _ _ hs) (by norm_num),
        testBit_clear _ 1 i hs (by norm_num)]
      by_cases h1 : i = 1 <;> by_cases h2 : i = 2 <;> simp [h1, h2]
    · refine ⟨{ st with style := st.style &&& clear_mask 3 },
        by simp [FANSI_state_at_raw_position.apply], ?_, rfl, rfl, rfl, rfl, rfl, rfl⟩
      unfold sgr_table same_colours
      exact ⟨fun h => by omega, fun h => by omega, fun h => by omega,
        fun _ => ⟨fun i => testBit_clear _ 3 i hs (by norm_num), rfl, rfl, rfl, rfl⟩,
        fun h => by omega, fun h => by omega⟩
    · refine ⟨{ st with style := st.style &&& clear_mask 4 },
        by simp [FANSI_state_at_raw_position.apply], ?_, rfl, rfl, rfl, rfl, rfl, rfl⟩
      unfold sgr_table same_colours
      exact ⟨fun h => by omega, fun h => by omega, fun h => by omega,
        fun _ => ⟨fun i => testBit_clear _ 4 i hs (by norm_num), rfl, rfl, rfl, rfl⟩,
        fun h => by omega, fun h => by omega⟩
    · refine ⟨{ st with style := (st.style &&& clear_mask 5) &&& clear_mask 6 },
        by simp [FANSI_state_at_raw_position.apply], ?_, rfl, rfl, rfl, rfl, rfl, rfl⟩
      unfold sgr_table same_colours
      refine ⟨fun h => by omega, fun h => by omega, fun _ => ⟨fun i => ?_, rfl, rfl, rfl, rfl⟩,
        fun h => by omega, fun h => by omega, fun h => by omega⟩
      rw [testBit_clear _ 6 i (and_clear_lt _ _ hs) (by norm_num),
        testBit_clear _ 5 i hs (by norm_num)]
      by_cases h1 : i = 5 <;> by_cases h2 : i = 6 <;> simp [h1, h2]
    · exact ⟨st, by simp [FANSI_state_at_raw_position.apply], by simp [sgr_table, same_colours],
        rfl, rfl, rfl, rfl, rfl, rfl⟩
    · refine ⟨{ st with style := st.style &&& clear_mask 7 },
        by simp [FANSI_state_at_raw_position.apply], ?_, rfl, rfl, rfl, rfl, rfl, rfl⟩
      unfold sgr_table same_colours
      exact ⟨fun h => by omega, fun h => by omega, fun h => by omega,
        fun _ => ⟨fun i => testBit_clear _ 7 i hs (by norm_num), rfl, rfl, rfl, rfl⟩,
        fun h => by omega, fun h => by omega⟩
    · refine ⟨{ st with style := st.style &&& clear_mask 8 },
        by simp [FANSI_state_at_raw_position.apply], ?_, rfl, rfl, rfl, rfl, rfl, rfl⟩
      unfold sgr_table same_colours
      exact ⟨fun h => by omega, fun h => by omega, fun h => by omega,
        fun _ => ⟨fun i => testBit_clear _ 8 i hs (by norm_num), rfl, rfl, rfl, rfl⟩,
        fun h => by omega, fun h => by omega⟩
    · refine ⟨{ st with style := st.style &&& clear_mask 9 },
        by simp [FANSI_state_at_raw_position.apply], ?_, rfl, rfl, rfl, rfl, rfl, rfl⟩
      unfold sgr_table same_colours
      exact ⟨fun h => by omega, fun h => by omega, fun h => by omega,
        fun _ => ⟨fun i => testBit_clear _ 9 i hs (by norm_num), rfl, rfl, rfl, rfl⟩,
        fun h => by omega, fun h => by omega⟩

theorem sgr_digits (n : Nat) (hn : n ≤ 9 ∨ (20 ≤ n ∧ n ≤ 29)) :
    ((Nat.toDigits 10 n).map Char.toNat).length ≤ 3 ∧
    (∀ d ∈ (Nat.toDigits 10 n).map Char.toNat, 48 ≤ d ∧ d ≤ 57) ∧
    decimal_value ((Nat.toDigits 10 n).map Char.toNat) = n := by
  rcases hn with hn | ⟨h1, h2⟩ <;> interval_cases n <;> decide

theorem at_end (l : List Nat) (p : Int) (hp : p = (l.length : Int)) :
    (cstring l).at p = .ok 0 := by
  subst hp
  simp [CString.at, cstring]

/-- The pass of the `while` loop over one style code. -/
theorem step_sgr (pre rest : List Nat) (n : Nat) (pos : Int) (st : FANSI_state)
    (hn : n ≤ 9 ∨ (20 ≤ n ∧ n ≤ 29)) (hcur : st.pos_byte = (pre.length : Int))
    (hraw : st.pos_raw ≤ pos) (hs : st.style < 2 ^ 32)
    (hmax : ((pre ++ sgr_text n ++ rest).length : Int) ≤ INT_MAX) :
    ∃ st1, FANSI_state_at_raw_position.step pos (cstring (pre ++ sgr_text n ++ rest)) st =
        .ok (true, st1) ∧
      sgr_table n st st1 ∧ st1.pos_raw = st.pos_raw ∧
      st1.pos_byte = st.pos_byte + ((sgr_text n).length : Int) ∧ st1.string = st.string := by
  obtain ⟨hlen, hdig, hval⟩ := sgr_digits n hn
  have hstr : pre ++ sgr_text n ++ rest =
      pre ++ (27 :: 91 :: ((Nat.toDigits 10 n).map Char.toNat ++ 109 :: rest)) := by
    simp [sgr_text]
  have hl : ((sgr_text n).length : Int) =
      2 + (((Nat.toDigits 10 n).map Char.toNat).length : Int) + 1 := by
    simp [sgr_text]; omega
  have hmax1 : (pre.length : Int) + ((sgr_text n).length : Int) ≤ 2147483647 := by
    have h := hmax
    simp only [List.length_append, Nat.cast_add] at h
    have h2 : (0 : Int) ≤ (rest.length : Int) := Int.natCast_nonneg _
    have h3 : (pre.length : Int) + ((sgr_text n).length : Int) + (rest.length : Int) ≤
        2147483647 := h
    omega
  rw [hstr]
  generalize hds : (Nat.toDigits 10 n).map Char.toNat = ds at hlen hdig hval hstr hl
  have hc : (cstring (pre ++ (27 :: 91 :: (ds ++ 109 :: rest)))).at st.pos_byte = .ok 27 := by
    rw [at_tail pre _ st.pos_byte 0 (by omega) (le_refl 0)]
    exact at_cons_zero _ _
  have hc1 : (cstring (pre ++ (27 :: 91 :: (ds ++ 109 :: rest)))).at (st.pos_byte + 1) =
      .ok 91 := by
    have e : pre ++ (27 :: 91 :: (ds ++ 109 :: rest)) =
        (pre ++ [27]) ++ (91 :: (ds ++ 109 :: rest)) := by simp
    rw [e, at_tail (pre ++ [27]) _ (st.pos_byte + 1) 0 (by simp; omega) (le_refl 0)]
    exact at_cons_zero _ _
  have hres : FANSI_parse_token (cstring (pre ++ (27 :: 91 :: (ds ++ 109 :: rest))))
      (st.pos_byte + 2) =
      .ok { val := n, len := ds.length, success := 2, last := 1 } := by
    have e : pre ++ (27 :: 91 :: (ds ++ 109 :: rest)) =
        (pre ++ [27, 91]) ++ (ds ++ 109 :: rest) := by simp
    rw [e, parse_token_tail (pre ++ [27, 91]) _ (st.pos_byte + 2) 0 (by simp; omega)
      (le_refl 0), parse_token_digits_then ds rest 109 hlen hdig (by decide), hval]
    simp
  obtain ⟨st2, happ, htab, h1, h2, h3, h4, h5, _⟩ := apply_style n hn
    { st with fail := 0, last := 1, pos_byte := st.pos_byte + 2 + ((ds.length : Int) + 1) } hs
  have hd : FANSI_state_at_raw_position.dispatch
      { val := n, len := ds.length, success := 2, last := 1 }
      { st with fail := 0, last := 1, pos_byte := st.pos_byte + 2 + ((ds.length : Int) + 1) } =
      .ok st2 := by
    unfold FANSI_state_at_raw_position.dispatch
    simp only [show ¬((2 : Int) = 0) by decide, if_false, if_true]
    exact happ
  refine ⟨st2, step_csi_one hc hc1 hraw hres (by simp) ?_ hd h3, htab, h1, ?_, h5⟩
  · show st.pos_byte + 2 + ((ds.length : Int) + 1) ≤ 2147483647
    omega
  · rw [h2, hl]
    show st.pos_byte + 2 + ((ds.length : Int) + 1) = _
    omega

/-! ## The errors of the scan -/

theorem at_scan_error {s : CString} {p : Int} {e : Err} (h : s.at p = .error e) :
    scan_error e := by
  unfold CString.at at h
  repeat' split at h
  all_goals cases h
  all_goals exact ⟨by decide, by decide⟩

theorem digits_scan_error (s : CString) : ∀ (n : Nat) (p len : Int) (e : Err),
    FANSI_parse_token.digits s n p len = .error e → scan_error e := by
  intro n
  induction n with
  | zero => intro p len e h; simp [FANSI_parse_token.digits] at h
  | succ n ih =>
    intro p len e h
    unfold FANSI_parse_token.digits at h
    split at h
    · rename_i e1 he
      cases h
      exact at_scan_error he
    · split at h
      · split at h
        · cases h
          exact ⟨by decide, by decide⟩
        · exact ih _ _ _ h
      · cases h

theorem as_num_scan_error {c : Nat} {e : Err} (h : FANSI_as_num c = .error e) :
    scan_error e := by
  unfold FANSI_as_num at h
  repeat' split at h
  all_goals cases h
  all_goals exact ⟨by decide, by decide⟩

theorem decode_scan_error (s : CString) : ∀ (n : Nat) (p : Int) (val mult : Nat) (e : Err),
    FANSI_parse_token.decode s n p val mult = .error e → scan_error e := by
  intro n
  induction n with
  | zero => intro p val mult e h; simp [FANSI_parse_token.decode] at h
  | succ n ih =>
    intro p val mult e h
    unfold FANSI_parse_token.decode at h
    split at h
    · rename_i e1 he
      cases h
      exact at_scan_error he
    · split at h
      · rename_i e1 he
        cases h
        exact as_num_scan_error he
      · exact ih _ _ _ _ h

theorem parse_token_scan_error {s : CString} {p : Int} {e : Err}
    (h : FANSI_parse_token s p = .error e) : scan_error e := by
  unfold FANSI_parse_token at h
  split at h
  · rename_i e1 he
    cases h
    exact digits_scan_error _ _ _ _ _ he
  · split at h
    · rename_i e1 he
      cases h
      exact at_scan_error he
    · revert h
      dsimp only
      repeat' split
      all_goals intro h
      all_goals first
        | (cases h; exact decode_scan_error _ _ _ _ _ _ (by assumption))
        | cases h

theorem safe_add_scan_error {a b : Int} {e : Err} (h : safe_add a b = .error e) :
    scan_error e := by
  unfold safe_add at h
  split at h
  · cases h
    exact ⟨by decide, by decide⟩
  · cases h

theorem advance_scan_error {p l : Int} {e : Err} (h : advance p l = .error e) :
    scan_error e := by
  unfold advance at h
  simp only [bind, Except.bind] at h
  split at h
  · rename_i e1 he
    cases h
    exact safe_add_scan_error he
  · exact safe_add_scan_error h

theorem components_scan_error (str : CString) (i_max : Int) : ∀ (n : Nat) (i : Int)
    (st : FANSI_state) (rgb : Arr4) (v : Int) (e : Err),
    FANSI_parse_colors.components str i_max n i st rgb v = .error e → scan_error e := by
  intro n
  induction n with
  | zero => intro i st rgb v e h; simp [FANSI_parse_colors.components] at h
  | succ n ih =>
    intro i st rgb v e h
    unfold FANSI_parse_colors.components at h
    simp only [bind, Except.bind] at h
    split at h
    · rename_i e1 he
      cases h
      exact parse_token_scan_error he
    · split at h
      · rename_i e1 he
        cases h
        exact advance_scan_error he
      · split at h
        · split at h
          · exact ih _ _ _ _ _ h
          · exact ih _ _ _ _ _ h
        · cases h

theorem parse_colors_scan_error {st : FANSI_state} {mode : Int} {e : Err}
    (h : FANSI_parse_colors st mode = .error e) : scan_error e := by
  unfold FANSI_parse_colors at h
  split at h
  · cases h
    exact ⟨by decide, by decide⟩
  · split at h
    · cases h
      exact ⟨by decide, by decide⟩
    · simp only [bind, Except.bind] at h
      split at h
      · rename_i e1 he
        cases h
        exact parse_token_scan_error he
      · split at h
        · rename_i e1 he
          cases h
          exact advance_scan_error he
        · split at h
          · cases h
          · split at h
            · cases h
            · split at h
              · split at h
                · cases h
                  exact ⟨by decide, by decide⟩
                · split at h
                  · rename_i e1 he
                    cases h
                    exact components_scan_error _ _ _ _ _ _ _ _ he
                  · split at h
                    · split at h <;> cases h
                    · cases h
              · split at h
                · cases h
                · cases h
                  exact ⟨by decide, by decide⟩

theorem color_scan_error {val : Nat} {st : FANSI_state} {e : Err}
    (h : FANSI_state_at_raw_position.color val st = .error e) : scan_error e := by
  unfold FANSI_state_at_raw_position.color at h
  dsimp only at h
  by_cases hfg : val < 40
  · simp only [hfg, decide_True, if_true] at h
    generalize (if (val : Int) - 30 = 9 then (-1 : Int) else (val : Int) - 30) = cc at h
    split at h
    · exact parse_colors_scan_error h
    · cases h
  · simp only [hfg, decide_False, Bool.false_eq_true, if_false] at h
    generalize (if (val : Int) - 40 = 9 then (-1 : Int) else (val : Int) - 40) = cc at h
    split at h
    · exact parse_colors_scan_error h
    · cases h

theorem apply_scan_error {val : Nat} {st : FANSI_state} {e : Err}
    (h : FANSI_state_at_raw_position.apply val st = .error e) : scan_error e := by
  unfold FANSI_state_at_raw_position.apply at h
  repeat' split at h
  all_goals first
    | cases h
    | exact color_scan_error h

theorem dispatch_scan_error {res : FANSI_tok_res} {st : FANSI_state} {e : Err}
    (h : FANSI_state_at_raw_position.dispatch res st = .error e) : scan_error e := by
  unfold FANSI_state_at_raw_position.dispatch at h
  repeat' split at h
  all_goals first
    | exact apply_scan_error h
    | (cases h; done)
    | (cases h; exact ⟨by decide, by decide⟩)

theorem token_scan_error {string : CString} {st : FANSI_state} {e : Err}
    (h : FANSI_state_at_raw_position.token string st = .error e) : scan_error e := by
  unfold FANSI_state_at_raw_position.token at h
  simp only [bind, Except.bind] at h
  split at h
  · rename_i e1 he
    cases h
    exact parse_token_scan_error he
  · split at h
    · rename_i e1 he
      cases h
      exact advance_scan_error he
    · split at h
      · rename_i e1 he
        cases h
        exact dispatch_scan_error he
      · split at h <;> cases h

/-- An error of a loop is an error of its body, or the lack of fuel. -/
theorem run_loop_error {σ : Type} (body : σ → Except Err (Bool × σ)) (P : Err → Prop)
    (hbody : ∀ s e, body s = .error e → P e) (hfuel : P .fuel) :
    ∀ (f : Nat) (s : σ) (e : Err), run_loop body f s = .error e → P e := by
  intro f
  induction f with
  | zero =>
    intro s e h
    cases h
    exact hfuel
  | succ f ih =>
    intro s e h
    rw [run_loop_succ] at h
    split at h
    · rename_i e1 he
      cases h
      exact hbody _ _ he
    · exact ih _ _ h
    · cases h

theorem step_scan_error {pos : Int} {string : CString} {st : FANSI_state} {e : Err}
    (h : FANSI_state_at_raw_position.step pos string st = .error e) : scan_error e := by
  unfold FANSI_state_at_raw_position.step at h
  simp only [bind, Except.bind] at h
  split at h
  · rename_i e1 he
    cases h
    exact at_scan_error he
  · split at h
    · split at h
      · cases h
        exact ⟨by decide, by decide⟩
      · split at h
        · rename_i e1 he
          cases h
          unfold is_csi at he
          split at he
          · simp only [bind, Except.bind] at he
            split at he
            · rename_i e2 he1
              cases he
              exact at_scan_error he1
            · cases he
          · cases he
        · split at h
          · split at h
            · rename_i e1 he
              cases h
              exact safe_add_scan_error he
            · split at h
              · rename_i e1 he
                cases h
                exact run_loop_error _ scan_error (fun _ _ hb => token_scan_error hb)
                  ⟨by decide, by decide⟩ _ _ _ he
              · cases h
          · split at h
            · split at h
              · cases h
                exact ⟨by decide, by decide⟩
              · cases h
            · cases h
    · cases h

theorem loop_scan_error {pos : Int} {string : CString} {f : Nat} {st : FANSI_state} {e : Err}
    (h : FANSI_state_at_raw_position.loop pos string f st = .error e) : scan_error e :=
  run_loop_error _ scan_error (fun _ _ hb => step_scan_error hb) ⟨by decide, by decide⟩ _ _ _ h

/-! ## The display fields a scan can produce -/

theorem display_ok_of_same {st st1 : FANSI_state} (h : same_display st st1)
    (hd : display_ok st) : display_ok st1 := by
  obtain ⟨h1, h2, h3, h4, h5⟩ := h
  unfold display_ok
  rw [h1, h2, h3, h4, h5]
  exact hd

/-- The loop over the components leaves the display fields alone, and when it
runs to the end of a colour it has found the colour not valid. -/
theorem components_display (str : CString) (i_max : Int) : ∀ (n : Nat) (i : Int)
    (st : FANSI_state) (rgb : Arr4) (v : Int) (r : FANSI_state × Arr4 × Int),
    FANSI_parse_colors.components str i_max n i st rgb v = .ok r →
      same_display st r.1 ∧
      (i + (n : Int) = i_max → 1 ≤ n ∨ v = 0 → r.1.fail = 0 → r.2.2 = 0) := by
  intro n
  induction n with
  | zero =>
    intro i st rgb v r h
    simp [FANSI_parse_colors.components] at h
    subst h
    refine ⟨⟨rfl, rfl, rfl, rfl, rfl⟩, ?_⟩
    intro _ hv _
    rcases hv with hv | hv
    · omega
    · exact hv
  | succ n ih =>
    intro i st rgb v r h
    unfold FANSI_parse_colors.components at h
    simp only [bind, Except.bind] at h
    split at h
    · cases h
    · rename_i res hres
      split at h
      · cases h
      · rename_i pb hpb
        split at h
        · split at h
          · rename_i hvalid
            obtain ⟨hs, hv⟩ := ih _ _ _ _ _ h
            refine ⟨hs, ?_⟩
            intro hi _ hf
            have hlt : i < i_max - 1 := by
              have h3 := hvalid.2.2
              simp only [Bool.not_eq_false', Bool.and_eq_true, decide_eq_true_eq] at h3
              exact h3.2
            exact hv (by push_cast at hi ⊢; omega) (Or.inl (by push_cast at hi; omega)) hf
          · obtain ⟨hs, hv⟩ := ih _ _ _ _ _ h
            refine ⟨hs, ?_⟩
            intro hi _ hf
            exact hv (by push_cast at hi ⊢; omega) (Or.inr rfl) hf
        · cases h
          refine ⟨⟨rfl, rfl, rfl, rfl, rfl⟩, ?_⟩
          intro _ _ hf
          simp at hf

theorem parse_colors_display {st st1 : FANSI_state} {mode : Int}
    (h : FANSI_parse_colors st mode = .ok st1) (hd : display_ok st) : display_ok st1 := by
  unfold FANSI_parse_colors at h
  split at h
  · cases h
  · split at h
    · cases h
    · rename_i str hstr
      simp only [bind, Except.bind] at h
      split at h
      · cases h
      · rename_i res hres
        split at h
        · cases h
        · rename_i pb hpb
          split at h
          · cases h
            exact hd
          · split at h
            · cases h
              exact hd
            · split at h
              · split at h
                · cases h
                · split at h
                  · cases h
                  · rename_i r hr
                    rename_i hcol _
                    have hcomp := components_display _ _ _ _ _ _ _ _ hr
                    have hsame := hcomp.1
                    have hd1 : display_ok r.1 := display_ok_of_same hsame hd
                    have hzero : r.1.fail = 0 → r.2.2 = 0 := by
                      intro hf
                      refine hcomp.2 (by simp) (Or.inl ?_) hf
                      split <;> omega
                    split at h
                    · rename_i hf
                      have hv := hzero hf
                      obtain ⟨a1, a2, a3, a4, a5⟩ := hd1
                      split at h
                      · cases h
                        refine ⟨a1, ?_, a3, ?_, a5⟩
                        · simp [hv]
                        · simp [hv]
                      · cases h
                        refine ⟨a1, a2, ?_, a4, ?_⟩
                        · simp [hv]
                        · simp [hv]
                    · cases h
                      exact hd1
              · split at h
                · cases h
                  exact hd
                · cases h

theorem color_display {val : Nat} {st st1 : FANSI_state} (hval : 30 ≤ val ∧ val < 50)
    (h : FANSI_state_at_raw_position.color val st = .ok st1) (hd : display_ok st) :
    display_ok st1 := by
  unfold FANSI_state_at_raw_position.color at h
  dsimp only at h
  obtain ⟨a1, a2, a3, a4, a5⟩ := hd
  by_cases hfg : val < 40
  · simp only [hfg, decide_True, if_true] at h
    have hrange : -1 ≤ (if (val : Int) - 30 = 9 then (-1 : Int) else (val : Int) - 30) ∧
        (if (val : Int) - 30 = 9 then (-1 : Int) else (val : Int) - 30) ≤ 8 := by
      split <;> omega
    generalize (if (val : Int) - 30 = 9 then (-1 : Int) else (val : Int) - 30) = cc at h hrange
    split at h
    · exact parse_colors_display h ⟨a1, hrange, a3, a4, a5⟩
    · cases h
      exact ⟨a1, hrange, a3, a4, a5⟩
  · simp only [hfg, decide_False, Bool.false_eq_true, if_false] at h
    have hrange : -1 ≤ (if (val : Int) - 40 = 9 then (-1 : Int) else (val : Int) - 40) ∧
        (if (val : Int) - 40 = 9 then (-1 : Int) else (val : Int) - 40) ≤ 8 := by
      split <;> omega
    generalize (if (val : Int) - 40 = 9 then (-1 : Int) else (val : Int) - 40) = cc at h hrange
    split at h
    · exact parse_colors_display h ⟨a1, a2, hrange, a4, a5⟩
    · cases h
      exact ⟨a1, a2, hrange, a4, a5⟩

theorem testBit_and_left {a b i : Nat} (h : (a &&& b).testBit i = true) :
    a.testBit i = true := by
  rw [Nat.testBit_and] at h
  simp only [Bool.and_eq_true] at h
  exact h.1

theorem apply_display {val : Nat} {st st1 : FANSI_state}
    (h : FANSI_state_at_raw_position.apply val st = .ok st1) (hd : display_ok st) :
    display_ok st1 := by
  unfold FANSI_state_at_raw_position.apply at h
  obtain ⟨a1, a2, a3, a4, a5⟩ := hd
  split at h
  · cases h
    refine ⟨?_, ?_, ?_, rfl, rfl⟩
    · intro i hi
      simp [FANSI_reset_state] at hi
    · simp [FANSI_reset_state]
    · simp [FANSI_reset_state]
  · rename_i h0
    split at h
    · rename_i h10
      cases h
      refine ⟨?_, a2, a3, a4, a5⟩
      intro i hi
      rw [show ({ st with style := st.style ||| 1 <<< val } : FANSI_state).style =
        st.style ||| 1 <<< val from rfl, testBit_set] at hi
      simp only [Bool.or_eq_true, decide_eq_true_eq] at hi
      rcases hi with hi | hi
      · omega
      · exact a1 i hi
    · split at h
      · cases h
        exact ⟨a1, a2, a3, a4, a5⟩
      · split at h
        · cases h
          exact ⟨fun i hi => a1 i (testBit_and_left (testBit_and_left hi)), a2, a3, a4, a5⟩
        · split at h
          · cases h
            exact ⟨fun i hi => a1 i (testBit_and_left (testBit_and_left hi)), a2, a3, a4, a5⟩
          · split at h
            · cases h
              exact ⟨fun i hi => a1 i (testBit_and_left hi), a2, a3, a4, a5⟩
            · split at h
              · rename_i hcol
                exact color_display hcol h ⟨a1, a2, a3, a4, a5⟩
              · cases h
                exact ⟨a1, a2, a3, a4, a5⟩

theorem dispatch_display {res : FANSI_tok_res} {st st1 : FANSI_state}
    (h : FANSI_state_at_raw_position.dispatch res st = .ok st1) (hd : display_ok st) :
    display_ok st1 := by
  unfold FANSI_state_at_raw_position.dispatch at h
  repeat' split at h
  all_goals first
    | (cases h; exact hd)
    | exact apply_display h hd
    | cases h

theorem token_display {string : CString} {st st1 : FANSI_state} {b : Bool}
    (h : FANSI_state_at_raw_position.token string st = .ok (b, st1)) (hd : display_ok st) :
    display_ok st1 := by
  unfold FANSI_state_at_raw_position.token at h
  simp only [bind, Except.bind] at h
  split at h
  · cases h
  · split at h
    · cases h
    · split at h
      · cases h
      · rename_i st2 hst2
        have h2 : display_ok st2 := dispatch_display hst2 hd
        split at h <;> (cases h; exact h2)

/-- What every pass of a loop keeps, the loop keeps. -/
theorem run_loop_inv {σ : Type} (body : σ → Except Err (Bool × σ)) (P : σ → Prop)
    (hbody : ∀ s b s1, body s = .ok (b, s1) → P s → P s1)
    (fuel : Nat) (s s1 : σ) (h : run_loop body fuel s = .ok s1) (hs : P s) : P s1 :=
  run_loop_rel body (fun a b => P a → P b) (fun _ _ _ h1 h2 ha => h2 (h1 ha)) hbody
    fuel s s1 h hs

theorem tokens_display {string : CString} {fuel : Nat} {st st1 : FANSI_state}
    (h : FANSI_state_at_raw_position.tokens string fuel st = .ok st1) (hd : display_ok st) :
    display_ok st1 :=
  run_loop_inv (FANSI_state_at_raw_position.token string) display_ok
    (fun _ _ _ hb hs => token_display hb hs) fuel st st1 h hd

theorem step_display {pos : Int} {string : CString} {st st1 : FANSI_state} {b : Bool}
    (h : FANSI_state_at_raw_position.step pos string st = .ok (b, st1)) (hd : display_ok st) :
    display_ok st1 := by
  unfold FANSI_state_at_raw_position.step at h
  simp only [bind, Except.bind] at h
  split at h
  · cases h
  · split at h
    · split at h
      · cases h
      · split at h
        · cases h
        · split at h
          · split at h
            · cases h
            · split at h
              · cases h
              · rename_i st2 hst2
                cases h
                have h2 : display_ok st2 := tokens_display hst2 hd
                unfold FANSI_state_at_raw_position.recover
                split
                · exact hd
                · exact h2
          · split at h
            · split at h
              · cases h
              · cases h
                exact hd
            · cases h
              exact hd
    · cases h
      exact hd

theorem loop_display {pos : Int} {string : CString} {fuel : Nat} {st st1 : FANSI_state}
    (h : FANSI_state_at_raw_position.loop pos string fuel st = .ok st1) (hd : display_ok st) :
    display_ok st1 :=
  run_loop_inv (FANSI_state_at_raw_position.step pos string) display_ok
    (fun _ _ _ hb hs => step_display hb hs) fuel st st1 h hd

theorem raw_position_display {pos : Int} {string : CString} {st st1 : FANSI_state}
    (h : FANSI_state_at_raw_position pos string st = .ok st1) (hd : display_ok st) :
    display_ok st1 := by
  unfold FANSI_state_at_raw_position at h
  split at h
  · cases h
  · split at h
    · cases h
    · simp only [bind, Except.bind] at h
      split at h
      · cases h
      · rename_i st2 hst2
        cases h
        exact (loop_display hst2 hd : display_ok st2)

theorem thread_display (string : CString) : ∀ (poss : List Int) (st : FANSI_state)
    (states : List FANSI_state), display_ok st →
    thread string poss st = .ok states → ∀ s ∈ states, display_ok s := by
  intro poss
  induction poss with
  | nil =>
    intro st states _ h
    simp [thread] at h
    subst h
    simp
  | cons pos poss ih =>
    intro st states hst h
    unfold thread at h
    simp only [bind, Except.bind] at h
    split at h
    · cases h
    · rename_i st1 hst1
      have h1 := raw_position_display hst1 hst
      split at h
      · cases h
      · rename_i rest hrest
        cases h
        intro s hs
        rcases List.mem_cons.mp hs with hs | hs
        · subst hs; exact h1
        · exact ih _ _ h1 hrest s hs

/-! ## The fields the serializer reads -/

theorem arr4_eq {x y : Arr4} (h0 : x.x0 = y.x0) (h1 : x.x1 = y.x1) (h2 : x.x2 = y.x2)
    (h3 : x.x3 = y.x3) : x = y := by
  cases x
  cases y
  simp only at h0 h1 h2 h3
  subst h0 h1 h2 h3
  rfl

/-- The comparator returns 0 only on states with the same display fields. -/
theorem comp_zero_same {a b : FANSI_state} (h : FANSI_state_comp a b = 0) :
    same_display a b := by
  unfold FANSI_state_comp at h
  split at h
  · rename_i hc
    obtain ⟨h1, h2, h3, c0, b0, c1, b1, c2, b2, c3, b3⟩ := hc
    exact ⟨h1.symm, h2.symm, h3.symm, (arr4_eq c0 c1 c2 c3).symm, (arr4_eq b0 b1 b2 b3).symm⟩
  · cases h

/-- The serializer reads the display fields only. -/
theorem as_chr_same {a b : FANSI_state} (h : same_display a b) :
    FANSI_state_as_chr a = FANSI_state_as_chr b := by
  obtain ⟨h1, h2, h3, h4, h5⟩ := h
  unfold FANSI_state_as_chr
  rw [h1, h2, h3, h4, h5]

/-! ## The claims -/

/-- C1, at the failing input.  The state `S` reached on `ESC[30m` has
`color = 0`; its tag is the two bytes `ESC m`, because `FANSI_color_write`
writes nothing for colour 0 and the final `m` lands on the `[`; scanning
`ESC m x` to the target 1 gives a state with `color = -1`, which the
comparator reports as different from `S`. -/
theorem C1_round_trip_black :
    ∃ S tag S1,
      FANSI_state_at_raw_position 0 (cstring [27, 91, 51, 48, 109]) FANSI_state_init = .ok S ∧
      S.color = 0 ∧
      FANSI_color_size S.color S.color_extra = .ok 3 ∧
      FANSI_state_as_chr S = .ok tag ∧ tag = [27, 109] ∧
      FANSI_state_at_raw_position 1 (cstring (tag ++ [120])) FANSI_state_init = .ok S1 ∧
      S1.color = -1 ∧
      FANSI_state_comp S S1 = 1 :=
  ⟨_, _, _, rfl, rfl, rfl, rfl, rfl, rfl, rfl, rfl⟩

/-- C2. Reuse: scanning from the initial state to the target `p - 1` and
then, from the state returned, to the target `p` gives the result of scanning
from the initial state to `p` directly: the same state, every field
included, or the same error. -/
theorem C2_reuse (string : CString) (p : Int) (hp : 1 ≤ p) :
    (FANSI_state_at_raw_position (p - 1) string FANSI_state_init >>=
      fun a => FANSI_state_at_raw_position p string a) =
    FANSI_state_at_raw_position p string FANSI_state_init := by
  have h0 : FANSI_state_init.string = none ∨ FANSI_state_init.string = some string :=
    Or.inl rfl
  have hr0 : FANSI_state_init.pos_raw = 0 := rfl
  rw [raw_position_eq h0 (by omega), raw_position_eq h0 (by omega)]
  have hroom : room string { FANSI_state_init with string := some string } <
      string.bytes.length + 2 := by
    simp [room, FANSI_state_init]
  have hsplit := loop_split (show p - 1 ≤ p by omega) string (string.bytes.length + 2)
    (string.bytes.length + 2) { FANSI_state_init with string := some string } hroom hroom
    (by simp [FANSI_state_init]; omega)
  rw [← hsplit]
  cases ha : FANSI_state_at_raw_position.loop (p - 1) string (string.bytes.length + 2)
      { FANSI_state_init with string := some string } with
  | error e => rfl
  | ok a =>
    obtain ⟨k1, _, _, k4⟩ := loop_keeps ha
    have k4 := k4 (by simp [FANSI_state_init]; omega)
    simp only at k1
    simp only [bind, Except.bind, Except.map]
    have hs : (set_ansi a.pos_byte a).string = none ∨
        (set_ansi a.pos_byte a).string = some string := Or.inr k1
    have hraw : (set_ansi a.pos_byte a).pos_raw ≤ p := by
      show a.pos_raw ≤ p
      omega
    rw [raw_position_eq hs hraw]
    have he : ({ set_ansi a.pos_byte a with string := some string } : FANSI_state) =
        set_ansi a.pos_byte a := by
      obtain ⟨s, _⟩ := a
      simp only at k1
      subst k1
      rfl
    rw [he, loop_set_ansi]
    cases FANSI_state_at_raw_position.loop p string (string.bytes.length + 2) a <;> rfl

/-- Witness of C2 on the string `ESC[31mredESC[0m` with the target 3. -/
theorem C2_reuse_witness :
    (1 : Int) ≤ 3 ∧
    (FANSI_state_at_raw_position (3 - 1) red_text FANSI_state_init >>=
      fun a => FANSI_state_at_raw_position 3 red_text a) =
    FANSI_state_at_raw_position 3 red_text FANSI_state_init :=
  ⟨by decide, C2_reuse _ 3 (by decide)⟩

/-- C3. Position order: in every state the driver obtains by threading the
state through the calls for a list of targets, starting from the initial
state, `pos_byte ≥ pos_raw`. -/
theorem C3_pos_byte_ge_pos_raw (string : CString) (poss : List Int)
    (states : List FANSI_state)
    (h : thread string poss FANSI_state_init = .ok states) :
    ∀ s ∈ states, s.pos_raw ≤ s.pos_byte :=
  thread_inv string poss FANSI_state_init states (by decide) h

/-- Witness of C3 on the string `ESC[31mredESC[0m` with the targets 0, 3. -/
theorem C3_pos_byte_ge_pos_raw_witness :
    thread red_text [0, 3] FANSI_state_init =
      .ok [red_state 1 0 5 0, red_state (-1) 3 12 1] ∧
    ∀ s ∈ [red_state 1 0 5 0, red_state (-1) 3 12 1], s.pos_raw ≤ s.pos_byte :=
  ⟨by decide, C3_pos_byte_ge_pos_raw red_text [0, 3] _ (by decide)⟩

/-- C4, at the failing input.  On `ESC[X` with the target 0 the call returns
`pos_raw = -3` (and `pos_byte = 3`), below the `pos_raw = 0` of the state it
was given. -/
theorem C4_pos_raw_decreases :
    view (FANSI_state_at_raw_position 0 (cstring [27, 91, 88]) FANSI_state_init) =
      .ok (0, -1, -1, -3, 3) ∧
    FANSI_state_init.pos_raw = 0 := by
  decide

/-- C5. Colour set then reset: on `ESC[3cm ++ t ++ ESC[0m`, for a colour
digit `c` in `0..7` and a non-empty text `t` of ASCII bytes without ESC and
NUL, the scan from the initial state to the target 0 returns `color = c`,
`pos_raw = 0`, `pos_byte = 5`, and the scan from that state to the target
`length t` returns `color = -1`, `bg_color = -1`, `style = 0`,
`pos_raw = length t` and `pos_byte` the length of the whole string. -/
theorem C5_colour_set_then_reset (c : Nat) (hc : c ≤ 7) (t : List Nat) (ht : t ≠ [])
    (hplain : ∀ b ∈ t, b ≠ 0 ∧ b ≤ 127 ∧ b ≠ 27)
    (hlen : ((colour_text c t).bytes.length : Int) ≤ INT_MAX) :
    ∃ st1 st2,
      FANSI_state_at_raw_position 0 (colour_text c t) FANSI_state_init = .ok st1 ∧
      st1.color = c ∧ st1.pos_raw = 0 ∧ st1.pos_byte = 5 ∧
      FANSI_state_at_raw_position t.length (colour_text c t) st1 = .ok st2 ∧
      st2.color = -1 ∧ st2.bg_color = -1 ∧ st2.style = 0 ∧
      st2.pos_raw = t.length ∧ st2.pos_byte = (colour_text c t).bytes.length := by
  have hlen1 : (t.length : Int) + 9 ≤ 2147483647 := by
    have : ((colour_text c t).bytes.length : Int) ≤ 2147483647 := hlen
    simp only [colour_text, cstring, List.length_append, List.length_cons, List.length_nil,
      Nat.cast_add, Nat.cast_ofNat] at this
    omega
  obtain ⟨b, t1, rfl⟩ : ∃ b t1, t = b :: t1 := by
    cases t with
    | nil => exact absurd rfl ht
    | cons b t1 => exact ⟨b, t1, rfl⟩
  have hb := hplain b (List.mem_cons_self _ _)
  -- the first call
  have hat0 : (colour_text c (b :: t1)).at 0 = .ok 27 := by
    simp [colour_text, CString.at, cstring]
  have hat1 : (colour_text c (b :: t1)).at (0 + 1) = .ok 91 := by
    simp [colour_text, CString.at, cstring]
  have htok1 : FANSI_parse_token (colour_text c (b :: t1)) (0 + 2) =
      .ok { val := 30 + c, len := 2, success := 2, last := 1 } := by
    have := parse_token_tail [27, 91]
      (51 :: (48 + c) :: 109 :: ((b :: t1) ++ [27, 91, 48, 109])) (0 + 2) 0 (by simp)
      (le_refl _)
    rw [← parse_token_colour c hc ((b :: t1) ++ [27, 91, 48, 109]), ← this]
    rfl
  have hstep1 : FANSI_state_at_raw_position.step 0 (colour_text c (b :: t1))
      (state_on (colour_text c (b :: t1)) (-1) 0 0 0) =
      .ok (true, state_on (colour_text c (b :: t1)) c 0 5 1) :=
    step_csi_one hat0 hat1 (le_refl _) htok1 (by simp) (by simp [state_on, INT_MAX])
      (dispatch_colour c hc _) rfl
  have hat5 : (colour_text c (b :: t1)).at 5 = .ok b := by
    have := at_tail [27, 91, 51, 48 + c, 109] ((b :: t1) ++ [27, 91, 48, 109]) 5 0 (by simp)
      (le_refl _)
    have e : colour_text c (b :: t1) =
        cstring ([27, 91, 51, 48 + c, 109] ++ ((b :: t1) ++ [27, 91, 48, 109])) := by
      simp [colour_text]
    rw [e, this]
    exact at_cons_zero b (t1 ++ [27, 91, 48, 109])
  have hbreak1 : FANSI_state_at_raw_position.step 0 (colour_text c (b :: t1))
      (state_on (colour_text c (b :: t1)) c 0 5 1) =
      .ok (false, state_on (colour_text c (b :: t1)) c 0 5 0) :=
    step_break hat5 hb.1 hb.2.1 hb.2.2 rfl
  have hloop1 : FANSI_state_at_raw_position.loop 0 (colour_text c (b :: t1))
      ((colour_text c (b :: t1)).bytes.length + 2)
      (state_on (colour_text c (b :: t1)) (-1) 0 0 0) =
      .ok (state_on (colour_text c (b :: t1)) c 0 5 0) :=
    (loop_next (room_lt (le_refl _)) hstep1).trans (loop_stop (by omega) hbreak1)
  have hcall1 : FANSI_state_at_raw_position 0 (colour_text c (b :: t1)) FANSI_state_init =
      .ok (set_ansi 5 (state_on (colour_text c (b :: t1)) c 0 5 0)) := by
    rw [@raw_position_eq 0 _ FANSI_state_init (Or.inl rfl) (by decide)]
    exact congrArg (fun r => r.map (fun s => set_ansi s.pos_byte s)) hloop1
  -- the second call
  have hrun : FANSI_state_at_raw_position.loop ((b :: t1).length : Int)
      (colour_text c (b :: t1)) ((colour_text c (b :: t1)).bytes.length + 2)
      (state_on (colour_text c (b :: t1)) c 0 5 0) =
      FANSI_state_at_raw_position.loop ((b :: t1).length : Int)
        (colour_text c (b :: t1)) ((colour_text c (b :: t1)).bytes.length + 2)
        (state_on (colour_text c (b :: t1)) c (0 + ((b :: t1).length : Int))
          (5 + ((b :: t1).length : Int)) 0) :=
    loop_text ((b :: t1).length : Int) ((colour_text c (b :: t1)).bytes.length + 2)
      (b :: t1) [27, 91, 51, 48 + c, 109] [27, 91, 48, 109]
      (state_on (colour_text c (b :: t1)) c 0 5 0) hplain rfl rfl rfl
      (by simp [state_on])
      (by
        show (([27, 91, 51, 48 + c, 109] : List Nat).length : Int) + ((b :: t1).length : Int)
          ≤ 2147483647
        simp only [List.length_cons, List.length_nil, Nat.cast_add, Nat.cast_one,
          Nat.cast_ofNat] at hlen1 ⊢
        omega)
      (room_lt (by simp [state_on]))
  have hlt : (([27, 91, 51, 48 + c, 109] ++ (b :: t1) : List Nat).length : Int) =
      5 + ((b :: t1).length : Int) := by
    simp only [List.length_append, List.length_cons, List.length_nil, Nat.cast_add,
      Nat.cast_one, Nat.cast_ofNat]
    omega
  have hatE : (colour_text c (b :: t1)).at (5 + ((b :: t1).length : Int)) = .ok 27 :=
    (at_tail ([27, 91, 51, 48 + c, 109] ++ (b :: t1)) [27, 91, 48, 109] _ 0
      (by rw [hlt]; omega) (le_refl _)).trans (by decide)
  have hatE1 : (colour_text c (b :: t1)).at (5 + ((b :: t1).length : Int) + 1) = .ok 91 :=
    (at_tail ([27, 91, 51, 48 + c, 109] ++ (b :: t1)) [27, 91, 48, 109] _ 1
      (by rw [hlt]) (by decide)).trans (by decide)
  have htok2 : FANSI_parse_token (colour_text c (b :: t1))
      (5 + ((b :: t1).length : Int) + 2) =
      .ok { val := 0, len := 1, success := 2, last := 1 } :=
    (parse_token_tail ([27, 91, 51, 48 + c, 109] ++ (b :: t1)) [27, 91, 48, 109] _ 2
      (by rw [hlt]) (by decide)).trans (by decide)
  have hatN : (colour_text c (b :: t1)).at (5 + ((b :: t1).length : Int) + 2 + (1 + 1)) =
      .ok 0 :=
    (at_tail ([27, 91, 51, 48 + c, 109] ++ (b :: t1)) [27, 91, 48, 109] _ 4
      (by rw [hlt]; omega) (by decide)).trans (by decide)
  have hstep2 : FANSI_state_at_raw_position.step ((b :: t1).length : Int)
      (colour_text c (b :: t1))
      (state_on (colour_text c (b :: t1)) c (0 + ((b :: t1).length : Int))
        (5 + ((b :: t1).length : Int)) 0) =
      .ok (true, state_on (colour_text c (b :: t1)) (-1) (0 + ((b :: t1).length : Int))
        (5 + ((b :: t1).length : Int) + 2 + (1 + 1)) 1) :=
    step_csi_one hatE hatE1 (by simp [state_on]) htok2 (by simp)
      (by
        show 5 + ((b :: t1).length : Int) + 2 + (1 + 1) ≤ 2147483647
        omega)
      rfl rfl
  have hnul : FANSI_state_at_raw_position.step ((b :: t1).length : Int)
      (colour_text c (b :: t1))
      (state_on (colour_text c (b :: t1)) (-1) (0 + ((b :: t1).length : Int))
        (5 + ((b :: t1).length : Int) + 2 + (1 + 1)) 1) =
      .ok (false, state_on (colour_text c (b :: t1)) (-1) (0 + ((b :: t1).length : Int))
        (5 + ((b :: t1).length : Int) + 2 + (1 + 1)) 1) :=
    step_nul hatN
  have hloop2 : FANSI_state_at_raw_position.loop ((b :: t1).length : Int)
      (colour_text c (b :: t1)) ((colour_text c (b :: t1)).bytes.length + 2)
      (state_on (colour_text c (b :: t1)) c 0 5 0) =
      .ok (state_on (colour_text c (b :: t1)) (-1) (0 + ((b :: t1).length : Int))
        (5 + ((b :: t1).length : Int) + 2 + (1 + 1)) 1) :=
    hrun.trans ((loop_next (room_lt (by simp [state_on]; omega)) hstep2).trans
      (loop_stop (by omega) hnul))
  have hcall2 : FANSI_state_at_raw_position ((b :: t1).length : Int)
      (colour_text c (b :: t1)) (set_ansi 5 (state_on (colour_text c (b :: t1)) c 0 5 0)) =
      .ok (set_ansi (5 + ((b :: t1).length : Int) + 2 + (1 + 1))
        (state_on (colour_text c (b :: t1)) (-1) (0 + ((b :: t1).length : Int))
          (5 + ((b :: t1).length : Int) + 2 + (1 + 1)) 1)) := by
    rw [@raw_position_eq ((b :: t1).length : Int) _
      (set_ansi 5 (state_on (colour_text c (b :: t1)) c 0 5 0)) (Or.inr rfl)
      (by simp [set_ansi, state_on]; omega)]
    have := loop_set_ansi 5 ((b :: t1).length : Int) (colour_text c (b :: t1))
      ((colour_text c (b :: t1)).bytes.length + 2) (state_on (colour_text c (b :: t1)) c 0 5 0)
    rw [hloop2] at this
    exact congrArg (fun r => r.map (fun s => set_ansi s.pos_byte s)) this
  refine ⟨_, _, hcall1, rfl, rfl, rfl, hcall2, rfl, rfl, rfl, ?_, ?_⟩
  · simp [set_ansi, state_on]
  · simp only [set_ansi, state_on, colour_text, cstring, List.length_append, List.length_cons,
      List.length_nil, Nat.cast_add, Nat.cast_one, Nat.cast_ofNat]
    omega

/-- Witness of C5 on `ESC[31mredESC[0m`. -/
theorem C5_colour_set_then_reset_witness :
    ∃ st1 st2,
      FANSI_state_at_raw_position 0 (colour_text 1 [114, 101, 100]) FANSI_state_init =
        .ok st1 ∧
      st1.color = (1 : Nat) ∧ st1.pos_raw = 0 ∧ st1.pos_byte = 5 ∧
      FANSI_state_at_raw_position ([114, 101, 100] : List Nat).length
        (colour_text 1 [114, 101, 100]) st1 = .ok st2 ∧
      st2.color = -1 ∧ st2.bg_color = -1 ∧ st2.style = 0 ∧
      st2.pos_raw = ([114, 101, 100] : List Nat).length ∧
      st2.pos_byte = (colour_text 1 [114, 101, 100]).bytes.length :=
  C5_colour_set_then_reset 1 (by decide) [114, 101, 100] (by decide) (by decide) (by decide)

/-- C6. Canonical tag: for a state whose colours are each -1 or in `1..7`,
`FANSI_state_as_chr` returns the empty string when no style bit in `1..9` is
set and both colours are -1, and otherwise `ESC [`, then the items (the digit
of every set style bit in ascending order, then `3` and the colour digit if
`color` is not -1, then `4` and the colour digit if `bg_color` is not -1)
joined by `;`, then `m`. -/
theorem C6_canonical_tag (state : FANSI_state)
    (hc : state.color = -1 ∨ (1 ≤ state.color ∧ state.color ≤ 7))
    (hb : state.bg_color = -1 ∨ (1 ≤ state.bg_color ∧ state.bg_color ≤ 7)) :
    FANSI_state_as_chr state =
      .ok (canonical_tag state.style state.color state.bg_color) :=
  as_chr_basic state hc hb

/-- Witness of C6: style bits 1 and 4 (`style = 18`) and no colour give
`ESC[1;4m`. -/
theorem C6_canonical_tag_witness :
    FANSI_state_as_chr { FANSI_state_init with style := 18 } =
      .ok (canonical_tag 18 (-1) (-1)) ∧
    canonical_tag 18 (-1) (-1) = [27, 91, 49, 59, 52, 109] :=
  ⟨C6_canonical_tag { FANSI_state_init with style := 18 } (Or.inl rfl) (Or.inl rfl),
   by decide⟩

/-- C7, at the failing inputs.  `ESC[38;2;10;20;30m` leaves `color = -1` and
`color_extra = [0,0,0,0]`, and `ESC[48;5;200m` leaves `bg_color = -1` and
`bg_color_extra = [0,0,0,0]`; both sequences are consumed whole. -/
theorem C7_extended_colour_dropped :
    (FANSI_state_at_raw_position 0
        (cstring [27, 91, 51, 56, 59, 50, 59, 49, 48, 59, 50, 48, 59, 51, 48, 109])
        FANSI_state_init).map (fun s => (s.color, s.color_extra, s.pos_raw, s.pos_byte)) =
      .ok (-1, ⟨0, 0, 0, 0⟩, 0, 16) ∧
    (FANSI_state_at_raw_position 0
        (cstring [27, 91, 52, 56, 59, 53, 59, 50, 48, 48, 109])
        FANSI_state_init).map (fun s => (s.bg_color, s.bg_color_extra, s.pos_raw, s.pos_byte)) =
      .ok (-1, ⟨0, 0, 0, 0⟩, 0, 11) := by
  decide

/-- C8, at the failing input.  On `ESC[38;7mX` with the target 0 the call
returns `color = 8` with `color_extra = [0,0,0,0]`, `pos_raw = 0` and
`pos_byte = 5`, the index of the `7`. -/
theorem C8_backtrack_leaves_colour_8 :
    (FANSI_state_at_raw_position 0 (cstring [27, 91, 51, 56, 59, 55, 109, 88])
        FANSI_state_init).map
      (fun s => (s.style, s.color, s.color_extra, s.bg_color, s.pos_raw, s.pos_byte)) =
      .ok (0, 8, ⟨0, 0, 0, 0⟩, -1, 0, 5) := by
  decide

/-- C9, at the failing input.  On `ESC[X` the failed sequence takes 3 bytes
and moves `pos_raw` from 0 to -3.  On `ESC[Xhello` the scan to the target 0
therefore goes on to `pos_raw = 0` at `pos_byte = 6`, and the scan to the
target 8 ends at `pos_raw = 2`, `pos_byte = 8`. -/
theorem C9_malformed_escape_subtracts :
    view (FANSI_state_at_raw_position 0 (cstring [27, 91, 88]) FANSI_state_init) =
      .ok (0, -1, -1, -3, 3) ∧
    view (FANSI_state_at_raw_position 0 (cstring [27, 91, 88, 104, 101, 108, 108, 111])
        FANSI_state_init) = .ok (0, -1, -1, 0, 6) ∧
    view (FANSI_state_at_raw_position 8 (cstring [27, 91, 88, 104, 101, 108, 108, 111])
        FANSI_state_init) = .ok (0, -1, -1, 2, 8) :=
  ⟨by decide, by decide, by decide⟩

/-- C10 as stated fails on the run of 7 digits `9999999`: the token is
rejected (`success = 0`, not 1), and scanning `ESC[9999999mX` to the target 0
returns `pos_raw = -3` and `pos_byte = 11`, not `pos_raw = 0` at the `X` of
index 10. -/
theorem C10_seven_digits_rejected :
    FANSI_parse_token (cstring [57, 57, 57, 57, 57, 57, 57, 109]) 0 =
      .ok { val := 0, len := 4, success := 0, last := 0 } ∧
    view (FANSI_state_at_raw_position 0
        (cstring [27, 91, 57, 57, 57, 57, 57, 57, 57, 109, 88]) FANSI_state_init) =
      .ok (0, -1, -1, -3, 11) := by
  decide

/-- C10, amended.  For every run of exactly four ASCII digits, the token
`d1 d2 d3 d4 m` is accepted as inapplicable (`success = 1`, `len = 4`, ended
by `m`), and scanning `ESC [ d1 d2 d3 d4 m X` from the initial state to the
target 0 leaves style and both colours as they were and returns
`pos_raw = 0` with `pos_byte = 7`, the index of the `X`. -/
theorem C10_four_digits_tolerated (d1 d2 d3 d4 : Nat)
    (h1 : 48 ≤ d1 ∧ d1 ≤ 57) (h2 : 48 ≤ d2 ∧ d2 ≤ 57) (h3 : 48 ≤ d3 ∧ d3 ≤ 57)
    (h4 : 48 ≤ d4 ∧ d4 ≤ 57) :
    FANSI_parse_token (cstring [d1, d2, d3, d4, 109]) 0 =
      .ok { val := 0, len := 4, success := 1, last := 1 } ∧
    view (FANSI_state_at_raw_position 0 (cstring [27, 91, d1, d2, d3, d4, 109, 88])
      FANSI_state_init) = .ok (0, -1, -1, 0, 7) := by
  refine ⟨parse_token_four_digits d1 d2 d3 d4 [] h1 h2 h3 h4, ?_⟩
  have htok : FANSI_parse_token (cstring [27, 91, d1, d2, d3, d4, 109, 88]) (0 + 2) =
      .ok { val := 0, len := 4, success := 1, last := 1 } := by
    have := parse_token_shift [27, 91] [d1, d2, d3, d4, 109, 88] 0 (le_refl _)
    simp only [List.length_cons, List.length_nil, List.cons_append, List.nil_append] at this
    rw [← parse_token_four_digits d1 d2 d3 d4 [88] h1 h2 h3 h4, ← this]
    rfl
  rw [@raw_position_eq 0 _ FANSI_state_init (Or.inl rfl) (by decide)]
  have hstep : FANSI_state_at_raw_position.step 0 (cstring [27, 91, d1, d2, d3, d4, 109, 88])
      (state_on (cstring [27, 91, d1, d2, d3, d4, 109, 88]) (-1) 0 0 0) =
      .ok (true, state_on (cstring [27, 91, d1, d2, d3, d4, 109, 88]) (-1) 0 7 1) :=
    step_csi_one rfl rfl (le_refl _) htok (by simp) (by simp [state_on, INT_MAX]) rfl rfl
  have hbreak : FANSI_state_at_raw_position.step 0 (cstring [27, 91, d1, d2, d3, d4, 109, 88])
      (state_on (cstring [27, 91, d1, d2, d3, d4, 109, 88]) (-1) 0 7 1) =
      .ok (false, state_on (cstring [27, 91, d1, d2, d3, d4, 109, 88]) (-1) 0 7 0) :=
    step_break (c := 88) rfl (by simp) (by simp) (by simp) rfl
  have hloop : FANSI_state_at_raw_position.loop 0 (cstring [27, 91, d1, d2, d3, d4, 109, 88])
      ((cstring [27, 91, d1, d2, d3, d4, 109, 88]).bytes.length + 2)
      (state_on (cstring [27, 91, d1, d2, d3, d4, 109, 88]) (-1) 0 0 0) =
      .ok (state_on (cstring [27, 91, d1, d2, d3, d4, 109, 88]) (-1) 0 7 0) :=
    (loop_next (by simp [room, state_on, cstring]) hstep).trans (loop_stop (by omega) hbreak)
  exact congrArg (fun r => view (r.map (fun s => set_ansi s.pos_byte s))) hloop

/-- Witness of C10 on the digits `9999`. -/
theorem C10_four_digits_tolerated_witness :
    FANSI_parse_token (cstring [57, 57, 57, 57, 109]) 0 =
      .ok { val := 0, len := 4, success := 1, last := 1 } ∧
    view (FANSI_state_at_raw_position 0 (cstring [27, 91, 57, 57, 57, 57, 109, 88])
      FANSI_state_init) = .ok (0, -1, -1, 0, 7) :=
  C10_four_digits_tolerated 57 57 57 57 (by decide) (by decide) (by decide) (by decide)

/-- C11, at the failing input.  On `ESC [ 0xC3` the byte 195 is read by the
tokenizer as a rejected terminator: the call moves `pos_byte` past it, to 3,
and returns a state.  The same byte met by the `while` loop outside a
sequence is fatal. -/
theorem C11_non_ascii_inside_escape :
    view (FANSI_state_at_raw_position 0 (cstring [27, 91, 195]) FANSI_state_init) =
      .ok (0, -1, -1, -3, 3) ∧
    view (FANSI_state_at_raw_position 0 (cstring [27, 91, 49, 195, 109, 88])
      FANSI_state_init) = .ok (0, -1, -1, -2, 6) ∧
    FANSI_state_at_raw_position 1 (cstring [195]) FANSI_state_init = .error .non_ascii :=
  ⟨by decide, by decide, by decide⟩

/-- C12. The comparator returns 0 exactly when style, both colours and the
four slots of both extra arrays agree, and 1 exactly when they do not; its
result is the same whatever `string`, `pos_ansi`, `pos_raw`, `pos_byte`,
`last` and `fail` are on either side. -/
theorem C12_comp_is_display_equality (a b : FANSI_state) :
    (FANSI_state_comp a b = 0 ↔
      (a.style = b.style ∧ a.color = b.color ∧ a.bg_color = b.bg_color ∧
       a.color_extra.x0 = b.color_extra.x0 ∧ a.color_extra.x1 = b.color_extra.x1 ∧
       a.color_extra.x2 = b.color_extra.x2 ∧ a.color_extra.x3 = b.color_extra.x3 ∧
       a.bg_color_extra.x0 = b.bg_color_extra.x0 ∧
       a.bg_color_extra.x1 = b.bg_color_extra.x1 ∧
       a.bg_color_extra.x2 = b.bg_color_extra.x2 ∧
       a.bg_color_extra.x3 = b.bg_color_extra.x3)) ∧
    (FANSI_state_comp a b = 1 ↔
      ¬(a.style = b.style ∧ a.color = b.color ∧ a.bg_color = b.bg_color ∧
       a.color_extra.x0 = b.color_extra.x0 ∧ a.color_extra.x1 = b.color_extra.x1 ∧
       a.color_extra.x2 = b.color_extra.x2 ∧ a.color_extra.x3 = b.color_extra.x3 ∧
       a.bg_color_extra.x0 = b.bg_color_extra.x0 ∧
       a.bg_color_extra.x1 = b.bg_color_extra.x1 ∧
       a.bg_color_extra.x2 = b.bg_color_extra.x2 ∧
       a.bg_color_extra.x3 = b.bg_color_extra.x3)) ∧
    (∀ (s1 s2 : Option CString) (pa1 pa2 pr1 pr2 pb1 pb2 l1 l2 f1 f2 : Int),
      FANSI_state_comp
        { a with string := s1, pos_ansi := pa1, pos_raw := pr1, pos_byte := pb1,
                 last := l1, fail := f1 }
        { b with string := s2, pos_ansi := pa2, pos_raw := pr2, pos_byte := pb2,
                 last := l2, fail := f2 } = FANSI_state_comp a b) := by
  refine ⟨?_, ?_, ?_⟩
  · unfold FANSI_state_comp
    split
    · rename_i h
      simp only [true_iff]
      obtain ⟨h1, h2, h3, h4, h5, h6, h7, h8, h9, h10, h11⟩ := h
      exact ⟨h1, h2, h3, h4, h6, h8, h10, h5, h7, h9, h11⟩
    · rename_i h
      simp only [one_ne_zero, false_iff]
      intro ⟨h1, h2, h3, h4, h6, h8, h10, h5, h7, h9, h11⟩
      exact h ⟨h1, h2, h3, h4, h5, h6, h7, h8, h9, h10, h11⟩
  · unfold FANSI_state_comp
    split
    · rename_i h
      simp only [zero_ne_one, false_iff, not_not]
      obtain ⟨h1, h2, h3, h4, h5, h6, h7, h8, h9, h10, h11⟩ := h
      exact ⟨h1, h2, h3, h4, h6, h8, h10, h5, h7, h9, h11⟩
    · rename_i h
      simp only [true_iff]
      intro ⟨h1, h2, h3, h4, h6, h8, h10, h5, h7, h9, h11⟩
      exact h ⟨h1, h2, h3, h4, h5, h6, h7, h8, h9, h10, h11⟩
  · intros
    rfl

/-- C13. Wherever the cursor stands, if the bytes there are at most three ASCII
digits followed by a byte `c` that is not a digit, the tokenizer returns: for `c` one of `;`
and `m`, success 2, the decimal value of the digits (at most 999, and 0 for no digit), the
number of digits as `len`, and `last = 1` exactly for `m`; for any other `c`, success 0. The
end of the buffer after the digits is rejected in the same way. -/
theorem C13_token_decoding (pre ds rest : List Nat) (c : Nat) (hk : ds.length ≤ 3)
    (hd : ∀ d ∈ ds, 48 ≤ d ∧ d ≤ 57) (hc : ¬(48 ≤ c ∧ c ≤ 57)) :
    decimal_value ds ≤ 999 ∧ decimal_value [] = 0 ∧
    FANSI_parse_token (cstring (pre ++ (ds ++ c :: rest))) pre.length =
      .ok (if c = 59 ∨ c = 109 then
             { val := decimal_value ds, len := ds.length, success := 2,
               last := if c = 109 then 1 else 0 }
           else { val := 0, len := ds.length, success := 0, last := 0 }) ∧
    FANSI_parse_token (cstring (pre ++ ds)) pre.length =
      .ok { val := 0, len := ds.length, success := 0, last := 0 } := by
  refine ⟨decimal_value_le ds hk hd, rfl, ?_, ?_⟩
  · rw [parse_token_tail pre (ds ++ c :: rest) pre.length 0 (by simp) (le_refl 0)]
    exact parse_token_digits_then ds rest c hk hd hc
  · rw [parse_token_tail pre ds pre.length 0 (by simp) (le_refl 0)]
    exact parse_token_digits_end ds hk hd

/-- Witness of C13 on `ESC[31m` with the cursor after `ESC [`: the token is 31, ended by `m`. -/
theorem C13_token_decoding_witness :
    FANSI_parse_token (cstring ([27, 91] ++ ([51, 49] ++ 109 :: []))) 2 =
      .ok { val := 31, len := 2, success := 2, last := 1 } :=
  (C13_token_decoding [27, 91] [51, 49] [] 109 (by decide) (by decide) (by decide)).2.2.1

/-- C14, at the failing inputs.  `sprintf` in `FANSI_color_write` prints at
the start of the pointer it is given, over the `38;` just written, and its
NUL ends the string: colour 8 with `color_extra = [2,10,20,30]` serializes to
`ESC[2;10;20;30;`, and with `[5,200,0,0]` to `ESC[5;200;`. -/
theorem C14_extended_colour_overwritten :
    FANSI_state_as_chr { FANSI_state_init with color := 8, color_extra := ⟨2, 10, 20, 30⟩ } =
      .ok [27, 91, 50, 59, 49, 48, 59, 50, 48, 59, 51, 48, 59] ∧
    FANSI_state_as_chr { FANSI_state_init with color := 8, color_extra := ⟨5, 200, 0, 0⟩ } =
      .ok [27, 91, 53, 59, 50, 48, 48, 59] ∧
    FANSI_state_as_chr
      { FANSI_state_init with bg_color := 8, bg_color_extra := ⟨2, 10, 20, 30⟩ } =
      .ok [27, 91, 50, 59, 49, 48, 59, 50, 48, 59, 51, 48, 59] :=
  ⟨by decide, by decide, by decide⟩

/-- C15, at the failing inputs.  With no style bit and colour 0 on either
side the tag is the two bytes `ESC m`: it does not begin with `ESC [`. -/
theorem C15_tag_for_black_is_esc_m :
    FANSI_state_as_chr { FANSI_state_init with color := 0 } = .ok [27, 109] ∧
    FANSI_state_as_chr { FANSI_state_init with bg_color := 0 } = .ok [27, 109] ∧
    FANSI_state_as_chr { FANSI_state_init with color := 0, bg_color := 0 } =
      .ok [27, 109] :=
  ⟨by decide, by decide, by decide⟩

/-- C16. For every buffer and every state, if `pos_raw` is above the target the call
stops with an error and returns no state: the error of the check on the position when the
state has no buffer or the same buffer, the error of the check on the buffer otherwise. If
`pos_raw` is at most the target and the state has no buffer or the same buffer, the call does
not stop with either of the two errors, whatever the scan does afterwards. -/
theorem C16_caller_check (pos : Int) (string : CString) (st : FANSI_state) :
    (pos < st.pos_raw →
      (∃ e, FANSI_state_at_raw_position pos string st = .error e) ∧
      (st.string = none ∨ st.string = some string →
        FANSI_state_at_raw_position pos string st = .error .later_pos) ∧
      (¬(st.string = none ∨ st.string = some string) →
        FANSI_state_at_raw_position pos string st = .error .diff_string)) ∧
    (st.pos_raw ≤ pos → (st.string = none ∨ st.string = some string) →
      FANSI_state_at_raw_position pos string st ≠ .error .later_pos ∧
      FANSI_state_at_raw_position pos string st ≠ .error .diff_string) := by
  constructor
  · intro hlt
    have hmatch : st.string = none ∨ st.string = some string →
        FANSI_state_at_raw_position pos string st = .error .later_pos := by
      intro hs
      unfold FANSI_state_at_raw_position
      have h1 : ¬(st.string ≠ none ∧ st.string ≠ some string) := by
        rcases hs with h | h <;> simp [h]
      rw [if_neg h1, if_pos hlt]
    have hdiff : ¬(st.string = none ∨ st.string = some string) →
        FANSI_state_at_raw_position pos string st = .error .diff_string := by
      intro hs
      unfold FANSI_state_at_raw_position
      have h1 : st.string ≠ none ∧ st.string ≠ some string :=
        ⟨fun h => hs (Or.inl h), fun h => hs (Or.inr h)⟩
      rw [if_pos h1]
    refine ⟨?_, hmatch, hdiff⟩
    by_cases hs : st.string = none ∨ st.string = some string
    · exact ⟨_, hmatch hs⟩
    · exact ⟨_, hdiff hs⟩
  · intro hle hs
    rw [raw_position_eq hs hle]
    cases hl : FANSI_state_at_raw_position.loop pos string (string.bytes.length + 2)
        { st with string := some string } with
    | ok s => exact ⟨fun h => (by cases h), fun h => (by cases h)⟩
    | error e =>
      have he := loop_scan_error hl
      exact ⟨fun h => (by cases h; exact he.1 rfl), fun h => (by cases h; exact he.2 rfl)⟩

/-- Witness of C16 on `ESC[31mredESC[0m` and a state with `pos_raw = 3`: the target 0 is
refused, the target 3 is not. -/
theorem C16_caller_check_witness :
    FANSI_state_at_raw_position 0 red_text (state_on red_text 1 3 8 1) = .error .later_pos ∧
    FANSI_state_at_raw_position 3 red_text (state_on red_text 1 3 8 1) ≠ .error .later_pos :=
  ⟨((C16_caller_check 0 red_text (state_on red_text 1 3 8 1)).1 (by decide)).2.1
      (Or.inr rfl),
   ((C16_caller_check 3 red_text (state_on red_text 1 3 8 1)).2 (by decide) (Or.inr rfl)).1⟩

/-- C17. Every state the driver obtains by threading the state through the calls for
a list of targets on one buffer, starting from the initial state, has a style with no bit set
outside 1..9, both colours between -1 and 8, and the extra array of a colour zero when that
colour is not 8. The extra arrays are in fact zero in every such state, also when the colour is
8: the scan never stores a component. The buffer may hold any bytes. -/
theorem C17_display_invariant (string : CString) (poss : List Int)
    (states : List FANSI_state)
    (h : thread string poss FANSI_state_init = .ok states) :
    ∀ s ∈ states,
      (∀ i, s.style.testBit i = true → 1 ≤ i ∧ i ≤ 9) ∧
      (-1 ≤ s.color ∧ s.color ≤ 8) ∧ (-1 ≤ s.bg_color ∧ s.bg_color ≤ 8) ∧
      (s.color ≠ 8 → s.color_extra = Arr4.zero) ∧
      (s.bg_color ≠ 8 → s.bg_color_extra = Arr4.zero) ∧
      s.color_extra = Arr4.zero ∧ s.bg_color_extra = Arr4.zero := by
  intro s hs
  have h0 : display_ok FANSI_state_init := by
    refine ⟨?_, by decide, by decide, rfl, rfl⟩
    intro i hi
    simp [FANSI_state_init] at hi
  obtain ⟨a1, a2, a3, a4, a5⟩ := thread_display string poss FANSI_state_init states h0 h s hs
  exact ⟨a1, a2, a3, fun _ => a4, fun _ => a5, a4, a5⟩

/-- Witness of C17 on `ESC[1;38;7;42mA` with the targets 0, 1: the states have the style bits
1 and 7, the foreground colour 8 and the background colour 2. -/
theorem C17_display_invariant_witness :
    thread (cstring [27, 91, 49, 59, 51, 56, 59, 55, 59, 52, 50, 109, 65]) [0, 1]
        FANSI_state_init =
      .ok [{ FANSI_state_init with
             string := some (cstring [27, 91, 49, 59, 51, 56, 59, 55, 59, 52, 50, 109, 65]),
             style := 130, color := 8, bg_color := 2, pos_ansi := 12, pos_byte := 12 },
           { FANSI_state_init with
             string := some (cstring [27, 91, 49, 59, 51, 56, 59, 55, 59, 52, 50, 109, 65]),
             style := 130, color := 8, bg_color := 2, pos_ansi := 13, pos_raw := 1,
             pos_byte := 13 }] ∧
    ∀ s ∈ [({ FANSI_state_init with
             string := some (cstring [27, 91, 49, 59, 51, 56, 59, 55, 59, 52, 50, 109, 65]),
             style := 130, color := 8, bg_color := 2, pos_ansi := 12, pos_byte := 12 } :
             FANSI_state),
           { FANSI_state_init with
             string := some (cstring [27, 91, 49, 59, 51, 56, 59, 55, 59, 52, 50, 109, 65]),
             style := 130, color := 8, bg_color := 2, pos_ansi := 13, pos_raw := 1,
             pos_byte := 13 }],
      (∀ i, s.style.testBit i = true → 1 ≤ i ∧ i ≤ 9) ∧
      (-1 ≤ s.color ∧ s.color ≤ 8) ∧ (-1 ≤ s.bg_color ∧ s.bg_color ≤ 8) ∧
      (s.color ≠ 8 → s.color_extra = Arr4.zero) ∧
      (s.bg_color ≠ 8 → s.bg_color_extra = Arr4.zero) ∧
      s.color_extra = Arr4.zero ∧ s.bg_color_extra = Arr4.zero :=
  ⟨by decide,
   C17_display_invariant (cstring [27, 91, 49, 59, 51, 56, 59, 55, 59, 52, 50, 109, 65]) [0, 1]
     _ (by decide)⟩

/-- C18. Take any state whose cursor is on a sequence `ESC [ n m` of the buffer,
with `n` a style code (0 to 9 or 20 to 29) written in decimal, the target not yet passed and
the style in the range of an `unsigned int`. The pass of the `while` loop over the sequence
returns a state that stands in the relation `sgr_table` to the one before: `n` in 1..9 sets bit
`n` and no other, 22 clears bits 1 and 2, 25 clears bits 5 and 6, 23, 24, 27, 28 and 29 clear
bit `n - 20`, each leaving the other bits and both colours as they were; 20, 21 and 26 leave
style and colours as they were; 0 resets style, colours and extra arrays. In every case
`pos_raw` is unchanged and the cursor is past the sequence. When the sequence ends the buffer,
the same holds of the state the whole call returns. -/
theorem C18_style_dispatch (pre rest : List Nat) (n : Nat) (pos : Int) (st : FANSI_state)
    (hn : n ≤ 9 ∨ (20 ≤ n ∧ n ≤ 29)) (hcur : st.pos_byte = (pre.length : Int))
    (hraw : st.pos_raw ≤ pos) (hs : st.style < 2 ^ 32)
    (hmax : ((pre ++ sgr_text n ++ rest).length : Int) ≤ INT_MAX) :
    (∃ st1, FANSI_state_at_raw_position.step pos (cstring (pre ++ sgr_text n ++ rest)) st =
        .ok (true, st1) ∧
      sgr_table n st st1 ∧ st1.pos_raw = st.pos_raw ∧
      st1.pos_byte = st.pos_byte + ((sgr_text n).length : Int)) ∧
    (st.string = none ∨ st.string = some (cstring (pre ++ sgr_text n)) →
      ∃ st1, FANSI_state_at_raw_position pos (cstring (pre ++ sgr_text n)) st = .ok st1 ∧
        sgr_table n st st1 ∧ st1.pos_raw = st.pos_raw ∧
        st1.pos_byte = st.pos_byte + ((sgr_text n).length : Int)) := by
  constructor
  · obtain ⟨st1, h1, h2, h3, h4, _⟩ := step_sgr pre rest n pos st hn hcur hraw hs hmax
    exact ⟨st1, h1, h2, h3, h4⟩
  · intro hbuf
    have hmax0 : ((pre ++ sgr_text n ++ []).length : Int) ≤ INT_MAX := by
      have h := hmax
      simp only [List.length_append, Nat.cast_add, List.length_nil, Nat.cast_zero] at h ⊢
      have h2 : (0 : Int) ≤ (rest.length : Int) := Int.natCast_nonneg _
      have h3 : (pre.length : Int) + ((sgr_text n).length : Int) + (rest.length : Int) ≤
          2147483647 := h
      show (pre.length : Int) + ((sgr_text n).length : Int) + 0 ≤ 2147483647
      omega
    obtain ⟨st1, h1, h2, h3, h4, _⟩ := step_sgr pre [] n pos
      { st with string := some (cstring (pre ++ sgr_text n)) } hn hcur hraw hs hmax0
    rw [List.append_nil] at h1
    have hnul : FANSI_state_at_raw_position.step pos (cstring (pre ++ sgr_text n)) st1 =
        .ok (false, st1) := by
      apply step_nul
      apply at_end
      rw [h4]
      show st.pos_byte + _ = _
      rw [hcur]
      simp
    have hroom : room (cstring (pre ++ sgr_text n))
        { st with string := some (cstring (pre ++ sgr_text n)) } <
        (cstring (pre ++ sgr_text n)).bytes.length + 2 :=
      room_lt (show (0 : Int) ≤ st.pos_byte by omega)
    refine ⟨set_ansi st1.pos_byte st1, ?_, h2, h3, h4⟩
    rw [raw_position_eq hbuf hraw, loop_next hroom h1, loop_stop (by omega) hnul]
    rfl

/-- Witness of C18 on `ESC[22m` from a state with the style bits 1 and 2. -/
theorem C18_style_dispatch_witness :
    ∃ st1, FANSI_state_at_raw_position 0 (cstring ([] ++ sgr_text 22))
        { FANSI_state_init with style := 6 } = .ok st1 ∧
      sgr_table 22 { FANSI_state_init with style := 6 } st1 ∧ st1.pos_raw = 0 ∧
      st1.pos_byte = 0 + ((sgr_text 22).length : Int) :=
  (C18_style_dispatch [] [] 22 0 { FANSI_state_init with style := 6 } (by decide) (by decide)
    (by decide) (by decide) (by decide)).2 (Or.inl rfl)

/-- C19. Take any state whose cursor is on `ESC [`, with the target not yet passed.
If the token loop of that sequence ends with `fail` set, whatever the tokens before the
rejected one have done to the style and the colours, the pass of the `while` loop over the
sequence returns a state with the style, both colours and both extra arrays of the state
before the `ESC` byte; its cursor is where the token loop stopped. -/
theorem C19_failed_sequence_restores_display {pos : Int} {string : CString}
    {st st2 : FANSI_state}
    (hc : string.at st.pos_byte = .ok 27) (hc1 : string.at (st.pos_byte + 1) = .ok 91)
    (hraw : st.pos_raw ≤ pos) (hmax : st.pos_byte + 2 ≤ INT_MAX)
    (ht : FANSI_state_at_raw_position.tokens string (string.bytes.length + 2)
      { st with fail := 0, last := 0, pos_byte := st.pos_byte + 2 } = .ok st2)
    (hfail : st2.fail ≠ 0) :
    ∃ st1, FANSI_state_at_raw_position.step pos string st = .ok (true, st1) ∧
      st1.style = st.style ∧ st1.color = st.color ∧ st1.bg_color = st.bg_color ∧
      st1.color_extra = st.color_extra ∧ st1.bg_color_extra = st.bg_color_extra ∧
      st1.pos_byte = st2.pos_byte := by
  refine ⟨_, step_csi hc hc1 hraw hmax ht, ?_⟩
  unfold FANSI_state_at_raw_position.recover
  rw [if_pos hfail]
  exact ⟨rfl, rfl, rfl, rfl, rfl, rfl⟩

/-- Witness of C19 on `ESC[1;31;X` from a state with the style bit 4 and the colour 2: the
token loop ends with the style bits 1 and 4, the colour 1 and `fail` set; the pass returns the
style and the colour it was given. -/
theorem C19_failed_sequence_restores_display_witness :
    FANSI_state_at_raw_position.tokens (cstring [27, 91, 49, 59, 51, 49, 59, 88]) 10
      { FANSI_state_init with style := 16, color := 2, pos_byte := 2 } =
      .ok { FANSI_state_init with style := 18, color := 1, pos_byte := 8, fail := 1 } ∧
    ∃ st1, FANSI_state_at_raw_position.step 0 (cstring [27, 91, 49, 59, 51, 49, 59, 88])
        { FANSI_state_init with style := 16, color := 2 } = .ok (true, st1) ∧
      st1.style = 16 ∧ st1.color = 2 ∧ st1.bg_color = -1 ∧
      st1.color_extra = Arr4.zero ∧ st1.bg_color_extra = Arr4.zero ∧
      st1.pos_byte = 8 :=
  ⟨by decide,
   @C19_failed_sequence_restores_display 0 (cstring [27, 91, 49, 59, 51, 49, 59, 88])
    { FANSI_state_init with style := 16, color := 2 }
    { FANSI_state_init with style := 18, color := 1, pos_byte := 8, fail := 1 }
    (by decide) (by decide) (by decide) (by decide) (by decide) (by decide)⟩

/-- C20, at the failing input.  On the string `ESC [` (length 2) the pass over
the sequence rejects the token at the NUL and still advances by one: it leaves
`pos_byte = 3`.  The next test of the `while` reads `string[3]`, outside the
buffer, so the call returns no state. -/
theorem C20_cursor_passes_the_nul :
    (FANSI_state_at_raw_position.step 0 (cstring [27, 91])
        (state_on (cstring [27, 91]) (-1) 0 0 0)).map
      (fun r => (r.1, r.2.pos_raw, r.2.pos_byte)) = .ok (true, -3, 3) ∧
    (cstring [27, 91]).at 3 = .error .oob ∧
    FANSI_state_at_raw_position 0 (cstring [27, 91]) FANSI_state_init = .error .oob :=
  ⟨by decide, by decide, by decide⟩

/-- C21, at the failing inputs.  On `ESC[38;7m` the scan to the target 0 returns a state with
`color = 8` and a zero `color_extra` (the sub-mode 7 is neither 2 nor 5, and the colour set
before the sub-parser ran is kept).  `FANSI_color_size` has no case for it: the serializer
stops on that state with "unexpected compound color format".  The same holds of the
background on `ESC[48;7m`. -/
theorem C21_serializer_fails_on_parsed_state :
    (FANSI_state_at_raw_position 0 (cstring [27, 91, 51, 56, 59, 55, 109])
      FANSI_state_init).map (fun s => (s.color, s.color_extra)) = .ok (8, Arr4.zero) ∧
    (FANSI_state_at_raw_position 0 (cstring [27, 91, 51, 56, 59, 55, 109]) FANSI_state_init >>=
      FANSI_state_as_chr) = .error .compound_format ∧
    (FANSI_state_at_raw_position 0 (cstring [27, 91, 52, 56, 59, 55, 109]) FANSI_state_init >>=
      FANSI_state_as_chr) = .error .compound_format :=
  ⟨by decide, by decide, by decide⟩

/-- C22. For all states `a` and `b` that the comparator finds equal, the serializer gives the
same result on both: the same string when it returns one (and the same error when it does not).
Its result is the same after any change of `string`, `pos_ansi`, `pos_raw`, `pos_byte`, `last`
and `fail`. -/
theorem C22_dedup_sound (a b : FANSI_state) (h : FANSI_state_comp a b = 0) :
    FANSI_state_as_chr a = FANSI_state_as_chr b ∧
    (∀ sa sb, FANSI_state_as_chr a = .ok sa → FANSI_state_as_chr b = .ok sb → sa = sb) ∧
    (∀ s pa pr pb l f,
      FANSI_state_as_chr
        { a with string := s, pos_ansi := pa, pos_raw := pr, pos_byte := pb, last := l,
                 fail := f } = FANSI_state_as_chr a) := by
  have he := as_chr_same (comp_zero_same h)
  refine ⟨he, ?_, ?_⟩
  · intro sa sb ha hb
    rw [he, hb] at ha
    cases ha
    rfl
  · intros
    rfl

/-- Witness of C22 on the state the scan of `ESC[31mredESC[0m` to the target 0 returns and the
initial state with the colour 1: both serialize to `ESC[31m`. -/
theorem C22_dedup_sound_witness :
    FANSI_state_comp (red_state 1 0 5 0) { FANSI_state_init with color := 1 } = 0 ∧
    FANSI_state_as_chr (red_state 1 0 5 0) = .ok [27, 91, 51, 49, 109] ∧
    FANSI_state_as_chr (red_state 1 0 5 0) =
      FANSI_state_as_chr { FANSI_state_init with color := 1 } :=
  ⟨by decide, by decide,
   (C22_dedup_sound (red_state 1 0 5 0) { FANSI_state_init with color := 1 } (by decide)).1⟩

end Fansi
